import Mathlib

/-!
Dungeon generator (`dungeon.c`): shallow embedding and verified properties

Conventions of the embedding.

* The program is embedded twice.  The definitions of the namespace `Dungeon`
  take C `int` values (grid width and height, cell indices, the area) as `Int`
  and signed arithmetic without overflow.  The definitions of the namespace
  `Dungeon.Machine` carry the same names and compute `int` arithmetic as the
  compiled program does, on 32 bits with two's complement wrap-around
  (`wrap_int`), and the conversions between `int` and `unsigned int`
  (`to_unsigned`).  The two embeddings agree on every grid with
  `width * height + width ≤ 2 ^ 31` (`no_int_overflow`), where no candidate of
  the neighbour resolver and no product overflows.  The theorems named
  `machine_...` and the examples with overflow are about `Dungeon.Machine`; the
  other theorems are about the embedding without overflow, and so describe the
  compiled program on the grids within that bound.
* C `unsigned int` values (the cursor `i`, `generated_cells_number`, the
  entrance index) are `Nat`; the places where the program relies on unsigned
  wrap-around (`i = -1`, `i++`, `generated_cells_number - 1`) carry an explicit
  `% 2 ^ 32`.
* Bit masks (cells of the grid, door bits, `potential_doors`) are `Nat` with the
  bitwise operators of `Nat`.
* `generate_room` reads `cell_index` from the `int` array into an
  `unsigned int` and passes it on as an `int`; the embedding without overflow
  keeps the `Int` read from the array (the two conversions are the identity on
  cell indices), `Dungeon.Machine` applies both conversions.
* Arrays are total maps: `grid : Int → Nat` and `generated_cells : Nat → Int`; a
  write is `Function.update`.  That the indices used stay inside the allocated
  blocks is the subject of separate statements.
* Every call of `get_random_int` is answered by a `RandomSource`: the value
  returned by the `k`-th call, given the bounds passed to it.  `urandom` is the
  source of the program itself, fed with the words read from `/dev/urandom`.
-/

namespace Dungeon

/-! ## Constants of `dungeon.h` -/

/-- Modelled from the spec: the header `dungeon.h` is not part of the sources.
The four door bits are the four low bits, in the order in which `generate_room`
walks them (`door = 1; door <<= 1`): north first. -/
def BIT_DOOR_NORTH : Nat := 1

/-- Modelled from the spec: second door bit of `dungeon.h` (east). -/
def BIT_DOOR_EAST : Nat := 2

/-- Modelled from the spec: third door bit of `dungeon.h` (south). -/
def BIT_DOOR_SOUTH : Nat := 4

/-- Modelled from the spec: fourth door bit of `dungeon.h` (west). -/
def BIT_DOOR_WEST : Nat := 8

/-- Modelled from the spec: the flag of `dungeon.h` marking the entrance, an
independent flag of the cell; it is given the first bit above the door bits. -/
def BIT_ENTRANCE : Nat := 16

/-- Modelled from the spec: the flag of `dungeon.h` marking a processed room, an
independent flag of the cell; it is given the second bit above the door bits. -/
def BIT_USED_ROOM : Nat := 32

/-- Bits for the possible doors of a cell (`g_neighbours`, line 19). -/
def g_neighbours : Nat :=
  BIT_DOOR_NORTH ||| BIT_DOOR_EAST ||| BIT_DOOR_SOUTH ||| BIT_DOOR_WEST

/-- Number of values of an `unsigned int`. -/
def UINT_SIZE : Nat := 2 ^ 32

/-! ## Random source -/

/-- The arithmetic of `get_random_int` (lines 132-142) on the word `rInt` read
from `/dev/urandom`: `rInt % (max - min) + min` in unsigned 32-bit arithmetic. -/
def get_random_int (min max rInt : Nat) : Nat :=
  (rInt % ((max + UINT_SIZE - min) % UINT_SIZE) + min) % UINT_SIZE

/-- A random source answers the `k`-th call `get_random_int(min, max)`. -/
abbrev RandomSource := Nat → Nat → Nat → Nat

/-- The random source of the program: the `k`-th call reads the word `raw k`. -/
def urandom (raw : Nat → Nat) : RandomSource :=
  fun k min max => get_random_int min max (raw k % UINT_SIZE)

/-! ## Directions -/

/-- Opposite of a cardinal direction (lines 165-183); `-1` when the argument is
not one of the four door bits. -/
def get_opposite_direction_bit (direction : Nat) : Int :=
  if direction = BIT_DOOR_NORTH then (BIT_DOOR_SOUTH : Int)
  else if direction = BIT_DOOR_EAST then (BIT_DOOR_WEST : Int)
  else if direction = BIT_DOOR_SOUTH then (BIT_DOOR_NORTH : Int)
  else if direction = BIT_DOOR_WEST then (BIT_DOOR_EAST : Int)
  else -1

/-- Index of the neighbour room in a direction, or `-1` (lines 190-220).
`%` of C truncates towards zero: `Int.tmod`.  For a direction that is none of
the four door bits the C variable is never assigned and no test succeeds. -/
def get_neighbour_room_index (width height current_room : Int) (direction : Nat) : Int :=
  let neighbour_room : Int :=
    if direction = BIT_DOOR_NORTH then current_room - width
    else if direction = BIT_DOOR_EAST then current_room + 1
    else if direction = BIT_DOOR_SOUTH then current_room + width
    else if direction = BIT_DOOR_WEST then current_room - 1
    else 0
  if (direction = BIT_DOOR_NORTH ∧ neighbour_room ≥ 0)
      ∨ (direction = BIT_DOOR_SOUTH ∧ neighbour_room < width * height)
      ∨ (direction = BIT_DOOR_EAST ∧ Int.tmod neighbour_room width > 0)
      ∨ (direction = BIT_DOOR_WEST ∧ Int.tmod neighbour_room width < width - 1)
  then neighbour_room
  else -1

/-! ## Generation state -/

/-- The memory `generate_dungeon` works on: the grid and entrance of the
dungeon, the array of generated cells with its length, the cursor `i`, and the
number of calls of `get_random_int` made so far. -/
structure State where
  grid : Int → Nat
  entrance : Nat
  generated_cells : Nat → Int
  generated_cells_number : Nat
  i : Nat
  draws : Nat

/-- State at the entry of `generate_dungeon`: the given grid, `calloc`-ed
array of generated cells, `generated_cells_number = 0`, `i = 0`. -/
def initial_state (grid : Int → Nat) : State :=
  { grid := grid, entrance := 0, generated_cells := fun _ => 0,
    generated_cells_number := 0, i := 0, draws := 0 }

/-- The all-zero grid. -/
def empty_grid : Int → Nat := fun _ => 0

/-! ## `generate_room` -/

/-- One turn of the `for (door ...)` loop of `generate_room` (lines 89-123). -/
def generate_room_door (width height : Int) (potential_doors : Nat) (cell_index : Int)
    (door : Nat) (s : State) : State :=
  if (door &&& g_neighbours) ≠ door ∨ (s.grid cell_index &&& door) ≠ 0 then s
  else
    let neighbour_room := get_neighbour_room_index width height cell_index door
    if neighbour_room = -1 ∨ (s.grid neighbour_room &&& BIT_USED_ROOM) ≠ 0 then s
    else
      let opposite_door := get_opposite_direction_bit door
      let grid1 : Int → Nat :=
        if (door &&& potential_doors) = door then
          let g := Function.update s.grid cell_index (s.grid cell_index ||| door)
          Function.update g neighbour_room (g neighbour_room ||| opposite_door.toNat)
        else s.grid
      if (grid1 neighbour_room : Int) = opposite_door then
        { s with grid := grid1,
                 generated_cells :=
                   Function.update s.generated_cells s.generated_cells_number neighbour_room,
                 generated_cells_number := s.generated_cells_number + 1 }
      else { s with grid := grid1 }

/-- The loop `for (door = 1; door <= g_neighbours; door <<= 1)` (line 88). -/
def generate_room_loop (width height : Int) (potential_doors : Nat) (cell_index : Int) :
    Nat → Nat → State → State
  | 0, _, s => s
  | fuel + 1, door, s =>
    if door ≤ g_neighbours then
      generate_room_loop width height potential_doors cell_index fuel (door <<< 1)
        (generate_room_door width height potential_doors cell_index door s)
    else s

/-- Model of `generate_room` (lines 80-125): one draw of `potential_doors`,
then the door loop on the cell `cells_queue[cell_index_queue]`; the loop tests
its condition five times (`door = 1, 2, 4, 8, 16`). -/
def generate_room (width height : Int) (rs : RandomSource) (cell_index_queue : Nat)
    (s : State) : State :=
  let potential_doors := rs s.draws 0 g_neighbours
  let cell_index := s.generated_cells cell_index_queue
  generate_room_loop width height potential_doors cell_index 5 1
    { s with draws := s.draws + 1 }

/-! ## `generate_dungeon` -/

/-- Condition of the main loop (line 53).  The program compares
`generated_cells_number` with `dungeon_area` converted to `unsigned int`, which
is the comparison of the two numbers for an area that an `int` can hold. -/
def loop_cond (width height : Int) (s : State) : Prop :=
  (s.generated_cells_number : Int) < width * height
    ∧ (s.i = 0 ∨ s.i < s.generated_cells_number)

instance (width height : Int) (s : State) : Decidable (loop_cond width height s) :=
  inferInstanceAs (Decidable (_ ∧ _))

/-- Definition of the entrance in the first turn (lines 55-61). -/
def define_entrance (width height : Int) (rs : RandomSource) (s : State) : State :=
  if s.i = 0 ∧ s.generated_cells_number = 0 then
    let entrance := rs s.draws 0 (width * height).toNat
    { s with generated_cells := Function.update s.generated_cells 0 (entrance : Int),
             grid := Function.update s.grid (entrance : Int) (BIT_ENTRANCE ||| BIT_USED_ROOM),
             entrance := entrance,
             generated_cells_number := 1,
             draws := s.draws + 1 }
  else s

/-- Flagging of the processed room (lines 65-68). -/
def flag_used (s : State) : State :=
  if (s.grid (s.generated_cells s.i) &&& BIT_USED_ROOM) = 0 then
    { s with grid := Function.update s.grid (s.generated_cells s.i)
                       (s.grid (s.generated_cells s.i) ||| BIT_USED_ROOM) }
  else s

/-- Restart of the pass (lines 70-72) followed by the `i++` of the loop.  The
comparison with `dungeon_area * .75` is exact in `double`, hence
`4 * generated_cells_number < 3 * dungeon_area`. -/
def advance (width height : Int) (s : State) : State :=
  let i1 : Nat :=
    if s.i = (s.generated_cells_number + UINT_SIZE - 1) % UINT_SIZE
        ∧ 4 * (s.generated_cells_number : Int) < 3 * (width * height)
    then UINT_SIZE - 1 else s.i
  { s with i := (i1 + 1) % UINT_SIZE }

/-- One turn of the main loop (lines 54-72 and the increment of line 53). -/
def loop_body (width height : Int) (rs : RandomSource) (s : State) : State :=
  let s1 := define_entrance width height rs s
  let s2 := generate_room width height rs s1.i s1
  advance width height (flag_used s2)

/-- The main loop with a bound on the number of turns: `none` when the bound
is reached while the loop condition still holds. -/
def run_loop (width height : Int) (rs : RandomSource) : Nat → State → Option State
  | 0, s => if loop_cond width height s then none else some s
  | fuel + 1, s =>
    if loop_cond width height s then
      run_loop width height rs fuel (loop_body width height rs s)
    else some s

/-- Model of `generate_dungeon` (lines 43-75) on a dungeon of the given size
and grid, with at most `fuel` turns of the main loop. -/
def generate_dungeon (width height : Int) (rs : RandomSource) (grid : Int → Nat)
    (fuel : Nat) : Option State :=
  run_loop width height rs fuel (initial_state grid)

/-- State after `n` turns of the main loop (or at its exit, if it exits
earlier), starting from `s`. -/
def turns (width height : Int) (rs : RandomSource) : Nat → State → State
  | 0, s => s
  | n + 1, s =>
    if loop_cond width height s then
      turns width height rs n (loop_body width height rs s)
    else s

/-- State of `generate_dungeon` on an all-zero grid after `n` turns. -/
def dungeon_after (width height : Int) (rs : RandomSource) (n : Nat) : State :=
  turns width height rs n (initial_state empty_grid)

/-! ## Vocabulary of the statements -/

/-- The four door bits. -/
def is_door (d : Nat) : Prop :=
  d = BIT_DOOR_NORTH ∨ d = BIT_DOOR_EAST ∨ d = BIT_DOOR_SOUTH ∨ d = BIT_DOOR_WEST

instance (d : Nat) : Decidable (is_door d) :=
  inferInstanceAs (Decidable (_ ∨ _))

/-- The test `x & b` of the program: the mask `x` has a bit of `b`. -/
def has_bit (x b : Nat) : Prop := x &&& b ≠ 0

instance (x b : Nat) : Decidable (has_bit x b) :=
  inferInstanceAs (Decidable (_ ≠ _))

/-- The index `c` is one of the `width * height` cells of the grid. -/
def in_grid (width height c : Int) : Prop := 0 ≤ c ∧ c < width * height

instance (width height c : Int) : Decidable (in_grid width height c) :=
  inferInstanceAs (Decidable (_ ∧ _))

/-- The rules of the neighbour resolver, direction by direction, with `-1` for
"no neighbour". -/
def neighbour_rule (width height c : Int) (d : Nat) : Int :=
  if d = BIT_DOOR_NORTH then (if c - width ≥ 0 then c - width else -1)
  else if d = BIT_DOOR_SOUTH then (if c + width < width * height then c + width else -1)
  else if d = BIT_DOOR_EAST then (if c % width ≠ width - 1 then c + 1 else -1)
  else if d = BIT_DOOR_WEST then (if c % width ≠ 0 then c - 1 else -1)
  else -1

/-- Two cells of the grid, the second the neighbour of the first in a direction
in which the first has a door, the second having the opposite door. -/
def door_link (width height : Int) (grid : Int → Nat) (a b : Int) : Prop :=
  in_grid width height a ∧ in_grid width height b ∧
    ∃ d, is_door d ∧ get_neighbour_room_index width height a d = b ∧
      has_bit (grid a) d ∧ has_bit (grid b) (get_opposite_direction_bit d).toNat

/-- There is a path of door links from `a` to `b` (possibly of length zero). -/
def joined (width height : Int) (grid : Int → Nat) (a b : Int) : Prop :=
  Relation.ReflTransGen (door_link width height grid) a b

/-- Door mutuality of a grid. -/
def mutual_ok (width height : Int) (grid : Int → Nat) : Prop :=
  ∀ c d, in_grid width height c → is_door d → has_bit (grid c) d →
    get_neighbour_room_index width height c d ≠ -1 ∧
      has_bit (grid (get_neighbour_room_index width height c d))
        (get_opposite_direction_bit d).toNat

/-- The cell `e` is the only cell of the grid flagged as entrance. -/
def entrance_ok (width height : Int) (grid : Int → Nat) (e : Int) : Prop :=
  ∀ c, in_grid width height c → (has_bit (grid c) BIT_ENTRANCE ↔ c = e)

/-- Every non-zero cell of the grid is joined to the cell `e`. -/
def connected_ok (width height : Int) (grid : Int → Nat) (e : Int) : Prop :=
  ∀ c, in_grid width height c → grid c ≠ 0 → joined width height grid e c

/-- The grid after the two assignments of lines 114-115. -/
def carve (grid : Int → Nat) (cell neighbour : Int) (door opposite : Nat) : Int → Nat :=
  Function.update (Function.update grid cell (grid cell ||| door)) neighbour
    (Function.update grid cell (grid cell ||| door) neighbour ||| opposite)

/-- Invariant of the main loop, once the entrance is defined. -/
structure Inv (width height : Int) (s : State) : Prop where
  pos : 1 ≤ s.generated_cells_number
  front_in : ∀ j, j < s.generated_cells_number → in_grid width height (s.generated_cells j)
  front_nz : ∀ j, j < s.generated_cells_number → s.grid (s.generated_cells j) ≠ 0
  front_inj : ∀ j k, j < s.generated_cells_number → k < s.generated_cells_number →
    s.generated_cells j = s.generated_cells k → j = k
  cover : ∀ c, in_grid width height c → s.grid c ≠ 0 →
    ∃ j, j < s.generated_cells_number ∧ s.generated_cells j = c
  doors : mutual_ok width height s.grid
  entr_in : in_grid width height (s.entrance : Int)
  entr_first : s.generated_cells 0 = (s.entrance : Int)
  entr : entrance_ok width height s.grid (s.entrance : Int)
  conn : connected_ok width height s.grid (s.entrance : Int)

/-- The state `t` comes after `s` in a run: the generated cells of `s` are a
prefix of those of `t`, the entrance and the cursor are the same, and no bit of
the grid was cleared. -/
structure Grows (s t : State) : Prop where
  front : ∀ k, k < s.generated_cells_number → t.generated_cells k = s.generated_cells k
  len : s.generated_cells_number ≤ t.generated_cells_number
  entrance : t.entrance = s.entrance
  cursor : t.i = s.i
  bits : ∀ x b, has_bit (s.grid x) b → has_bit (t.grid x) b

/-- A state in which `generate_dungeon` has done nothing yet, on a zero grid. -/
def fresh (s : State) : Prop :=
  s.generated_cells_number = 0 ∧ s.i = 0 ∧ s.draws = 0 ∧ ∀ c, s.grid c = 0

/-- The entrance draw respects the bounds passed to `get_random_int`: the
first call, `get_random_int(0, dungeon_area)`, returns a value below the area. -/
def entrance_draw_ok (width height : Int) (rs : RandomSource) : Prop :=
  rs 0 0 (width * height).toNat < (width * height).toNat

instance (width height : Int) (rs : RandomSource) :
    Decidable (entrance_draw_ok width height rs) :=
  inferInstanceAs (Decidable (_ < _))

/-- What one turn of the door loop does on a state satisfying the invariant:
nothing, or a carved pair of doors, with the neighbour appended to the
generated cells exactly when it was a zero cell. -/
def door_effect (width height : Int) (potential_doors : Nat) (cell_index : Int)
    (door : Nat) (s : State) : State :=
  let neighbour_room := get_neighbour_room_index width height cell_index door
  if has_bit (s.grid cell_index) door ∨ neighbour_room = -1
      ∨ has_bit (s.grid neighbour_room) BIT_USED_ROOM ∨ (door &&& potential_doors) ≠ door
  then s
  else if s.grid neighbour_room = 0 then
    { s with grid := carve s.grid cell_index neighbour_room door
                       (get_opposite_direction_bit door).toNat,
             generated_cells :=
               Function.update s.generated_cells s.generated_cells_number neighbour_room,
             generated_cells_number := s.generated_cells_number + 1 }
  else
    { s with grid := carve s.grid cell_index neighbour_room door
                       (get_opposite_direction_bit door).toNat }

/-- Door mutuality as the statements phrase it: a cell of the grid with door
bit `d` has a neighbour in direction `d`, which is a cell of the grid and has
the opposite door bit. -/
def mutual_doors (width height : Int) (grid : Int → Nat) : Prop :=
  ∀ c d, in_grid width height c → is_door d → has_bit (grid c) d →
    get_neighbour_room_index width height c d ≠ -1 ∧
      in_grid width height (get_neighbour_room_index width height c d) ∧
      has_bit (grid (get_neighbour_room_index width height c d))
        (get_opposite_direction_bit d).toNat

/-- No cell on an edge of the grid has a door leading out of the grid: none
in the first row towards the north, in the last column towards the east, in the
last row towards the south, in the first column towards the west. -/
def no_door_off_grid (width height : Int) (grid : Int → Nat) : Prop :=
  ∀ c, in_grid width height c →
    (c - width < 0 → ¬ has_bit (grid c) BIT_DOOR_NORTH) ∧
    (c % width = width - 1 → ¬ has_bit (grid c) BIT_DOOR_EAST) ∧
    (width * height ≤ c + width → ¬ has_bit (grid c) BIT_DOOR_SOUTH) ∧
    (c % width = 0 → ¬ has_bit (grid c) BIT_DOOR_WEST)

/-- Random source of the 3x3 scenario: the first call (the entrance draw)
returns 4, every later call (a draw of `potential_doors`) returns 15. -/
def all_doors_source : RandomSource := fun k _ _ => if k = 0 then 4 else 15

/-- Random source answering 0 to every call. -/
def zero_source : RandomSource := fun _ _ _ => 0

/-- The state in which the generation stalls when no door is ever drawn: the
invariant holds, the entrance is the only generated cell and the only non-zero
cell, and the cursor is at the start. -/
structure Stalled (width height : Int) (s : State) : Prop where
  inv : Inv width height s
  one : s.generated_cells_number = 1
  cursor : s.i = 0
  drawn : 1 ≤ s.draws
  flagged : s.grid (s.entrance : Int) = BIT_ENTRANCE ||| BIT_USED_ROOM
  zero : ∀ c, c ≠ (s.entrance : Int) → s.grid c = 0

/-- Two random sources return the same sequence of values to the program: the
same value to the first call, `get_random_int(0, dungeon_area)`, and the same
value to every later call, `get_random_int(0, g_neighbours)`. -/
def same_draws (width height : Int) (rs1 rs2 : RandomSource) : Prop :=
  rs1 0 0 (width * height).toNat = rs2 0 0 (width * height).toNat
    ∧ ∀ k, 1 ≤ k → rs1 k 0 g_neighbours = rs2 k 0 g_neighbours

/-- The counter of draws agrees with the progress of the run: no draw before
the entrance is defined, at least one afterwards. -/
def draws_counted (s : State) : Prop :=
  (s.generated_cells_number = 0 ∧ s.i = 0 ∧ s.draws = 0)
    ∨ (1 ≤ s.generated_cells_number ∧ 1 ≤ s.draws)

/-- A random source of the 3x3 scenario that looks at the bounds of the call:
4 for the first call, 15 for a later call with upper bound `g_neighbours`, and 0
for calls the program never makes. -/
def all_doors_by_bounds : RandomSource :=
  fun k _ max => if k = 0 then 4 else if max = g_neighbours then 15 else 0

/-- The door bits in the order of the door loop of `generate_room`. -/
def door_order : List Nat :=
  [BIT_DOOR_NORTH, BIT_DOOR_EAST, BIT_DOOR_SOUTH, BIT_DOOR_WEST]

/-- Turns of the door loop of `generate_room` for the doors of a list. -/
def room_steps (width height : Int) (potential_doors : Nat) (cell_index : Int) :
    List Nat → State → State
  | [], s => s
  | door :: rest, s =>
    room_steps width height potential_doors cell_index rest
      (generate_room_door width height potential_doors cell_index door s)

/-- A point inside the turn of the main loop that starts in the state `s`:
the state after the definition of the entrance (in the first turn), the draw of
`potential_doors` and the first `k` turns of the door loop of `generate_room`
(all four of them for `k ≥ 4`). -/
def turn_point (width height : Int) (rs : RandomSource) (s : State) (k : Nat) : State :=
  room_steps width height
    (rs (define_entrance width height rs s).draws 0 g_neighbours)
    ((define_entrance width height rs s).generated_cells (define_entrance width height rs s).i)
    (door_order.take k)
    { define_entrance width height rs s with
      draws := (define_entrance width height rs s).draws + 1 }

/-- The first `generated_cells_number` entries of the generated cells are
pairwise distinct. -/
def distinct_cells (s : State) : Prop :=
  ∀ j k, j < s.generated_cells_number → k < s.generated_cells_number →
    s.generated_cells j = s.generated_cells k → j = k

/-- The generated cells are exactly the non-zero cells of the grid, and their
number is the number of non-zero cells of the grid. -/
def frontier_is_nonzero (width height : Int) (s : State) : Prop :=
  (∀ c, in_grid width height c →
    ((∃ j, j < s.generated_cells_number ∧ s.generated_cells j = c) ↔ s.grid c ≠ 0))
  ∧ ((Finset.range (width * height).toNat).filter
        (fun c : Nat => s.grid (c : Int) ≠ 0)).card = s.generated_cells_number

/-- What a call of `generate_room` on the cell `c` may do to the grid, from the
state `s` to the state `t`: every cell gets a mask of door bits or-ed into it,
and the mask is empty unless the cell is `c` itself or a neighbour of `c` that
was not flagged as used. -/
def room_frame (width height : Int) (c : Int) (s t : State) : Prop :=
  ∀ x, ∃ m, m < 16 ∧ t.grid x = s.grid x ||| m ∧
    (m ≠ 0 → x = c ∨
      (¬ has_bit (s.grid x) BIT_USED_ROOM ∧
        ∃ d, is_door d ∧ get_neighbour_room_index width height c d = x ∧ x ≠ -1))

/-- Random source of a run with a retry: 0 for the entrance draw, no door in
the first turn, the east door in the second turn. -/
def late_door_source : RandomSource := fun k _ _ => if k = 2 then 2 else 0

/-- Invariant of the run in which every draw of `potential_doors` is 15: the
loop invariant holds, the cursor is at most the number of generated cells, and
every neighbour of a generated cell before the cursor is a non-zero cell. -/
structure AllDoors (width height : Int) (s : State) : Prop where
  inv : Inv width height s
  drawn : 1 ≤ s.draws
  cursor_le : s.i ≤ s.generated_cells_number
  opened : ∀ j, j < s.i → ∀ d, is_door d →
    get_neighbour_room_index width height (s.generated_cells j) d ≠ -1 →
    s.grid (get_neighbour_room_index width height (s.generated_cells j) d) ≠ 0

/-! ## The program with 32-bit `int` arithmetic -/

namespace Machine

/-- Value stored in a 32-bit `int` by a computation whose exact result is `x`
(two's complement wrap-around, as the compiled program computes). -/
def wrap_int (x : Int) : Int := (x + 2147483648) % 4294967296 - 2147483648

/-- Conversion of an `int` to `unsigned int`. -/
def to_unsigned (x : Int) : Int := x % 4294967296

/-- The function `get_neighbour_room_index` (lines 190-220) with 32-bit `int`
arithmetic: the candidate, `width * height` and `width - 1` are wrapped. -/
def get_neighbour_room_index (width height current_room : Int) (direction : Nat) : Int :=
  let neighbour_room : Int :=
    if direction = BIT_DOOR_NORTH then wrap_int (current_room - width)
    else if direction = BIT_DOOR_EAST then wrap_int (current_room + 1)
    else if direction = BIT_DOOR_SOUTH then wrap_int (current_room + width)
    else if direction = BIT_DOOR_WEST then wrap_int (current_room - 1)
    else 0
  if (direction = BIT_DOOR_NORTH ∧ neighbour_room ≥ 0)
      ∨ (direction = BIT_DOOR_SOUTH ∧ neighbour_room < wrap_int (width * height))
      ∨ (direction = BIT_DOOR_EAST ∧ Int.tmod neighbour_room width > 0)
      ∨ (direction = BIT_DOOR_WEST ∧ Int.tmod neighbour_room width < wrap_int (width - 1))
  then neighbour_room
  else -1

/-- The `int` variable `dungeon_area` of `generate_dungeon` (line 48). -/
def dungeon_area (width height : Int) : Int := wrap_int (width * height)

/-- One turn of the door loop of `generate_room` (lines 89-123) with 32-bit
arithmetic; `cell_index` is the value of the `unsigned int` variable, used as
such to index the grid and converted to `int` for the neighbour resolver. -/
def generate_room_door (width height : Int) (potential_doors : Nat) (cell_index : Int)
    (door : Nat) (s : State) : State :=
  if (door &&& g_neighbours) ≠ door ∨ (s.grid cell_index &&& door) ≠ 0 then s
  else
    let neighbour_room := get_neighbour_room_index width height (wrap_int cell_index) door
    if neighbour_room = -1 ∨ (s.grid neighbour_room &&& BIT_USED_ROOM) ≠ 0 then s
    else
      let opposite_door := get_opposite_direction_bit door
      let grid1 : Int → Nat :=
        if (door &&& potential_doors) = door then
          let g := Function.update s.grid cell_index (s.grid cell_index ||| door)
          Function.update g neighbour_room (g neighbour_room ||| opposite_door.toNat)
        else s.grid
      if (grid1 neighbour_room : Int) = opposite_door then
        { s with grid := grid1,
                 generated_cells :=
                   Function.update s.generated_cells s.generated_cells_number neighbour_room,
                 generated_cells_number := (s.generated_cells_number + 1) % UINT_SIZE }
      else { s with grid := grid1 }

/-- The loop `for (door = 1; door <= g_neighbours; door <<= 1)` (line 88). -/
def generate_room_loop (width height : Int) (potential_doors : Nat) (cell_index : Int) :
    Nat → Nat → State → State
  | 0, _, s => s
  | fuel + 1, door, s =>
    if door ≤ g_neighbours then
      generate_room_loop width height potential_doors cell_index fuel (door <<< 1)
        (generate_room_door width height potential_doors cell_index door s)
    else s

/-- The function `generate_room` (lines 80-125) with 32-bit arithmetic: the
entry of the `int` array is converted to the `unsigned int` `cell_index`. -/
def generate_room (width height : Int) (rs : RandomSource) (cell_index_queue : Nat)
    (s : State) : State :=
  let potential_doors := rs s.draws 0 g_neighbours
  let cell_index := to_unsigned (s.generated_cells cell_index_queue)
  generate_room_loop width height potential_doors cell_index 5 1
    { s with draws := s.draws + 1 }

/-- Condition of the main loop (line 53): `generated_cells_number` is compared
with `dungeon_area` converted to `unsigned int`. -/
def loop_cond (width height : Int) (s : State) : Prop :=
  (s.generated_cells_number : Int) < to_unsigned (dungeon_area width height)
    ∧ (s.i = 0 ∨ s.i < s.generated_cells_number)

instance (width height : Int) (s : State) : Decidable (loop_cond width height s) :=
  inferInstanceAs (Decidable (_ ∧ _))

/-- Definition of the entrance in the first turn (lines 55-61): the bound
passed to `get_random_int` is `dungeon_area` converted to `unsigned int`, and
the `unsigned int` drawn is stored into the `int` array. -/
def define_entrance (width height : Int) (rs : RandomSource) (s : State) : State :=
  if s.i = 0 ∧ s.generated_cells_number = 0 then
    let entrance := rs s.draws 0 (to_unsigned (dungeon_area width height)).toNat
    { s with generated_cells := Function.update s.generated_cells 0 (wrap_int (entrance : Int)),
             grid := Function.update s.grid (entrance : Int) (BIT_ENTRANCE ||| BIT_USED_ROOM),
             entrance := entrance,
             generated_cells_number := 1,
             draws := s.draws + 1 }
  else s

/-- Restart of the pass (lines 70-72) followed by `i++`; `dungeon_area * .75`
is computed from the `int` variable. -/
def advance (width height : Int) (s : State) : State :=
  let i1 : Nat :=
    if s.i = (s.generated_cells_number + UINT_SIZE - 1) % UINT_SIZE
        ∧ 4 * (s.generated_cells_number : Int) < 3 * dungeon_area width height
    then UINT_SIZE - 1 else s.i
  { s with i := (i1 + 1) % UINT_SIZE }

/-- One turn of the main loop (lines 54-72 and the increment of line 53). -/
def loop_body (width height : Int) (rs : RandomSource) (s : State) : State :=
  let s1 := define_entrance width height rs s
  let s2 := generate_room width height rs s1.i s1
  advance width height (flag_used s2)

/-- The main loop with a bound on the number of turns. -/
def run_loop (width height : Int) (rs : RandomSource) : Nat → State → Option State
  | 0, s => if loop_cond width height s then none else some s
  | fuel + 1, s =>
    if loop_cond width height s then
      run_loop width height rs fuel (loop_body width height rs s)
    else some s

/-- The function `generate_dungeon` (lines 43-75) with 32-bit arithmetic, with
at most `fuel` turns of the main loop. -/
def generate_dungeon (width height : Int) (rs : RandomSource) (grid : Int → Nat)
    (fuel : Nat) : Option State :=
  run_loop width height rs fuel (initial_state grid)

/-- State after `n` turns of the main loop (or at its exit, if earlier). -/
def turns (width height : Int) (rs : RandomSource) : Nat → State → State
  | 0, s => s
  | n + 1, s =>
    if loop_cond width height s then
      turns width height rs n (loop_body width height rs s)
    else s

/-- State of `generate_dungeon` on an all-zero grid after `n` turns. -/
def dungeon_after (width height : Int) (rs : RandomSource) (n : Nat) : State :=
  turns width height rs n (initial_state empty_grid)

/-- Turns of the door loop for the doors of a list. -/
def room_steps (width height : Int) (potential_doors : Nat) (cell_index : Int) :
    List Nat → State → State
  | [], s => s
  | door :: rest, s =>
    room_steps width height potential_doors cell_index rest
      (generate_room_door width height potential_doors cell_index door s)

/-- A point inside the turn of the main loop that starts in the state `s`:
after the definition of the entrance, the draw of `potential_doors` and the
first `k` turns of the door loop. -/
def turn_point (width height : Int) (rs : RandomSource) (s : State) (k : Nat) : State :=
  room_steps width height
    (rs (define_entrance width height rs s).draws 0 g_neighbours)
    (to_unsigned ((define_entrance width height rs s).generated_cells
      (define_entrance width height rs s).i))
    (door_order.take k)
    { define_entrance width height rs s with
      draws := (define_entrance width height rs s).draws + 1 }

/-- The entrance draw is below the bound passed to `get_random_int`. -/
def entrance_draw_ok (width height : Int) (rs : RandomSource) : Prop :=
  rs 0 0 (to_unsigned (dungeon_area width height)).toNat
    < (to_unsigned (dungeon_area width height)).toNat

instance (width height : Int) (rs : RandomSource) :
    Decidable (entrance_draw_ok width height rs) :=
  inferInstanceAs (Decidable (_ < _))

/-- Door mutuality with the neighbours the compiled resolver gives. -/
def mutual_doors (width height : Int) (grid : Int → Nat) : Prop :=
  ∀ c d, in_grid width height c → is_door d → has_bit (grid c) d →
    get_neighbour_room_index width height c d ≠ -1 ∧
      in_grid width height (get_neighbour_room_index width height c d) ∧
      has_bit (grid (get_neighbour_room_index width height c d))
        (get_opposite_direction_bit d).toNat

end Machine

/-- No index computation of the program overflows an `int`: the largest
candidate of the neighbour resolver, the last cell plus `width`, is at most
`INT_MAX = 2 ^ 31 - 1` (and then so is the area). -/
def no_int_overflow (width height : Int) : Prop := width * height + width ≤ 2147483648

instance (width height : Int) : Decidable (no_int_overflow width height) :=
  inferInstanceAs (Decidable (_ ≤ _))

/-- Random source for the 46341 x 46340 grid: the entrance draw is the last
cell, every draw of `potential_doors` is the south door alone. -/
def last_cell_south_source : RandomSource := fun k _ _ => if k = 0 then 2147441939 else 4

/-- Random source with entrance draw 0 and every draw of `potential_doors`
equal to 15. -/
def zero_then_all_doors : RandomSource := fun k _ _ => if k = 0 then 0 else 15

/-! ## Arithmetic of rows and columns -/

theorem emod_succ (c w : Int) (hw : 0 < w) :
    (c + 1) % w = if c % w = w - 1 then 0 else c % w + 1 := by
  have h1 := Int.emod_add_ediv c w
  have h2 := Int.emod_nonneg c (ne_of_gt hw)
  have h3 := Int.emod_lt_of_pos c hw
  have h4 : c + 1 = (c % w + 1) + w * (c / w) := by linarith
  rw [h4, Int.add_mul_emod_self_left]
  split_ifs with h
  · rw [h]; simp
  · apply Int.emod_eq_of_lt <;> omega

theorem emod_pred (c w : Int) (hw : 0 < w) :
    (c - 1) % w = if c % w = 0 then w - 1 else c % w - 1 := by
  have h1 := Int.emod_add_ediv c w
  have h2 := Int.emod_nonneg c (ne_of_gt hw)
  have h3 := Int.emod_lt_of_pos c hw
  split_ifs with h
  · have h4 : c - 1 = (w - 1) + w * (c / w - 1) := by rw [h] at h1; linarith
    rw [h4, Int.add_mul_emod_self_left]
    apply Int.emod_eq_of_lt <;> omega
  · have h4 : c - 1 = (c % w - 1) + w * (c / w) := by linarith
    rw [h4, Int.add_mul_emod_self_left]
    apply Int.emod_eq_of_lt <;> omega

/-- A cell that is not in the last column is not the last cell of the grid. -/
theorem succ_in_grid (w h c : Int) (hw : 1 ≤ w) (hc : in_grid w h c)
    (hcol : c % w ≠ w - 1) : c + 1 < w * h := by
  obtain ⟨hc0, hc1⟩ := hc
  have h1 := Int.emod_add_ediv c w
  have h2 := Int.emod_nonneg c (show w ≠ 0 by omega)
  have h3 := Int.emod_lt_of_pos c (show 0 < w by omega)
  have h5 : c / w < h := by
    by_contra hq
    have : w * h ≤ w * (c / w) := by
      apply mul_le_mul_of_nonneg_left <;> omega
    omega
  have h6 : w * (c / w) ≤ w * (h - 1) := by
    apply mul_le_mul_of_nonneg_left <;> omega
  have h7 : w * (h - 1) = w * h - w := by ring
  omega

/-- The neighbour resolver computes the rules (cells of the grid, door bits). -/
theorem neighbour_eq_rule (w h c : Int) (d : Nat) (hw : 1 ≤ w)
    (hc : in_grid w h c) :
    get_neighbour_room_index w h c d = neighbour_rule w h c d := by
  obtain ⟨hc0, hc1⟩ := hc
  have hwpos : 0 < w := by omega
  unfold get_neighbour_room_index neighbour_rule
  by_cases hN : d = BIT_DOOR_NORTH
  · subst hN
    simp [BIT_DOOR_NORTH, BIT_DOOR_EAST, BIT_DOOR_SOUTH, BIT_DOOR_WEST]
  by_cases hS : d = BIT_DOOR_SOUTH
  · subst hS
    simp [BIT_DOOR_NORTH, BIT_DOOR_EAST, BIT_DOOR_SOUTH, BIT_DOOR_WEST]
  by_cases hE : d = BIT_DOOR_EAST
  · subst hE
    have ht : Int.tmod (c + 1) w = (c + 1) % w :=
      Int.tmod_eq_emod (by omega) (by omega)
    have hs := emod_succ c w hwpos
    have h2 := Int.emod_nonneg c (ne_of_gt hwpos)
    simp only [BIT_DOOR_NORTH, BIT_DOOR_EAST, BIT_DOOR_SOUTH, BIT_DOOR_WEST, ht]
    by_cases hcol : c % w = w - 1
    · rw [if_pos hcol] at hs
      simp [ht, hs, hcol]
    · rw [if_neg hcol] at hs
      have : (c + 1) % w > 0 := by omega
      simp [ht, this, hcol]
  by_cases hW : d = BIT_DOOR_WEST
  · subst hW
    have h2 := Int.emod_nonneg c (ne_of_gt hwpos)
    have h3 := Int.emod_lt_of_pos c hwpos
    simp only [BIT_DOOR_NORTH, BIT_DOOR_EAST, BIT_DOOR_SOUTH, BIT_DOOR_WEST]
    by_cases hz : c = 0
    · subst hz
      by_cases hw1 : w = 1
      · subst hw1; simp
      · simp
    · have ht : Int.tmod (c - 1) w = (c - 1) % w :=
        Int.tmod_eq_emod (by omega) (by omega)
      have hp := emod_pred c w hwpos
      by_cases hcol : c % w = 0
      · rw [if_pos hcol] at hp
        simp [ht, hp, hcol]
      · rw [if_neg hcol] at hp
        have : (c - 1) % w < w - 1 := by omega
        simp [ht, this, hcol]
  simp [hN, hS, hE, hW]

theorem rule_north (w h c : Int) :
    neighbour_rule w h c BIT_DOOR_NORTH = if c - w ≥ 0 then c - w else -1 := by
  unfold neighbour_rule; rw [if_pos rfl]

theorem rule_south (w h c : Int) :
    neighbour_rule w h c BIT_DOOR_SOUTH = if c + w < w * h then c + w else -1 := by
  unfold neighbour_rule; rw [if_neg (by decide), if_pos rfl]

theorem rule_east (w h c : Int) :
    neighbour_rule w h c BIT_DOOR_EAST = if c % w ≠ w - 1 then c + 1 else -1 := by
  unfold neighbour_rule; rw [if_neg (by decide), if_neg (by decide), if_pos rfl]

theorem rule_west (w h c : Int) :
    neighbour_rule w h c BIT_DOOR_WEST = if c % w ≠ 0 then c - 1 else -1 := by
  unfold neighbour_rule
  rw [if_neg (by decide), if_neg (by decide), if_neg (by decide), if_pos rfl]

theorem emod_zero_of_zero (w : Int) : (0 : Int) % w = 0 := by simp

/-- A neighbour that exists is a cell of the grid. -/
theorem neighbour_in_grid (w h c : Int) (d : Nat) (hw : 1 ≤ w) (hc : in_grid w h c)
    (hd : is_door d) (hn : get_neighbour_room_index w h c d ≠ -1) :
    in_grid w h (get_neighbour_room_index w h c d) := by
  rw [neighbour_eq_rule w h c d hw hc] at hn ⊢
  have hsucc := succ_in_grid w h c hw hc
  have hz : c = 0 → c % w = 0 := by intro e; rw [e]; simp
  obtain ⟨hc0, hc1⟩ := hc
  unfold in_grid
  rcases hd with rfl | rfl | rfl | rfl
  · rw [rule_north] at hn ⊢
    split_ifs at hn ⊢ with h1
    · constructor <;> omega
    · exact absurd rfl hn
  · rw [rule_east] at hn ⊢
    split_ifs at hn ⊢ with h1
    · exact ⟨by omega, hsucc h1⟩
    · exact absurd rfl hn
  · rw [rule_south] at hn ⊢
    split_ifs at hn ⊢ with h1
    · constructor <;> omega
    · exact absurd rfl hn
  · rw [rule_west] at hn ⊢
    split_ifs at hn ⊢ with h1
    · have : c ≠ 0 := fun e => h1 (hz e)
      constructor <;> omega
    · exact absurd rfl hn

/-- A neighbour is another cell. -/
theorem neighbour_ne_self (w h c : Int) (d : Nat) (hw : 1 ≤ w) (hc : in_grid w h c)
    (hd : is_door d) (hn : get_neighbour_room_index w h c d ≠ -1) :
    get_neighbour_room_index w h c d ≠ c := by
  rw [neighbour_eq_rule w h c d hw hc] at hn ⊢
  rcases hd with rfl | rfl | rfl | rfl
  · rw [rule_north] at hn ⊢
    split_ifs at hn ⊢ with h1
    · omega
    · exact absurd rfl hn
  · rw [rule_east] at hn ⊢
    split_ifs at hn ⊢ with h1
    · omega
    · exact absurd rfl hn
  · rw [rule_south] at hn ⊢
    split_ifs at hn ⊢ with h1
    · omega
    · exact absurd rfl hn
  · rw [rule_west] at hn ⊢
    split_ifs at hn ⊢ with h1
    · omega
    · exact absurd rfl hn

/-- The opposite of a door bit is a door bit. -/
theorem opposite_is_door (d : Nat) (hd : is_door d) :
    is_door (get_opposite_direction_bit d).toNat := by
  rcases hd with rfl | rfl | rfl | rfl <;> decide

/-- On door bits the opposite is a natural number. -/
theorem opposite_toNat (d : Nat) (hd : is_door d) :
    ((get_opposite_direction_bit d).toNat : Int) = get_opposite_direction_bit d := by
  rcases hd with rfl | rfl | rfl | rfl <;> decide

/-- Taking the opposite twice gives the door bit back. -/
theorem opposite_opposite (d : Nat) (hd : is_door d) :
    (get_opposite_direction_bit (get_opposite_direction_bit d).toNat).toNat = d := by
  rcases hd with rfl | rfl | rfl | rfl <;> decide

/-- Going to a neighbour and back along the opposite direction. -/
theorem neighbour_back (w h c : Int) (d : Nat) (hw : 1 ≤ w) (hc : in_grid w h c)
    (hd : is_door d) (hn : get_neighbour_room_index w h c d ≠ -1) :
    get_neighbour_room_index w h (get_neighbour_room_index w h c d)
      (get_opposite_direction_bit d).toNat = c := by
  have hin := neighbour_in_grid w h c d hw hc hd hn
  rw [neighbour_eq_rule w h _ _ hw hin]
  rw [neighbour_eq_rule w h c d hw hc] at hn ⊢
  have hwpos : 0 < w := by omega
  have hs := emod_succ c w hwpos
  have hp := emod_pred c w hwpos
  have h2 := Int.emod_nonneg c (ne_of_gt hwpos)
  have h3 := Int.emod_lt_of_pos c hwpos
  obtain ⟨hc0, hc1⟩ := hc
  rcases hd with rfl | rfl | rfl | rfl
  · have e : (get_opposite_direction_bit BIT_DOOR_NORTH).toNat = BIT_DOOR_SOUTH := by decide
    rw [e, rule_north] at *
    split_ifs at hn ⊢ with h1
    · rw [rule_south, if_pos (by omega)]; omega
    · exact absurd rfl hn
  · have e : (get_opposite_direction_bit BIT_DOOR_EAST).toNat = BIT_DOOR_WEST := by decide
    rw [e, rule_east] at *
    split_ifs at hn ⊢ with h1
    · rw [if_neg h1] at hs
      rw [rule_west, if_pos (by omega)]; omega
    · exact absurd rfl hn
  · have e : (get_opposite_direction_bit BIT_DOOR_SOUTH).toNat = BIT_DOOR_NORTH := by decide
    rw [e, rule_south] at *
    split_ifs at hn ⊢ with h1
    · rw [rule_north, if_pos (by omega)]; omega
    · exact absurd rfl hn
  · have e : (get_opposite_direction_bit BIT_DOOR_WEST).toNat = BIT_DOOR_EAST := by decide
    rw [e, rule_west] at *
    split_ifs at hn ⊢ with h1
    · rw [if_neg h1] at hp
      rw [rule_east, if_pos (by omega)]; omega
    · exact absurd rfl hn

/-! ## Bit masks -/

theorem lor_eq_zero (x y : Nat) : x ||| y = 0 ↔ x = 0 ∧ y = 0 := by
  constructor
  · intro h
    constructor
    · apply Nat.eq_of_testBit_eq
      intro i
      have := congrArg (fun z => Nat.testBit z i) h
      simp only [Nat.testBit_or, Nat.zero_testBit, Bool.or_eq_false_iff] at this
      simp [this.1]
    · apply Nat.eq_of_testBit_eq
      intro i
      have := congrArg (fun z => Nat.testBit z i) h
      simp only [Nat.testBit_or, Nat.zero_testBit, Bool.or_eq_false_iff] at this
      simp [this.2]
  · rintro ⟨rfl, rfl⟩; rfl

theorem and_lor_absorb (x d : Nat) : x &&& (x ||| d) = x := by
  apply Nat.eq_of_testBit_eq
  intro i
  simp only [Nat.testBit_and, Nat.testBit_or]
  cases Nat.testBit x i <;> simp

theorem has_bit_lor (x y b : Nat) :
    has_bit (x ||| y) b ↔ has_bit x b ∨ has_bit y b := by
  unfold has_bit
  rw [Nat.and_comm, Nat.and_or_distrib_left, Nat.and_comm b x, Nat.and_comm b y,
    Ne, lor_eq_zero]
  tauto

theorem has_bit_ne_zero (x b : Nat) (h : has_bit x b) : x ≠ 0 := by
  intro e; rw [e] at h; exact h (by simp)

theorem door_has_bit (d e : Nat) (hd : is_door d) (he : is_door e) :
    has_bit d e ↔ d = e := by
  rcases hd with rfl | rfl | rfl | rfl <;> rcases he with rfl | rfl | rfl | rfl <;> decide

theorem door_not_entrance (d : Nat) (hd : is_door d) : ¬ has_bit d BIT_ENTRANCE := by
  rcases hd with rfl | rfl | rfl | rfl <;> decide

theorem door_ne_zero (d : Nat) (hd : is_door d) : d ≠ 0 := by
  rcases hd with rfl | rfl | rfl | rfl <;> decide

theorem door_land_neighbours (d : Nat) (hd : is_door d) : d &&& g_neighbours = d := by
  rcases hd with rfl | rfl | rfl | rfl <;> decide

theorem used_not_door (e : Nat) (he : is_door e) : ¬ has_bit BIT_USED_ROOM e := by
  rcases he with rfl | rfl | rfl | rfl <;> decide

/-- The test of line 120 on a cell without the opposite door: the cell was zero. -/
theorem first_discovery (x d : Nat) (h : x ||| d = d) (h2 : ¬ has_bit x d) : x = 0 := by
  have h3 := and_lor_absorb x d
  rw [h] at h3
  unfold has_bit at h2
  rw [← h3]
  exact not_not.mp h2

/-! ## Effect of carving a pair of doors -/

theorem carve_apply (g : Int → Nat) (cell nb : Int) (door opp : Nat) (hne : nb ≠ cell)
    (x : Int) :
    carve g cell nb door opp x =
      if x = nb then g nb ||| opp else if x = cell then g cell ||| door else g x := by
  unfold carve
  by_cases h1 : x = nb
  · rw [if_pos h1, h1, Function.update_same, Function.update_noteq hne]
  · rw [if_neg h1, Function.update_noteq h1]
    by_cases h2 : x = cell
    · rw [if_pos h2, h2, Function.update_same]
    · rw [if_neg h2, Function.update_noteq h2]

theorem carve_mono (g : Int → Nat) (cell nb : Int) (door opp : Nat) (hne : nb ≠ cell)
    (x : Int) (b : Nat) (hb : has_bit (g x) b) :
    has_bit (carve g cell nb door opp x) b := by
  rw [carve_apply g cell nb door opp hne]
  split_ifs with h1 h2
  · rw [h1] at hb; exact (has_bit_lor _ _ _).mpr (Or.inl hb)
  · rw [h2] at hb; exact (has_bit_lor _ _ _).mpr (Or.inl hb)
  · exact hb

theorem carve_ne_zero (g : Int → Nat) (cell nb : Int) (door opp : Nat) (hne : nb ≠ cell)
    (x : Int) (hx : g x ≠ 0) : carve g cell nb door opp x ≠ 0 := by
  rw [carve_apply g cell nb door opp hne]
  split_ifs with h1 h2
  · rw [h1] at hx; intro e; exact hx ((lor_eq_zero _ _).mp e).1
  · rw [h2] at hx; intro e; exact hx ((lor_eq_zero _ _).mp e).1
  · exact hx

theorem joined_mono (w h : Int) (g g1 : Int → Nat)
    (hm : ∀ x b, has_bit (g x) b → has_bit (g1 x) b) (a b : Int)
    (hj : joined w h g a b) : joined w h g1 a b := by
  unfold joined at hj ⊢
  refine Relation.ReflTransGen.mono ?_ hj
  rintro x y ⟨hx, hy, d, hd, hn, h1, h2⟩
  exact ⟨hx, hy, d, hd, hn, hm _ _ h1, hm _ _ h2⟩

theorem carve_mutual (w h : Int) (g : Int → Nat) (cell nb : Int) (door : Nat)
    (hw : 1 ≤ w) (hcell : in_grid w h cell) (hd : is_door door)
    (hnb : get_neighbour_room_index w h cell door = nb) (hn : nb ≠ -1)
    (hm : mutual_ok w h g) :
    mutual_ok w h (carve g cell nb door (get_opposite_direction_bit door).toNat) := by
  have hn1 : get_neighbour_room_index w h cell door ≠ -1 := by rw [hnb]; exact hn
  have hne : nb ≠ cell := by rw [← hnb]; exact neighbour_ne_self w h cell door hw hcell hd hn1
  have hback : get_neighbour_room_index w h nb (get_opposite_direction_bit door).toNat = cell := by
    rw [← hnb]; exact neighbour_back w h cell door hw hcell hd hn1
  have hod := opposite_is_door door hd
  have hoo := opposite_opposite door hd
  intro c d hc hdd hb
  rw [carve_apply g cell nb door _ hne] at hb
  by_cases h1 : c = nb
  · rw [if_pos h1] at hb
    rcases (has_bit_lor _ _ _).mp hb with hb1 | hb1
    · rw [← h1] at hb1
      obtain ⟨ha, hb2⟩ := hm c d hc hdd hb1
      exact ⟨ha, carve_mono g cell nb door _ hne _ _ hb2⟩
    · have e := (door_has_bit _ _ hod hdd).mp hb1
      rw [h1, ← e, hback, hoo]
      refine ⟨by have := hcell.1; omega, ?_⟩
      rw [carve_apply g cell nb door _ hne, if_neg (Ne.symm hne), if_pos rfl]
      exact (has_bit_lor _ _ _).mpr (Or.inr ((door_has_bit _ _ hd hd).mpr rfl))
  · rw [if_neg h1] at hb
    by_cases h2 : c = cell
    · rw [if_pos h2] at hb
      rcases (has_bit_lor _ _ _).mp hb with hb1 | hb1
      · rw [← h2] at hb1
        obtain ⟨ha, hb2⟩ := hm c d hc hdd hb1
        exact ⟨ha, carve_mono g cell nb door _ hne _ _ hb2⟩
      · have e := (door_has_bit _ _ hd hdd).mp hb1
        rw [h2, ← e, hnb]
        refine ⟨hn, ?_⟩
        rw [carve_apply g cell nb door _ hne, if_pos rfl]
        exact (has_bit_lor _ _ _).mpr (Or.inr ((door_has_bit _ _ hod hod).mpr rfl))
    · rw [if_neg h2] at hb
      obtain ⟨ha, hb2⟩ := hm c d hc hdd hb
      exact ⟨ha, carve_mono g cell nb door _ hne _ _ hb2⟩

theorem carve_entrance (w h : Int) (g : Int → Nat) (cell nb : Int) (door : Nat) (e : Int)
    (hd : is_door door) (hne : nb ≠ cell) (he : entrance_ok w h g e) :
    entrance_ok w h (carve g cell nb door (get_opposite_direction_bit door).toNat) e := by
  have hod := opposite_is_door door hd
  intro c hc
  rw [← he c hc, carve_apply g cell nb door _ hne]
  split_ifs with h1 h2
  · rw [h1, has_bit_lor]
    constructor
    · rintro (h3 | h3)
      · exact h3
      · exact absurd h3 (door_not_entrance _ hod)
    · exact Or.inl
  · rw [h2, has_bit_lor]
    constructor
    · rintro (h3 | h3)
      · exact h3
      · exact absurd h3 (door_not_entrance _ hd)
    · exact Or.inl
  · exact Iff.rfl

theorem carve_connected (w h : Int) (g : Int → Nat) (cell nb : Int) (door : Nat) (e : Int)
    (hw : 1 ≤ w) (hcell : in_grid w h cell) (hd : is_door door)
    (hnb : get_neighbour_room_index w h cell door = nb) (hn : nb ≠ -1)
    (hnz : g cell ≠ 0) (hc : connected_ok w h g e) :
    connected_ok w h (carve g cell nb door (get_opposite_direction_bit door).toNat) e := by
  have hn1 : get_neighbour_room_index w h cell door ≠ -1 := by rw [hnb]; exact hn
  have hne : nb ≠ cell := by rw [← hnb]; exact neighbour_ne_self w h cell door hw hcell hd hn1
  have hin : in_grid w h nb := by rw [← hnb]; exact neighbour_in_grid w h cell door hw hcell hd hn1
  have hod := opposite_is_door door hd
  have hmono := carve_mono g cell nb door (get_opposite_direction_bit door).toNat hne
  intro c hcg hcz
  by_cases h0 : g c = 0
  · have hcn : c = nb := by
      by_contra h1
      rw [carve_apply g cell nb door _ hne, if_neg h1] at hcz
      by_cases h2 : c = cell
      · rw [h2] at h0; exact hnz h0
      · rw [if_neg h2] at hcz; exact hcz h0
    have hj := joined_mono w h g _ hmono e cell (hc cell hcell hnz)
    rw [hcn]
    refine Relation.ReflTransGen.tail hj ⟨hcell, hin, door, hd, hnb, ?_, ?_⟩
    · rw [carve_apply g cell nb door _ hne, if_neg (Ne.symm hne), if_pos rfl]
      exact (has_bit_lor _ _ _).mpr (Or.inr ((door_has_bit _ _ hd hd).mpr rfl))
    · rw [carve_apply g cell nb door _ hne, if_pos rfl]
      exact (has_bit_lor _ _ _).mpr (Or.inr ((door_has_bit _ _ hod hod).mpr rfl))
  · exact joined_mono w h g _ hmono e c (hc c hcg h0)

/-! ## One turn of the door loop -/

/-- Under door mutuality, the neighbour of a cell without door `door` has no
opposite door. -/
theorem neighbour_lacks_opposite (w h : Int) (g : Int → Nat) (cell : Int) (door : Nat)
    (hw : 1 ≤ w) (hcell : in_grid w h cell) (hd : is_door door)
    (hn : get_neighbour_room_index w h cell door ≠ -1) (hm : mutual_ok w h g)
    (hno : ¬ has_bit (g cell) door) :
    ¬ has_bit (g (get_neighbour_room_index w h cell door))
        (get_opposite_direction_bit door).toNat := by
  intro hb
  have hin := neighbour_in_grid w h cell door hw hcell hd hn
  obtain ⟨_, h2⟩ := hm _ _ hin (opposite_is_door door hd) hb
  rw [neighbour_back w h cell door hw hcell hd hn, opposite_opposite door hd] at h2
  exact hno h2

/-- On a state with door mutuality, a turn of the door loop is `door_effect`. -/
theorem generate_room_door_eq (w h : Int) (pd : Nat) (cell : Int) (door : Nat) (s : State)
    (hw : 1 ≤ w) (hcell : in_grid w h cell) (hd : is_door door)
    (hm : mutual_ok w h s.grid) :
    generate_room_door w h pd cell door s = door_effect w h pd cell door s := by
  unfold generate_room_door door_effect
  rw [door_land_neighbours door hd]
  by_cases h1 : has_bit (s.grid cell) door
  · have h1a : s.grid cell &&& door ≠ 0 := h1
    simp [h1, h1a]
  have h1a : ¬ (s.grid cell &&& door ≠ 0) := h1
  by_cases h2 : get_neighbour_room_index w h cell door = -1
  · simp [h1, h1a, h2]
  by_cases h3 : has_bit (s.grid (get_neighbour_room_index w h cell door)) BIT_USED_ROOM
  · have h3a : s.grid (get_neighbour_room_index w h cell door) &&& BIT_USED_ROOM ≠ 0 := h3
    simp [h1, h1a, h2, h3, h3a]
  have h3a : ¬ (s.grid (get_neighbour_room_index w h cell door) &&& BIT_USED_ROOM ≠ 0) := h3
  have hlack := neighbour_lacks_opposite w h s.grid cell door hw hcell hd h2 hm h1
  have hne := neighbour_ne_self w h cell door hw hcell hd h2
  have hto := opposite_toNat door hd
  have hcond1 : ¬ ((door ≠ door) ∨ s.grid cell &&& door ≠ 0) := by tauto
  have hcond2 : ¬ (get_neighbour_room_index w h cell door = -1
      ∨ s.grid (get_neighbour_room_index w h cell door) &&& BIT_USED_ROOM ≠ 0) := by tauto
  rw [if_neg hcond1]
  simp only []
  rw [if_neg hcond2]
  by_cases h4 : (door &&& pd) = door
  · have hcond3 : ¬ (has_bit (s.grid cell) door ∨ get_neighbour_room_index w h cell door = -1
        ∨ has_bit (s.grid (get_neighbour_room_index w h cell door)) BIT_USED_ROOM
        ∨ (door &&& pd) ≠ door) := by tauto
    rw [if_neg hcond3, if_pos h4]
    have hc : Function.update (Function.update s.grid cell (s.grid cell ||| door))
        (get_neighbour_room_index w h cell door)
        (Function.update s.grid cell (s.grid cell ||| door)
          (get_neighbour_room_index w h cell door) |||
          (get_opposite_direction_bit door).toNat)
        = carve s.grid cell (get_neighbour_room_index w h cell door) door
            (get_opposite_direction_bit door).toNat := rfl
    rw [hc]
    have hv : carve s.grid cell (get_neighbour_room_index w h cell door) door
        (get_opposite_direction_bit door).toNat (get_neighbour_room_index w h cell door)
        = s.grid (get_neighbour_room_index w h cell door) |||
            (get_opposite_direction_bit door).toNat := by
      rw [carve_apply _ _ _ _ _ hne, if_pos rfl]
    rw [hv]
    by_cases h5 : s.grid (get_neighbour_room_index w h cell door) = 0
    · rw [if_pos h5, if_pos]
      rw [h5, Nat.zero_or]; exact hto
    · rw [if_neg h5, if_neg]
      intro e
      rw [← hto] at e
      exact h5 (first_discovery _ _ (Int.ofNat_inj.mp e) hlack)
  · have hcond3 : (has_bit (s.grid cell) door ∨ get_neighbour_room_index w h cell door = -1
        ∨ has_bit (s.grid (get_neighbour_room_index w h cell door)) BIT_USED_ROOM
        ∨ (door &&& pd) ≠ door) := by tauto
    rw [if_pos hcond3, if_neg h4, if_neg]
    intro e
    rw [← hto] at e
    have e2 := Int.ofNat_inj.mp e
    apply hlack
    rw [e2]
    exact (door_has_bit _ _ (opposite_is_door door hd) (opposite_is_door door hd)).mpr rfl

theorem Grows.refl (s : State) : Grows s s :=
  ⟨fun _ _ => rfl, le_rfl, rfl, rfl, fun _ _ hb => hb⟩

theorem Grows.trans {s t u : State} (h1 : Grows s t) (h2 : Grows t u) : Grows s u :=
  ⟨fun k hk => by rw [h2.front k (lt_of_lt_of_le hk h1.len), h1.front k hk],
   le_trans h1.len h2.len, by rw [h2.entrance, h1.entrance], by rw [h2.cursor, h1.cursor],
   fun x b hb => h2.bits x b (h1.bits x b hb)⟩

/-- A turn of the door loop on a generated cell keeps the invariant. -/
theorem door_effect_inv (w h : Int) (pd : Nat) (s : State) (j : Nat) (door : Nat)
    (hw : 1 ≤ w) (hinv : Inv w h s) (hj : j < s.generated_cells_number)
    (hd : is_door door) :
    Inv w h (door_effect w h pd (s.generated_cells j) door s)
      ∧ Grows s (door_effect w h pd (s.generated_cells j) door s) := by
  unfold door_effect
  simp only []
  split_ifs with hskip hzero
  · exact ⟨hinv, Grows.refl s⟩
  · -- the neighbour is a zero cell: doors carved, neighbour appended
    have hcell := hinv.front_in j hj
    have hn : get_neighbour_room_index w h (s.generated_cells j) door ≠ -1 := by tauto
    have hne := neighbour_ne_self w h _ door hw hcell hd hn
    have hin := neighbour_in_grid w h _ door hw hcell hd hn
    have hod := opposite_is_door door hd
    have hpos := hinv.pos
    refine ⟨⟨?_, ?_, ?_, ?_, ?_, ?_, ?_, ?_, ?_, ?_⟩, ⟨?_, ?_, rfl, rfl, ?_⟩⟩
    · show 1 ≤ s.generated_cells_number + 1
      omega
    · intro k hk
      show in_grid w h (Function.update s.generated_cells s.generated_cells_number _ k)
      by_cases hkn : k = s.generated_cells_number
      · rw [hkn, Function.update_same]; exact hin
      · rw [Function.update_noteq hkn]
        exact hinv.front_in k (lt_of_le_of_ne (Nat.lt_succ_iff.mp hk) hkn)
    · intro k hk
      show carve s.grid _ _ _ _
        (Function.update s.generated_cells s.generated_cells_number _ k) ≠ 0
      by_cases hkn : k = s.generated_cells_number
      · rw [hkn, Function.update_same, carve_apply _ _ _ _ _ hne, if_pos rfl]
        intro e
        exact door_ne_zero _ hod ((lor_eq_zero _ _).mp e).2
      · rw [Function.update_noteq hkn]
        exact carve_ne_zero _ _ _ _ _ hne _
          (hinv.front_nz k (lt_of_le_of_ne (Nat.lt_succ_iff.mp hk) hkn))
    · intro a b ha hb
      show Function.update s.generated_cells s.generated_cells_number _ a
        = Function.update s.generated_cells s.generated_cells_number _ b → a = b
      intro e
      by_cases han : a = s.generated_cells_number
      · by_cases hbn : b = s.generated_cells_number
        · rw [han, hbn]
        · rw [han, Function.update_same, Function.update_noteq hbn] at e
          have := hinv.front_nz b (lt_of_le_of_ne (Nat.lt_succ_iff.mp hb) hbn)
          rw [← e] at this
          exact absurd hzero this
      · by_cases hbn : b = s.generated_cells_number
        · rw [hbn, Function.update_same, Function.update_noteq han] at e
          have := hinv.front_nz a (lt_of_le_of_ne (Nat.lt_succ_iff.mp ha) han)
          rw [e] at this
          exact absurd hzero this
        · rw [Function.update_noteq han, Function.update_noteq hbn] at e
          exact hinv.front_inj a b (lt_of_le_of_ne (Nat.lt_succ_iff.mp ha) han)
            (lt_of_le_of_ne (Nat.lt_succ_iff.mp hb) hbn) e
    · intro c hc hz
      show ∃ k, k < s.generated_cells_number + 1
        ∧ Function.update s.generated_cells s.generated_cells_number _ k = c
      by_cases h1 : c = get_neighbour_room_index w h (s.generated_cells j) door
      · exact ⟨s.generated_cells_number, by omega, by rw [Function.update_same, h1]⟩
      · have hz1 : s.grid c ≠ 0 := by
          intro e0
          have hz2 : carve s.grid (s.generated_cells j)
              (get_neighbour_room_index w h (s.generated_cells j) door) door
              (get_opposite_direction_bit door).toNat c ≠ 0 := hz
          rw [carve_apply _ _ _ _ _ hne, if_neg h1] at hz2
          by_cases h2 : c = s.generated_cells j
          · rw [h2] at e0; exact hinv.front_nz j hj e0
          · rw [if_neg h2] at hz2; exact hz2 e0
        obtain ⟨k, hk, hkc⟩ := hinv.cover c hc hz1
        exact ⟨k, by omega, by rw [Function.update_noteq (ne_of_lt hk)]; exact hkc⟩
    · exact carve_mutual w h s.grid _ _ door hw hcell hd rfl hn hinv.doors
    · exact hinv.entr_in
    · show Function.update s.generated_cells s.generated_cells_number _ 0 = _
      rw [Function.update_noteq (by omega)]; exact hinv.entr_first
    · exact carve_entrance w h s.grid _ _ door _ hd hne hinv.entr
    · exact carve_connected w h s.grid _ _ door _ hw hcell hd rfl hn
        (hinv.front_nz j hj) hinv.conn
    · intro k hk
      show Function.update s.generated_cells s.generated_cells_number _ k = _
      rw [Function.update_noteq (ne_of_lt hk)]
    · show s.generated_cells_number ≤ s.generated_cells_number + 1
      omega
    · exact fun x b hb => carve_mono _ _ _ _ _ hne x b hb
  · -- the neighbour was discovered before: doors carved only
    have hcell := hinv.front_in j hj
    have hn : get_neighbour_room_index w h (s.generated_cells j) door ≠ -1 := by tauto
    have hne := neighbour_ne_self w h _ door hw hcell hd hn
    refine ⟨⟨hinv.pos, hinv.front_in, ?_, hinv.front_inj, ?_, ?_, hinv.entr_in,
      hinv.entr_first, ?_, ?_⟩, ⟨fun _ _ => rfl, le_rfl, rfl, rfl, ?_⟩⟩
    · intro k hk
      exact carve_ne_zero _ _ _ _ _ hne _ (hinv.front_nz k hk)
    · intro c hc hz
      have hz1 : s.grid c ≠ 0 := by
        intro e0
        have hz2 : carve s.grid (s.generated_cells j)
            (get_neighbour_room_index w h (s.generated_cells j) door) door
            (get_opposite_direction_bit door).toNat c ≠ 0 := hz
        rw [carve_apply _ _ _ _ _ hne] at hz2
        by_cases h1 : c = get_neighbour_room_index w h (s.generated_cells j) door
        · rw [h1] at e0; exact hzero e0
        · rw [if_neg h1] at hz2
          by_cases h2 : c = s.generated_cells j
          · rw [h2] at e0; exact hinv.front_nz j hj e0
          · rw [if_neg h2] at hz2; exact hz2 e0
      exact hinv.cover c hc hz1
    · exact carve_mutual w h s.grid _ _ door hw hcell hd rfl hn hinv.doors
    · exact carve_entrance w h s.grid _ _ door _ hd hne hinv.entr
    · exact carve_connected w h s.grid _ _ door _ hw hcell hd rfl hn
        (hinv.front_nz j hj) hinv.conn
    · exact fun x b hb => carve_mono _ _ _ _ _ hne x b hb

theorem generate_room_door_inv (w h : Int) (pd : Nat) (s : State) (j : Nat) (door : Nat)
    (cell : Int) (hw : 1 ≤ w) (hinv : Inv w h s) (hj : j < s.generated_cells_number)
    (hcell : s.generated_cells j = cell) (hd : is_door door) :
    Inv w h (generate_room_door w h pd cell door s)
      ∧ Grows s (generate_room_door w h pd cell door s) := by
  subst hcell
  rw [generate_room_door_eq w h pd _ door s hw (hinv.front_in j hj) hd hinv.doors]
  exact door_effect_inv w h pd s j door hw hinv hj hd

/-! ## `generate_room` and the body of the main loop -/

/-- The door loop runs the four door bits in the order north, east, south, west. -/
theorem generate_room_loop_eq (w h : Int) (pd : Nat) (cell : Int) (s : State) :
    generate_room_loop w h pd cell 5 1 s =
      generate_room_door w h pd cell BIT_DOOR_WEST
        (generate_room_door w h pd cell BIT_DOOR_SOUTH
          (generate_room_door w h pd cell BIT_DOOR_EAST
            (generate_room_door w h pd cell BIT_DOOR_NORTH s))) := rfl

theorem generate_room_inv (w h : Int) (rs : RandomSource) (s : State) (j : Nat)
    (hw : 1 ≤ w) (hinv : Inv w h s) (hj : j < s.generated_cells_number) :
    Inv w h (generate_room w h rs j s) ∧ Grows s (generate_room w h rs j s) := by
  unfold generate_room
  simp only []
  rw [generate_room_loop_eq]
  have hinv0 : Inv w h { s with draws := s.draws + 1 } :=
    ⟨hinv.pos, hinv.front_in, hinv.front_nz, hinv.front_inj, hinv.cover, hinv.doors,
      hinv.entr_in, hinv.entr_first, hinv.entr, hinv.conn⟩
  have hg0 : Grows s { s with draws := s.draws + 1 } :=
    ⟨fun _ _ => rfl, le_rfl, rfl, rfl, fun _ _ hb => hb⟩
  obtain ⟨hi1, hg1⟩ := generate_room_door_inv w h (rs s.draws 0 g_neighbours) _ j
    BIT_DOOR_NORTH (s.generated_cells j) hw hinv0 hj rfl (Or.inl rfl)
  have hj1 := lt_of_lt_of_le hj hg1.len
  have hc1 := hg1.front j hj
  obtain ⟨hi2, hg2⟩ := generate_room_door_inv w h (rs s.draws 0 g_neighbours) _ j
    BIT_DOOR_EAST (s.generated_cells j) hw hi1 hj1 hc1 (Or.inr (Or.inl rfl))
  have hj2 := lt_of_lt_of_le hj1 hg2.len
  have hc2 := (hg2.front j hj1).trans hc1
  obtain ⟨hi3, hg3⟩ := generate_room_door_inv w h (rs s.draws 0 g_neighbours) _ j
    BIT_DOOR_SOUTH (s.generated_cells j) hw hi2 hj2 hc2 (Or.inr (Or.inr (Or.inl rfl)))
  have hj3 := lt_of_lt_of_le hj2 hg3.len
  have hc3 := (hg3.front j hj2).trans hc2
  obtain ⟨hi4, hg4⟩ := generate_room_door_inv w h (rs s.draws 0 g_neighbours) _ j
    BIT_DOOR_WEST (s.generated_cells j) hw hi3 hj3 hc3 (Or.inr (Or.inr (Or.inr rfl)))
  exact ⟨hi4, ((hg0.trans hg1).trans hg2).trans (hg3.trans hg4)⟩

theorem has_bit_zero (b : Nat) : ¬ has_bit 0 b := by
  unfold has_bit; simp

theorem flag_used_inv (w h : Int) (s : State) (hinv : Inv w h s)
    (hi : s.i < s.generated_cells_number) :
    Inv w h (flag_used s) ∧ Grows s (flag_used s) := by
  unfold flag_used
  split_ifs with hu
  · have hmono : ∀ x b, has_bit (s.grid x) b →
        has_bit (Function.update s.grid (s.generated_cells s.i)
          (s.grid (s.generated_cells s.i) ||| BIT_USED_ROOM) x) b := by
      intro x b hb
      by_cases hx : x = s.generated_cells s.i
      · rw [hx, Function.update_same]; rw [hx] at hb
        exact (has_bit_lor _ _ _).mpr (Or.inl hb)
      · rw [Function.update_noteq hx]; exact hb
    have hback : ∀ x b, (is_door b ∨ b = BIT_ENTRANCE) →
        has_bit (Function.update s.grid (s.generated_cells s.i)
          (s.grid (s.generated_cells s.i) ||| BIT_USED_ROOM) x) b → has_bit (s.grid x) b := by
      intro x b hbd hb
      by_cases hx : x = s.generated_cells s.i
      · rw [hx, Function.update_same] at hb
        rw [hx]
        rcases (has_bit_lor _ _ _).mp hb with h1 | h1
        · exact h1
        · exfalso
          rcases hbd with hbd | hbd
          · exact used_not_door b hbd h1
          · rw [hbd] at h1; revert h1; decide
      · rw [Function.update_noteq hx] at hb; exact hb
    have hnz : ∀ x, Function.update s.grid (s.generated_cells s.i)
          (s.grid (s.generated_cells s.i) ||| BIT_USED_ROOM) x ≠ 0 → s.grid x ≠ 0 := by
      intro x hx0
      by_cases hx : x = s.generated_cells s.i
      · rw [hx]; exact hinv.front_nz _ hi
      · rw [Function.update_noteq hx] at hx0; exact hx0
    have hnz2 : ∀ x, s.grid x ≠ 0 → Function.update s.grid (s.generated_cells s.i)
          (s.grid (s.generated_cells s.i) ||| BIT_USED_ROOM) x ≠ 0 := by
      intro x hx0
      by_cases hx : x = s.generated_cells s.i
      · rw [hx, Function.update_same]
        intro e
        rw [hx] at hx0
        exact hx0 ((lor_eq_zero _ _).mp e).1
      · rw [Function.update_noteq hx]; exact hx0
    refine ⟨⟨hinv.pos, hinv.front_in, ?_, hinv.front_inj, ?_, ?_, hinv.entr_in,
      hinv.entr_first, ?_, ?_⟩, ⟨fun _ _ => rfl, le_rfl, rfl, rfl, hmono⟩⟩
    · exact fun k hk => hnz2 _ (hinv.front_nz k hk)
    · exact fun c hc hz => hinv.cover c hc (hnz c hz)
    · intro c d hc hd hb
      obtain ⟨h1, h2⟩ := hinv.doors c d hc hd (hback c d (Or.inl hd) hb)
      exact ⟨h1, hmono _ _ h2⟩
    · intro c hc
      rw [← hinv.entr c hc]
      exact ⟨hback c _ (Or.inr rfl), hmono c _⟩
    · intro c hc hz
      exact joined_mono w h s.grid _ hmono _ c (hinv.conn c hc (hnz c hz))
  · exact ⟨hinv, Grows.refl s⟩

theorem advance_inv (w h : Int) (s : State) (hinv : Inv w h s) :
    Inv w h (advance w h s) :=
  ⟨hinv.pos, hinv.front_in, hinv.front_nz, hinv.front_inj, hinv.cover, hinv.doors,
    hinv.entr_in, hinv.entr_first, hinv.entr, hinv.conn⟩

theorem define_entrance_of_inv (w h : Int) (rs : RandomSource) (s : State)
    (hinv : Inv w h s) : define_entrance w h rs s = s := by
  unfold define_entrance
  rw [if_neg]
  have := hinv.pos
  omega

theorem define_entrance_fresh (w h : Int) (rs : RandomSource) (s : State)
    (hf : fresh s) (hr : entrance_draw_ok w h rs) :
    Inv w h (define_entrance w h rs s) ∧ (define_entrance w h rs s).i = 0
      ∧ (define_entrance w h rs s).generated_cells_number = 1 := by
  obtain ⟨hf1, hf2, hf3, hf4⟩ := hf
  unfold entrance_draw_ok at hr
  unfold define_entrance
  rw [if_pos ⟨hf2, hf1⟩, hf3]
  simp only []
  have hin : in_grid w h ((rs 0 0 (w * h).toNat : Nat) : Int) := by
    unfold in_grid; omega
  have hg : ∀ c, Function.update s.grid ((rs 0 0 (w * h).toNat : Nat) : Int)
      (BIT_ENTRANCE ||| BIT_USED_ROOM) c ≠ 0 → c = ((rs 0 0 (w * h).toNat : Nat) : Int) := by
    intro c hc
    by_contra hne
    rw [Function.update_noteq hne] at hc
    exact hc (hf4 c)
  refine ⟨⟨le_rfl, ?_, ?_, ?_, ?_, ?_, hin, ?_, ?_, ?_⟩, hf2, trivial⟩
  · intro k hk
    have hk0 : k = 0 := by
      have : k < 1 := hk
      omega
    show in_grid w h (Function.update s.generated_cells 0 _ k)
    rw [hk0, Function.update_same]; exact hin
  · intro k hk
    have hk0 : k = 0 := by
      have : k < 1 := hk
      omega
    show Function.update s.grid _ _ (Function.update s.generated_cells 0 _ k) ≠ 0
    rw [hk0, Function.update_same, Function.update_same]; decide
  · intro a b ha hb _
    have ha1 : a < 1 := ha
    have hb1 : b < 1 := hb
    omega
  · intro c _ hz
    refine ⟨0, Nat.lt_succ_self 0, ?_⟩
    show Function.update s.generated_cells 0 _ 0 = c
    rw [Function.update_same]; exact (hg c hz).symm
  · intro c d _ hd hb
    exfalso
    have hb1 : has_bit (Function.update s.grid ((rs 0 0 (w * h).toNat : Nat) : Int)
      (BIT_ENTRANCE ||| BIT_USED_ROOM) c) d := hb
    by_cases hc : c = ((rs 0 0 (w * h).toNat : Nat) : Int)
    · rw [hc, Function.update_same] at hb1
      revert hb1
      rcases hd with rfl | rfl | rfl | rfl <;> decide
    · rw [Function.update_noteq hc, hf4 c] at hb1
      exact has_bit_zero _ hb1
  · exact Function.update_same (0 : Nat) ((rs 0 0 (w * h).toNat : Nat) : Int) s.generated_cells
  · intro c _
    show has_bit (Function.update s.grid ((rs 0 0 (w * h).toNat : Nat) : Int)
      (BIT_ENTRANCE ||| BIT_USED_ROOM) c) BIT_ENTRANCE ↔ c = _
    constructor
    · intro hb
      exact hg c (has_bit_ne_zero _ _ hb)
    · intro hc
      rw [hc, Function.update_same]; decide
  · intro c _ hz
    have hce := hg c hz
    show joined w h _ _ c
    rw [hce]
    exact Relation.ReflTransGen.refl

/-- One turn of the main loop establishes or keeps the invariant. -/
theorem loop_body_inv (w h : Int) (rs : RandomSource) (s : State) (hw : 1 ≤ w)
    (hr : entrance_draw_ok w h rs) (hs : fresh s ∨ Inv w h s)
    (hc : loop_cond w h s) : Inv w h (loop_body w h rs s) := by
  have h1 : Inv w h (define_entrance w h rs s)
      ∧ (define_entrance w h rs s).i < (define_entrance w h rs s).generated_cells_number := by
    rcases hs with hf | hinv
    · obtain ⟨ha, hb, hc1⟩ := define_entrance_fresh w h rs s hf hr
      exact ⟨ha, by rw [hb, hc1]; exact Nat.lt_succ_self 0⟩
    · rw [define_entrance_of_inv w h rs s hinv]
      refine ⟨hinv, ?_⟩
      have := hinv.pos
      rcases hc.2 with h0 | h0 <;> omega
  obtain ⟨hi1, hlt1⟩ := h1
  obtain ⟨hi2, hg2⟩ := generate_room_inv w h rs _ _ hw hi1 hlt1
  have hlt2 : (generate_room w h rs (define_entrance w h rs s).i
      (define_entrance w h rs s)).i
      < (generate_room w h rs (define_entrance w h rs s).i
      (define_entrance w h rs s)).generated_cells_number := by
    rw [hg2.cursor]; exact lt_of_lt_of_le hlt1 hg2.len
  obtain ⟨hi3, _⟩ := flag_used_inv w h _ hi2 hlt2
  exact advance_inv w h _ hi3

theorem initial_fresh : fresh (initial_state empty_grid) :=
  ⟨rfl, rfl, rfl, fun _ => rfl⟩

theorem turns_inv (w h : Int) (rs : RandomSource) (hw : 1 ≤ w)
    (hr : entrance_draw_ok w h rs) (n : Nat) :
    ∀ s, Inv w h s → Inv w h (turns w h rs n s) := by
  induction n with
  | zero => intro s hs; exact hs
  | succ n ih =>
    intro s hs
    unfold turns
    split_ifs with hc
    · exact ih _ (loop_body_inv w h rs s hw hr (Or.inr hs) hc)
    · exact hs

/-- After at least one turn of the main loop the invariant holds. -/
theorem dungeon_after_inv (w h : Int) (rs : RandomSource) (hw : 1 ≤ w) (hh : 1 ≤ h)
    (hr : entrance_draw_ok w h rs) (n : Nat) (hn : 1 ≤ n) :
    Inv w h (dungeon_after w h rs n) := by
  obtain ⟨m, rfl⟩ : ∃ m, n = m + 1 := ⟨n - 1, by omega⟩
  unfold dungeon_after turns
  have hc : loop_cond w h (initial_state empty_grid) := by
    constructor
    · show ((0 : Nat) : Int) < w * h
      have : 0 < w * h := by positivity
      simpa using this
    · exact Or.inl rfl
  rw [if_pos hc]
  exact turns_inv w h rs hw hr m _
    (loop_body_inv w h rs _ hw hr (Or.inl initial_fresh) hc)

/-- A run that returns stops in a state reached after some positive number of
turns, in which the loop condition fails. -/
theorem run_loop_turns (w h : Int) (rs : RandomSource) (fuel : Nat) :
    ∀ s t, run_loop w h rs fuel s = some t →
      t = turns w h rs fuel s ∧ ¬ loop_cond w h t := by
  induction fuel with
  | zero =>
    intro s t ht
    unfold run_loop at ht
    split_ifs at ht with hc
    · cases ht; exact ⟨rfl, hc⟩
  | succ n ih =>
    intro s t ht
    unfold run_loop at ht
    unfold turns
    split_ifs at ht ⊢ with hc
    · exact ih _ _ ht
    · cases ht; exact ⟨rfl, hc⟩

/-! ## Number of generated cells and position of the cursor -/

/-- The generated cells are distinct cells of the grid: there are at most
`width * height` of them. -/
theorem generated_le_area (w h : Int) (s : State) (hinv : Inv w h s) :
    (s.generated_cells_number : Int) ≤ w * h := by
  have hcard := Finset.card_le_card_of_injOn
    (s := Finset.range s.generated_cells_number) (t := Finset.range (w * h).toNat)
    (fun j => (s.generated_cells j).toNat)
    (by
      intro j hj
      have hj1 := Finset.mem_range.mp hj
      have := hinv.front_in j hj1
      unfold in_grid at this
      show (s.generated_cells j).toNat ∈ Finset.range (w * h).toNat
      exact Finset.mem_range.mpr (by omega))
    (by
      intro a ha b hb e
      have ha1 : a < s.generated_cells_number := Finset.mem_range.mp ha
      have hb1 : b < s.generated_cells_number := Finset.mem_range.mp hb
      have h1 := hinv.front_in a ha1
      have h2 := hinv.front_in b hb1
      unfold in_grid at h1 h2
      have e1 : (s.generated_cells a).toNat = (s.generated_cells b).toNat := e
      exact hinv.front_inj a b ha1 hb1 (by omega))
  rw [Finset.card_range, Finset.card_range] at hcard
  have := hinv.pos
  omega

theorem initial_loop_cond (w h : Int) (hw : 1 ≤ w) (hh : 1 ≤ h) :
    loop_cond w h (initial_state empty_grid) := by
  constructor
  · show ((0 : Nat) : Int) < w * h
    have : 0 < w * h := by positivity
    simpa using this
  · exact Or.inl rfl

/-- A run of `generate_dungeon` that returns has made at least one turn, and
returns the state reached after its turns, in which the loop condition fails. -/
theorem generate_dungeon_returns (w h : Int) (rs : RandomSource) (hw : 1 ≤ w) (hh : 1 ≤ h)
    (fuel : Nat) (s : State) (hs : generate_dungeon w h rs empty_grid fuel = some s) :
    1 ≤ fuel ∧ s = dungeon_after w h rs fuel ∧ ¬ loop_cond w h s := by
  unfold generate_dungeon at hs
  obtain ⟨h1, h2⟩ := run_loop_turns w h rs fuel _ _ hs
  refine ⟨?_, h1, h2⟩
  by_contra h0
  have hf : fuel = 0 := by omega
  rw [hf] at h1
  rw [h1] at h2
  exact h2 (initial_loop_cond w h hw hh)

/-- A run whose state after `n` turns fails the loop condition returns that
state when given `n` turns. -/
theorem run_loop_of_exit (w h : Int) (rs : RandomSource) (n : Nat) :
    ∀ s, ¬ loop_cond w h (turns w h rs n s) →
      run_loop w h rs n s = some (turns w h rs n s) := by
  induction n with
  | zero =>
    intro s hc
    unfold turns at hc
    unfold run_loop turns
    rw [if_neg hc]
  | succ n ih =>
    intro s hc
    unfold turns at hc
    unfold run_loop turns
    split_ifs at hc ⊢ with h1
    · exact ih _ hc
    · rfl

/-- The random source of the program respects the bound of the entrance draw,
for an area that fits in an `unsigned int`. -/
theorem urandom_entrance_draw_ok (raw : Nat → Nat) (w h : Int) (hw : 1 ≤ w) (hh : 1 ≤ h)
    (hfit : w * h < 2 ^ 32) : entrance_draw_ok w h (urandom raw) := by
  have hpos : 0 < w * h := by positivity
  have hU : UINT_SIZE = 4294967296 := by decide
  have hA0 : 0 < (w * h).toNat := by omega
  have hA1 : (w * h).toNat < UINT_SIZE := by rw [hU]; omega
  unfold entrance_draw_ok urandom get_random_int
  rw [Nat.sub_zero, Nat.add_mod_right, Nat.mod_eq_of_lt hA1, Nat.add_zero]
  have hlt := Nat.mod_lt (raw 0 % UINT_SIZE) hA0
  rw [Nat.mod_eq_of_lt (lt_trans hlt hA1)]
  exact hlt

/-! ## Properties of the generated dungeon -/

theorem mutual_ok_empty (w h : Int) : mutual_ok w h empty_grid :=
  fun _ d _ _ hb => absurd hb (has_bit_zero d)

theorem dungeon_after_mutual (w h : Int) (rs : RandomSource) (hw : 1 ≤ w) (hh : 1 ≤ h)
    (hr : entrance_draw_ok w h rs) (n : Nat) :
    mutual_ok w h (dungeon_after w h rs n).grid := by
  rcases Nat.eq_zero_or_pos n with h0 | h0
  · rw [h0]; exact mutual_ok_empty w h
  · exact (dungeon_after_inv w h rs hw hh hr n h0).doors

theorem mutual_doors_of_ok (w h : Int) (g : Int → Nat) (hw : 1 ≤ w)
    (hm : mutual_ok w h g) : mutual_doors w h g := by
  intro c d hc hd hb
  obtain ⟨h1, h2⟩ := hm c d hc hd hb
  exact ⟨h1, neighbour_in_grid w h c d hw hc hd h1, h2⟩

theorem no_door_off_grid_of_ok (w h : Int) (g : Int → Nat) (hw : 1 ≤ w)
    (hm : mutual_ok w h g) : no_door_off_grid w h g := by
  intro c hc
  refine ⟨?_, ?_, ?_, ?_⟩
  · intro hedge hb
    have h1 := (hm c _ hc (Or.inl rfl) hb).1
    rw [neighbour_eq_rule w h c _ hw hc, rule_north, if_neg (by omega)] at h1
    exact h1 rfl
  · intro hedge hb
    have h1 := (hm c _ hc (Or.inr (Or.inl rfl)) hb).1
    rw [neighbour_eq_rule w h c _ hw hc, rule_east, if_neg (not_not.mpr hedge)] at h1
    exact h1 rfl
  · intro hedge hb
    have h1 := (hm c _ hc (Or.inr (Or.inr (Or.inl rfl))) hb).1
    rw [neighbour_eq_rule w h c _ hw hc, rule_south, if_neg (by omega)] at h1
    exact h1 rfl
  · intro hedge hb
    have h1 := (hm c _ hc (Or.inr (Or.inr (Or.inr rfl))) hb).1
    rw [neighbour_eq_rule w h c _ hw hc, rule_west, if_neg (not_not.mpr hedge)] at h1
    exact h1 rfl

/-- Door mutuality of the program on unbounded integers.  For a grid of width and height at least 1 and a
random source whose entrance draw is below the area, after every number of
turns of the main loop of `generate_dungeon` on the all-zero grid, and in every
state the function returns: a cell of the grid with door bit `d` has a
neighbour in direction `d` (the resolver does not answer `-1`), that neighbour
is a cell of the grid and has the opposite door bit; and no cell on an edge of
the grid has a door bit pointing out of the grid. -/
theorem door_mutuality_unbounded (width height : Int) (rs : RandomSource)
    (hw : 1 ≤ width) (hh : 1 ≤ height) (hr : entrance_draw_ok width height rs) :
    (∀ n, mutual_doors width height (dungeon_after width height rs n).grid
        ∧ no_door_off_grid width height (dungeon_after width height rs n).grid)
    ∧ (∀ fuel s, generate_dungeon width height rs empty_grid fuel = some s →
        mutual_doors width height s.grid ∧ no_door_off_grid width height s.grid) := by
  have key : ∀ n, mutual_doors width height (dungeon_after width height rs n).grid
      ∧ no_door_off_grid width height (dungeon_after width height rs n).grid := fun n =>
    ⟨mutual_doors_of_ok _ _ _ hw (dungeon_after_mutual width height rs hw hh hr n),
     no_door_off_grid_of_ok _ _ _ hw (dungeon_after_mutual width height rs hw hh hr n)⟩
  refine ⟨key, ?_⟩
  intro fuel s hs
  obtain ⟨_, h2, _⟩ := generate_dungeon_returns width height rs hw hh fuel s hs
  rw [h2]
  exact key fuel

/-- The 3x3 run with the all-doors source returns after four turns. -/
theorem all_doors_returns :
    generate_dungeon 3 3 all_doors_source empty_grid 4
      = some (dungeon_after 3 3 all_doors_source 4) :=
  run_loop_of_exit 3 3 all_doors_source 4 _ (by decide!)

/-- Rules of the neighbour resolver on unbounded integers.  For width and height at
least 1 and a cell index of the grid, `get_neighbour_room_index` returns:
north, `cell_index - width` when that is at least 0; south,
`cell_index + width` when that is below the area; east, `cell_index + 1` when
the cell is not in the last column; west, `cell_index - 1` when the cell is not
in the first column; and `-1` in every other case.  Whenever the condition of a
direction holds, the value returned is a cell of the grid (so it is not `-1`). -/
theorem resolver_rules_unbounded (width height cell_index : Int)
    (hw : 1 ≤ width) (_hh : 1 ≤ height) (hc : in_grid width height cell_index) :
    get_neighbour_room_index width height cell_index BIT_DOOR_NORTH
        = (if cell_index - width ≥ 0 then cell_index - width else -1)
    ∧ get_neighbour_room_index width height cell_index BIT_DOOR_SOUTH
        = (if cell_index + width < width * height then cell_index + width else -1)
    ∧ get_neighbour_room_index width height cell_index BIT_DOOR_EAST
        = (if cell_index % width ≠ width - 1 then cell_index + 1 else -1)
    ∧ get_neighbour_room_index width height cell_index BIT_DOOR_WEST
        = (if cell_index % width ≠ 0 then cell_index - 1 else -1)
    ∧ (cell_index - width ≥ 0 → in_grid width height (cell_index - width))
    ∧ (cell_index + width < width * height → in_grid width height (cell_index + width))
    ∧ (cell_index % width ≠ width - 1 → in_grid width height (cell_index + 1))
    ∧ (cell_index % width ≠ 0 → in_grid width height (cell_index - 1)) := by
  have hz : cell_index = 0 → cell_index % width = 0 := by intro e; rw [e]; simp
  have hsucc := succ_in_grid width height cell_index hw hc
  refine ⟨?_, ?_, ?_, ?_, ?_, ?_, ?_, ?_⟩
  · rw [neighbour_eq_rule _ _ _ _ hw hc, rule_north]
  · rw [neighbour_eq_rule _ _ _ _ hw hc, rule_south]
  · rw [neighbour_eq_rule _ _ _ _ hw hc, rule_east]
  · rw [neighbour_eq_rule _ _ _ _ hw hc, rule_west]
  · intro h1; unfold in_grid at hc ⊢; omega
  · intro h1; unfold in_grid at hc ⊢; omega
  · intro h1; exact ⟨by unfold in_grid at hc; omega, hsucc h1⟩
  · intro h1
    have : cell_index ≠ 0 := fun e => h1 (hz e)
    unfold in_grid at hc ⊢; omega

/-- Results of the neighbour resolver on unbounded integers.  For width and
height at least 1, a cell index of the grid and one of the four door bits,
`get_neighbour_room_index` returns `-1` or an index `n` with
`0 ≤ n < width * height`.  The cell on which `generate_room` works is a
generated cell, and the generated cells of a run are cells of the grid: so the
accesses `d->grid[neighbour_room]` made by `generate_room` after its test of
the sentinel are inside the grid. -/
theorem index_valid_unbounded (width height : Int) (hw : 1 ≤ width) (hh : 1 ≤ height) :
    (∀ cell_index direction, in_grid width height cell_index → is_door direction →
      get_neighbour_room_index width height cell_index direction = -1
      ∨ (0 ≤ get_neighbour_room_index width height cell_index direction
          ∧ get_neighbour_room_index width height cell_index direction < width * height))
    ∧ (∀ rs, entrance_draw_ok width height rs → ∀ n j direction,
        j < (dungeon_after width height rs n).generated_cells_number → is_door direction →
        in_grid width height ((dungeon_after width height rs n).generated_cells j)
        ∧ (get_neighbour_room_index width height
              ((dungeon_after width height rs n).generated_cells j) direction = -1
          ∨ in_grid width height (get_neighbour_room_index width height
              ((dungeon_after width height rs n).generated_cells j) direction))) := by
  have key : ∀ c d, in_grid width height c → is_door d →
      get_neighbour_room_index width height c d = -1
      ∨ in_grid width height (get_neighbour_room_index width height c d) := by
    intro c d hc hd
    by_cases hn : get_neighbour_room_index width height c d = -1
    · exact Or.inl hn
    · exact Or.inr (neighbour_in_grid width height c d hw hc hd hn)
  refine ⟨key, ?_⟩
  intro rs hr n j d hj hd
  rcases Nat.eq_zero_or_pos n with h0 | h0
  · rw [h0] at hj; exact absurd hj (Nat.not_lt_zero j)
  · have hin := (dungeon_after_inv width height rs hw hh hr n h0).front_in j hj
    exact ⟨hin, key _ d hin hd⟩

/-! ## The 1x1 grid -/

theorem generate_room_door_no_neighbour (w h : Int) (pd : Nat) (cell : Int) (door : Nat)
    (s : State) (hn : get_neighbour_room_index w h cell door = -1) :
    generate_room_door w h pd cell door s = s := by
  unfold generate_room_door
  by_cases h1 : (door &&& g_neighbours) ≠ door ∨ (s.grid cell &&& door) ≠ 0
  · rw [if_pos h1]
  · rw [if_neg h1]
    simp only []
    rw [if_pos (Or.inl hn)]

/-- The first turn of the main loop on the 1x1 grid. -/
theorem one_cell_first_turn (rs : RandomSource) (hr : entrance_draw_ok 1 1 rs) :
    loop_body 1 1 rs (initial_state empty_grid) =
      { grid := Function.update empty_grid 0 (BIT_ENTRANCE ||| BIT_USED_ROOM),
        entrance := 0,
        generated_cells := Function.update (fun _ => 0) 0 0,
        generated_cells_number := 1, i := 1, draws := 2 } := by
  have he : rs 0 0 1 = 0 := by
    have : rs 0 0 1 < 1 := hr
    omega
  have h1 : define_entrance 1 1 rs (initial_state empty_grid) =
      { grid := Function.update empty_grid 0 (BIT_ENTRANCE ||| BIT_USED_ROOM),
        entrance := 0,
        generated_cells := Function.update (fun _ => 0) 0 0,
        generated_cells_number := 1, i := 0, draws := 1 } := by
    unfold define_entrance initial_state
    rw [if_pos ⟨rfl, rfl⟩]
    have e1 : ((1 : Int) * 1).toNat = 1 := by decide
    simp only [e1, he]
    rfl
  unfold loop_body
  simp only [h1]
  have h2 : ∀ s : State, s.generated_cells 0 = 0 →
      generate_room 1 1 rs 0 s = { s with draws := s.draws + 1 } := by
    intro s hs
    unfold generate_room
    simp only [hs]
    rw [generate_room_loop_eq,
      generate_room_door_no_neighbour 1 1 _ 0 BIT_DOOR_NORTH _ (by decide),
      generate_room_door_no_neighbour 1 1 _ 0 BIT_DOOR_EAST _ (by decide),
      generate_room_door_no_neighbour 1 1 _ 0 BIT_DOOR_SOUTH _ (by decide),
      generate_room_door_no_neighbour 1 1 _ 0 BIT_DOOR_WEST _ (by decide)]
  rw [h2 _ (by rfl)]
  unfold flag_used
  rw [if_neg (by decide)]
  unfold advance
  simp only []
  rw [if_neg (by decide)]
  rfl

/-- C7 (1x1 grid).  For width = height = 1 and every random source whose
entrance draw is below the area, the main loop of `generate_dungeon` makes
exactly one turn: its condition holds at the start and fails after the first
turn, so the function returns the state after that turn for every bound of at
least one turn (and does not return within zero turns).  In that state the
single cell is exactly ENTRANCE | USED, with no door bit, the entrance index is
0 and the number of generated cells is 1, the area. -/
theorem one_cell_dungeon (rs : RandomSource) (hr : entrance_draw_ok 1 1 rs) :
    loop_cond 1 1 (initial_state empty_grid)
    ∧ ¬ loop_cond 1 1 (loop_body 1 1 rs (initial_state empty_grid))
    ∧ generate_dungeon 1 1 rs empty_grid 0 = none
    ∧ (∀ fuel, 1 ≤ fuel → generate_dungeon 1 1 rs empty_grid fuel
          = some (loop_body 1 1 rs (initial_state empty_grid)))
    ∧ (loop_body 1 1 rs (initial_state empty_grid)).grid 0 = BIT_ENTRANCE ||| BIT_USED_ROOM
    ∧ (∀ d, is_door d → ¬ has_bit ((loop_body 1 1 rs (initial_state empty_grid)).grid 0) d)
    ∧ (loop_body 1 1 rs (initial_state empty_grid)).entrance = 0
    ∧ ((loop_body 1 1 rs (initial_state empty_grid)).generated_cells_number : Int) = 1 * 1 := by
  have hc0 : loop_cond 1 1 (initial_state empty_grid) := by decide
  have hc1 : ¬ loop_cond 1 1 (loop_body 1 1 rs (initial_state empty_grid)) := by
    rw [one_cell_first_turn rs hr]; decide
  refine ⟨hc0, hc1, ?_, ?_, ?_, ?_, ?_, ?_⟩
  · unfold generate_dungeon run_loop
    rw [if_pos hc0]
  · intro fuel hf
    obtain ⟨m, rfl⟩ : ∃ m, fuel = m + 1 := ⟨fuel - 1, by omega⟩
    unfold generate_dungeon run_loop
    rw [if_pos hc0]
    cases m with
    | zero => unfold run_loop; rw [if_neg hc1]
    | succ k => unfold run_loop; rw [if_neg hc1]
  · rw [one_cell_first_turn rs hr]; rfl
  · intro d hd
    rw [one_cell_first_turn rs hr]
    rcases hd with rfl | rfl | rfl | rfl <;> decide
  · rw [one_cell_first_turn rs hr]
  · rw [one_cell_first_turn rs hr]; rfl

/-- Witness of C7 with the random source answering 0 to every call. -/
theorem one_cell_dungeon_witness :
    entrance_draw_ok 1 1 zero_source
    ∧ generate_dungeon 1 1 zero_source empty_grid 1
        = some (loop_body 1 1 zero_source (initial_state empty_grid))
    ∧ (loop_body 1 1 zero_source (initial_state empty_grid)).grid 0
        = BIT_ENTRANCE ||| BIT_USED_ROOM :=
  ⟨by decide, (one_cell_dungeon zero_source (by decide)).2.2.2.1 1 (le_refl 1),
    (one_cell_dungeon zero_source (by decide)).2.2.2.2.1⟩

/-- A run whose state after `n` turns still satisfies the loop condition has
not returned within `n` turns. -/
theorem run_loop_none (w h : Int) (rs : RandomSource) (n : Nat) :
    ∀ s, loop_cond w h (turns w h rs n s) → run_loop w h rs n s = none := by
  induction n with
  | zero =>
    intro s hc
    unfold turns at hc
    unfold run_loop
    rw [if_pos hc]
  | succ n ih =>
    intro s hc
    unfold turns at hc
    unfold run_loop
    split_ifs at hc ⊢ with h1
    · exact ih _ hc
    · exact absurd hc h1

/-! ## The 3x3 grid with the all-doors random source -/

/-- The grid returned by the 3x3 run with the all-doors source, cell by cell. -/
theorem all_doors_grid :
    (dungeon_after 3 3 all_doors_source 4).grid 0 = 2
    ∧ (dungeon_after 3 3 all_doors_source 4).grid 1 = 46
    ∧ (dungeon_after 3 3 all_doors_source 4).grid 2 = 12
    ∧ (dungeon_after 3 3 all_doors_source 4).grid 3 = 2
    ∧ (dungeon_after 3 3 all_doors_source 4).grid 4 = 63
    ∧ (dungeon_after 3 3 all_doors_source 4).grid 5 = 45
    ∧ (dungeon_after 3 3 all_doors_source 4).grid 6 = 2
    ∧ (dungeon_after 3 3 all_doors_source 4).grid 7 = 43
    ∧ (dungeon_after 3 3 all_doors_source 4).grid 8 = 9 := by
  decide!

/-- C8 (3x3 all-doors scenario, coverage).  On the 3x3 all-zero grid, with the
random source returning 4 for the entrance draw and 15 for every draw of
`potential_doors`, `generate_dungeon` returns after four turns of the main
loop (and not earlier); in the state returned the number of generated cells is
9, the area, and every cell of the grid has a non-zero bit mask. -/
theorem all_doors_coverage :
    generate_dungeon 3 3 all_doors_source empty_grid 4
      = some (dungeon_after 3 3 all_doors_source 4)
    ∧ (∀ fuel, fuel < 4 → generate_dungeon 3 3 all_doors_source empty_grid fuel = none)
    ∧ (dungeon_after 3 3 all_doors_source 4).generated_cells_number = 9
    ∧ (∀ c, in_grid 3 3 c → (dungeon_after 3 3 all_doors_source 4).grid c ≠ 0) := by
  refine ⟨all_doors_returns, ?_, by decide!, ?_⟩
  · intro fuel hf
    have : fuel = 0 ∨ fuel = 1 ∨ fuel = 2 ∨ fuel = 3 := by omega
    rcases this with rfl | rfl | rfl | rfl <;>
      exact run_loop_none 3 3 all_doors_source _ _ (by decide!)
  · intro c hc
    obtain ⟨h0, h1, h2, h3, h4, h5, h6, h7, h8⟩ := all_doors_grid
    have hcases : c = 0 ∨ c = 1 ∨ c = 2 ∨ c = 3 ∨ c = 4 ∨ c = 5 ∨ c = 6 ∨ c = 7 ∨ c = 8 := by
      unfold in_grid at hc; omega
    rcases hcases with rfl | rfl | rfl | rfl | rfl | rfl | rfl | rfl | rfl
    · rw [h0]; decide
    · rw [h1]; decide
    · rw [h2]; decide
    · rw [h3]; decide
    · rw [h4]; decide
    · rw [h5]; decide
    · rw [h6]; decide
    · rw [h7]; decide
    · rw [h8]; decide

/-- C9, counterexample: in the grid returned by the 3x3 run with the all-doors
source, cells 0 and 3 are neighbours (3 is south of 0) and cell 0 has no south
door; so it is false that every returned grid has both facing door bits on
every adjacency. -/
theorem all_doors_missing_door :
    ¬ (∀ fuel s, generate_dungeon 3 3 all_doors_source empty_grid fuel = some s →
        ∀ c d, in_grid 3 3 c → is_door d → get_neighbour_room_index 3 3 c d ≠ -1 →
          has_bit (s.grid c) d
          ∧ has_bit (s.grid (get_neighbour_room_index 3 3 c d))
              (get_opposite_direction_bit d).toNat) := by
  intro hall
  have h := (hall 4 _ all_doors_returns 0 BIT_DOOR_SOUTH (by decide) (by decide)
    (by decide)).1
  rw [all_doors_grid.1] at h
  revert h
  decide

/-- C9, amended.  On the 3x3 all-zero grid, with the random source returning 4
for the entrance draw and 15 for every draw of `potential_doors`,
`generate_dungeon` returns after four turns a grid in which an adjacency (a
cell and its neighbour in a direction) has both facing door bits exactly when
it is not one of the two adjacencies 0-3 and 3-6 of the west column. -/
theorem all_doors_adjacencies :
    generate_dungeon 3 3 all_doors_source empty_grid 4
      = some (dungeon_after 3 3 all_doors_source 4)
    ∧ (∀ c d, in_grid 3 3 c → is_door d → get_neighbour_room_index 3 3 c d ≠ -1 →
        ((has_bit ((dungeon_after 3 3 all_doors_source 4).grid c) d
          ∧ has_bit ((dungeon_after 3 3 all_doors_source 4).grid
                (get_neighbour_room_index 3 3 c d)) (get_opposite_direction_bit d).toNat)
        ↔ ¬ ((c = 0 ∧ d = BIT_DOOR_SOUTH) ∨ (c = 3 ∧ d = BIT_DOOR_NORTH)
              ∨ (c = 3 ∧ d = BIT_DOOR_SOUTH) ∨ (c = 6 ∧ d = BIT_DOOR_NORTH)))) := by
  refine ⟨all_doors_returns, ?_⟩
  intro c d hc hd hn
  have hcases : c = 0 ∨ c = 1 ∨ c = 2 ∨ c = 3 ∨ c = 4 ∨ c = 5 ∨ c = 6 ∨ c = 7 ∨ c = 8 := by
    unfold in_grid at hc; omega
  rcases hcases with rfl | rfl | rfl | rfl | rfl | rfl | rfl | rfl | rfl <;>
    rcases hd with rfl | rfl | rfl | rfl <;>
    first
      | exact absurd (by decide) hn
      | decide!

/-! ## A random source that never draws a door -/

theorem define_entrance_stalled (w h : Int) (rs : RandomSource) (s : State)
    (hf : fresh s) (hr : entrance_draw_ok w h rs) :
    Stalled w h (define_entrance w h rs s) := by
  obtain ⟨hinv, hi, hn⟩ := define_entrance_fresh w h rs s hf hr
  obtain ⟨hf1, hf2, hf3, hf4⟩ := hf
  refine ⟨hinv, hn, hi, ?_, ?_, ?_⟩
  · unfold define_entrance
    rw [if_pos ⟨hf2, hf1⟩]
    show 1 ≤ s.draws + 1
    omega
  · unfold define_entrance
    rw [if_pos ⟨hf2, hf1⟩]
    show Function.update s.grid _ _ _ = _
    rw [Function.update_same]
  · unfold define_entrance
    rw [if_pos ⟨hf2, hf1⟩]
    intro c hc
    show Function.update s.grid _ _ c = 0
    rw [Function.update_noteq hc]
    exact hf4 c

/-- C11 (range of the random source).  For every 32-bit word `r` and unsigned
32-bit bounds `min < max`, the value computed by `get_random_int` is
`r % (max - min) + min`, the sum does not wrap around, and it satisfies
`min ≤ result < max`. -/
theorem get_random_int_range (min max r : Nat) (_hr : r < UINT_SIZE)
    (hmax : max < UINT_SIZE) (hlt : min < max) :
    get_random_int min max r = r % (max - min) + min
    ∧ r % (max - min) + min < UINT_SIZE
    ∧ min ≤ get_random_int min max r
    ∧ get_random_int min max r < max := by
  have hU : UINT_SIZE = 4294967296 := by decide
  have e1 : (max + UINT_SIZE - min) % UINT_SIZE = max - min := by
    rw [hU] at hmax ⊢; omega
  have hx : r % (max - min) < max - min := Nat.mod_lt r (by omega)
  have e2 : get_random_int min max r = r % (max - min) + min := by
    unfold get_random_int
    rw [e1]
    apply Nat.mod_eq_of_lt
    rw [hU] at hmax ⊢; omega
  rw [e2]
  refine ⟨rfl, ?_, ?_, ?_⟩
  · rw [hU] at hmax ⊢; omega
  · omega
  · omega

/-- Witness of C11: the word 1000 drawn between 3 and 10. -/
theorem get_random_int_range_witness :
    (1000 : Nat) < UINT_SIZE ∧ (10 : Nat) < UINT_SIZE ∧ (3 : Nat) < 10
    ∧ get_random_int 3 10 1000 = 1000 % (10 - 3) + 3
    ∧ 3 ≤ get_random_int 3 10 1000 ∧ get_random_int 3 10 1000 < 10 :=
  have h := get_random_int_range 3 10 1000 (by decide) (by decide) (by decide)
  ⟨by decide, by decide, by decide, h.1, h.2.2.1, h.2.2.2⟩

/-- C13 (range of `potential_doors`), the behaviour of the program: the call
`get_random_int(0, g_neighbours)` of `generate_room` returns the word read
modulo 15.  Every value from 0 to 14 is returned for some word, and the value
15 (all four doors) is returned for no word. -/
theorem potential_doors_range :
    g_neighbours = 15
    ∧ (∀ raw k, urandom raw k 0 g_neighbours = (raw k % UINT_SIZE) % 15)
    ∧ (∀ raw k, urandom raw k 0 g_neighbours ≠ 15)
    ∧ (∀ v, v < 15 → ∀ k, urandom (fun _ => v) k 0 g_neighbours = v) := by
  have hU : UINT_SIZE = 4294967296 := by decide
  have hg : g_neighbours = 15 := by decide
  have key : ∀ raw k, urandom raw k 0 g_neighbours = (raw k % UINT_SIZE) % 15 := by
    intro raw k
    unfold urandom get_random_int
    rw [hg, hU]
    have e : (15 + 4294967296 - 0) % 4294967296 = 15 := by decide
    rw [e]
    omega
  refine ⟨hg, key, ?_, ?_⟩
  · intro raw k
    rw [key]
    have := Nat.mod_lt (raw k % UINT_SIZE) (show 0 < 15 by decide)
    omega
  · intro v hv k
    rw [key, hU]
    show v % 4294967296 % 15 = v
    omega

/-- Round trip of the neighbour resolver on unbounded integers.  For width and height at least 1, a cell `c`
of the grid and a door bit `d`: when `get_neighbour_room_index(c, d)` is a
neighbour `n` (not `-1`), the neighbour of `n` in the opposite direction is `c`.
And `get_opposite_direction_bit` maps door bits to door bits, is its own
inverse on them and fixes none of them. -/
theorem round_trip_unbounded (width height : Int) (hw : 1 ≤ width) (_hh : 1 ≤ height) :
    (∀ c d, in_grid width height c → is_door d →
      get_neighbour_room_index width height c d ≠ -1 →
      get_neighbour_room_index width height (get_neighbour_room_index width height c d)
        (get_opposite_direction_bit d).toNat = c)
    ∧ (∀ d, is_door d →
        is_door (get_opposite_direction_bit d).toNat
        ∧ ((get_opposite_direction_bit d).toNat : Int) = get_opposite_direction_bit d
        ∧ get_opposite_direction_bit (get_opposite_direction_bit d).toNat = (d : Int)
        ∧ get_opposite_direction_bit d ≠ (d : Int)) := by
  refine ⟨fun c d hc hd hn => neighbour_back width height c d hw hc hd hn, ?_⟩
  intro d hd
  rcases hd with rfl | rfl | rfl | rfl <;> decide

/-! ## Determinism -/

theorem generate_room_door_counts (w h : Int) (pd : Nat) (cell : Int) (door : Nat)
    (s : State) :
    (generate_room_door w h pd cell door s).draws = s.draws
    ∧ s.generated_cells_number ≤ (generate_room_door w h pd cell door s).generated_cells_number
    ∧ (generate_room_door w h pd cell door s).i = s.i
    ∧ (generate_room_door w h pd cell door s).entrance = s.entrance := by
  unfold generate_room_door
  by_cases h1 : (door &&& g_neighbours) ≠ door ∨ (s.grid cell &&& door) ≠ 0
  · rw [if_pos h1]; exact ⟨rfl, le_rfl, rfl, rfl⟩
  · rw [if_neg h1]
    simp only []
    split_ifs <;> first | exact ⟨rfl, le_rfl, rfl, rfl⟩ | exact ⟨rfl, Nat.le_succ _, rfl, rfl⟩

theorem generate_room_counts (w h : Int) (rs : RandomSource) (j : Nat) (s : State) :
    (generate_room w h rs j s).draws = s.draws + 1
    ∧ s.generated_cells_number ≤ (generate_room w h rs j s).generated_cells_number
    ∧ (generate_room w h rs j s).i = s.i
    ∧ (generate_room w h rs j s).entrance = s.entrance := by
  unfold generate_room
  simp only []
  rw [generate_room_loop_eq]
  obtain ⟨a1, b1, c1, d1⟩ := generate_room_door_counts w h (rs s.draws 0 g_neighbours)
    (s.generated_cells j) BIT_DOOR_NORTH { s with draws := s.draws + 1 }
  obtain ⟨a2, b2, c2, d2⟩ := generate_room_door_counts w h (rs s.draws 0 g_neighbours)
    (s.generated_cells j) BIT_DOOR_EAST
    (generate_room_door w h (rs s.draws 0 g_neighbours) (s.generated_cells j)
      BIT_DOOR_NORTH { s with draws := s.draws + 1 })
  obtain ⟨a3, b3, c3, d3⟩ := generate_room_door_counts w h (rs s.draws 0 g_neighbours)
    (s.generated_cells j) BIT_DOOR_SOUTH
    (generate_room_door w h (rs s.draws 0 g_neighbours) (s.generated_cells j) BIT_DOOR_EAST
      (generate_room_door w h (rs s.draws 0 g_neighbours) (s.generated_cells j)
        BIT_DOOR_NORTH { s with draws := s.draws + 1 }))
  obtain ⟨a4, b4, c4, d4⟩ := generate_room_door_counts w h (rs s.draws 0 g_neighbours)
    (s.generated_cells j) BIT_DOOR_WEST
    (generate_room_door w h (rs s.draws 0 g_neighbours) (s.generated_cells j) BIT_DOOR_SOUTH
      (generate_room_door w h (rs s.draws 0 g_neighbours) (s.generated_cells j) BIT_DOOR_EAST
        (generate_room_door w h (rs s.draws 0 g_neighbours) (s.generated_cells j)
          BIT_DOOR_NORTH { s with draws := s.draws + 1 })))
  refine ⟨?_, ?_, ?_, ?_⟩
  · rw [a4, a3, a2, a1]
  · exact le_trans (le_trans (le_trans b1 b2) b3) b4
  · rw [c4, c3, c2, c1]
  · rw [d4, d3, d2, d1]

theorem flag_used_counts (s : State) :
    (flag_used s).draws = s.draws
    ∧ (flag_used s).generated_cells_number = s.generated_cells_number
    ∧ (flag_used s).i = s.i ∧ (flag_used s).generated_cells = s.generated_cells
    ∧ (flag_used s).entrance = s.entrance := by
  unfold flag_used
  split_ifs <;> exact ⟨rfl, rfl, rfl, rfl, rfl⟩

/-- A turn of the main loop uses the random source only through the values it
returns to the calls of the program. -/
theorem loop_body_same_draws (w h : Int) (rs1 rs2 : RandomSource) (s : State)
    (hsame : same_draws w h rs1 rs2) (hd : draws_counted s) :
    loop_body w h rs1 s = loop_body w h rs2 s ∧ draws_counted (loop_body w h rs1 s) := by
  have h1 : define_entrance w h rs1 s = define_entrance w h rs2 s := by
    unfold define_entrance
    rcases hd with ⟨ha, hb, hc⟩ | ⟨ha, _⟩
    · rw [if_pos ⟨hb, ha⟩, if_pos ⟨hb, ha⟩, hc, hsame.1]
    · rw [if_neg (by omega), if_neg (by omega)]
  have h2 : 1 ≤ (define_entrance w h rs1 s).generated_cells_number
      ∧ 1 ≤ (define_entrance w h rs1 s).draws := by
    unfold define_entrance
    rcases hd with ⟨ha, hb, hc⟩ | ⟨ha, hb⟩
    · rw [if_pos ⟨hb, ha⟩]; exact ⟨le_refl 1, Nat.le_add_left 1 _⟩
    · rw [if_neg (by omega)]; exact ⟨ha, hb⟩
  have h3 : generate_room w h rs1 (define_entrance w h rs1 s).i (define_entrance w h rs1 s)
      = generate_room w h rs2 (define_entrance w h rs1 s).i (define_entrance w h rs1 s) := by
    unfold generate_room
    rw [hsame.2 _ h2.2]
  constructor
  · unfold loop_body
    simp only []
    rw [← h1, h3]
  · right
    unfold loop_body
    simp only []
    obtain ⟨a, b, _, _⟩ := generate_room_counts w h rs1 (define_entrance w h rs1 s).i
      (define_entrance w h rs1 s)
    obtain ⟨c, d, _, _, _⟩ := flag_used_counts
      (generate_room w h rs1 (define_entrance w h rs1 s).i (define_entrance w h rs1 s))
    constructor
    · show 1 ≤ (flag_used _).generated_cells_number
      rw [d]; exact le_trans h2.1 b
    · show 1 ≤ (flag_used _).draws
      rw [c, a]; exact Nat.le_add_left 1 _

theorem turns_same_draws (w h : Int) (rs1 rs2 : RandomSource)
    (hsame : same_draws w h rs1 rs2) (n : Nat) :
    ∀ s, draws_counted s → turns w h rs1 n s = turns w h rs2 n s := by
  induction n with
  | zero => intro s _; rfl
  | succ n ih =>
    intro s hd
    unfold turns
    obtain ⟨e, hd2⟩ := loop_body_same_draws w h rs1 rs2 s hsame hd
    split_ifs with hc
    · rw [← e]; exact ih _ hd2
    · rfl

theorem run_loop_same_draws (w h : Int) (rs1 rs2 : RandomSource)
    (hsame : same_draws w h rs1 rs2) (n : Nat) :
    ∀ s, draws_counted s → run_loop w h rs1 n s = run_loop w h rs2 n s := by
  induction n with
  | zero => intro s _; rfl
  | succ n ih =>
    intro s hd
    unfold run_loop
    obtain ⟨e, hd2⟩ := loop_body_same_draws w h rs1 rs2 s hsame hd
    split_ifs with hc
    · rw [← e]; exact ih _ hd2
    · rfl

/-- C12 (determinism modulo randomness).  Two runs of `generate_dungeon` with
the same width, the same height, the same initial grid (in particular the
all-zero grid) and random sources that return the same sequence of values to
the calls of the program go through the same states, turn after turn, and
return the same result: the same grid, the same entrance index and the same
generated cells. -/
theorem same_draws_same_run (width height : Int) (rs1 rs2 : RandomSource)
    (hsame : same_draws width height rs1 rs2) (grid : Int → Nat) :
    (∀ n, turns width height rs1 n (initial_state grid)
        = turns width height rs2 n (initial_state grid))
    ∧ (∀ n, dungeon_after width height rs1 n = dungeon_after width height rs2 n)
    ∧ (∀ fuel, generate_dungeon width height rs1 grid fuel
        = generate_dungeon width height rs2 grid fuel) := by
  have hd : ∀ g, draws_counted (initial_state g) := fun g => Or.inl ⟨rfl, rfl, rfl⟩
  exact ⟨fun n => turns_same_draws width height rs1 rs2 hsame n _ (hd grid),
    fun n => turns_same_draws width height rs1 rs2 hsame n _ (hd empty_grid),
    fun fuel => run_loop_same_draws width height rs1 rs2 hsame fuel _ (hd grid)⟩

/-- Witness of C12: two different random sources that answer the calls of the
3x3 scenario alike. -/
theorem same_draws_same_run_witness :
    same_draws 3 3 all_doors_source all_doors_by_bounds
    ∧ all_doors_source 1 0 7 ≠ all_doors_by_bounds 1 0 7
    ∧ generate_dungeon 3 3 all_doors_source empty_grid 4
        = generate_dungeon 3 3 all_doors_by_bounds empty_grid 4 :=
  have hs : same_draws 3 3 all_doors_source all_doors_by_bounds :=
    ⟨by decide, fun k hk => by
      unfold all_doors_source all_doors_by_bounds
      rw [if_neg (by omega), if_neg (by omega), if_pos rfl]⟩
  ⟨hs, by decide, (same_draws_same_run 3 3 all_doors_source all_doors_by_bounds hs empty_grid).2.2 4⟩

/-! ## Points inside a turn of the main loop -/

theorem door_order_doors : ∀ d ∈ door_order, is_door d := by decide

theorem turn_point_four (w h : Int) (rs : RandomSource) (s : State) (k : Nat) (hk : 4 ≤ k) :
    turn_point w h rs s k
      = generate_room w h rs (define_entrance w h rs s).i (define_entrance w h rs s) := by
  unfold turn_point
  have e : door_order.take k = door_order := List.take_of_length_le (by simpa using hk)
  rw [e]
  rfl

theorem turn_point_succ (w h : Int) (rs : RandomSource) (s : State) (k : Nat) (hk : k < 4) :
    turn_point w h rs s (k + 1)
      = generate_room_door w h (rs (define_entrance w h rs s).draws 0 g_neighbours)
          ((define_entrance w h rs s).generated_cells (define_entrance w h rs s).i)
          (door_order.getD k 0) (turn_point w h rs s k) := by
  have hcases : k = 0 ∨ k = 1 ∨ k = 2 ∨ k = 3 := by omega
  rcases hcases with rfl | rfl | rfl | rfl <;> rfl

theorem turn_point_stable (w h : Int) (rs : RandomSource) (s : State) (k : Nat) (hk : 4 ≤ k) :
    turn_point w h rs s (k + 1) = turn_point w h rs s k := by
  rw [turn_point_four w h rs s k hk, turn_point_four w h rs s (k + 1) (by omega)]

theorem loop_body_turn_point (w h : Int) (rs : RandomSource) (s : State) :
    loop_body w h rs s = advance w h (flag_used (turn_point w h rs s 4)) := by
  rw [turn_point_four w h rs s 4 (le_refl 4)]
  rfl

theorem room_steps_inv (w h : Int) (pd : Nat) (cell : Int) (j : Nat) (hw : 1 ≤ w)
    (doors : List Nat) :
    (∀ d ∈ doors, is_door d) → ∀ s, Inv w h s → j < s.generated_cells_number →
      s.generated_cells j = cell →
      Inv w h (room_steps w h pd cell doors s) ∧ Grows s (room_steps w h pd cell doors s) := by
  induction doors with
  | nil => intro _ s hinv _ _; exact ⟨hinv, Grows.refl s⟩
  | cons door rest ih =>
    intro hd s hinv hj hcell
    obtain ⟨hi1, hg1⟩ := generate_room_door_inv w h pd s j door cell hw hinv hj hcell
      (hd door (List.mem_cons_self _ _))
    obtain ⟨hi2, hg2⟩ := ih (fun d hm => hd d (List.mem_cons_of_mem _ hm)) _ hi1
      (lt_of_lt_of_le hj hg1.len) ((hg1.front j hj).trans hcell)
    exact ⟨hi2, hg1.trans hg2⟩

/-- The invariant holds at every point inside a turn, and the cursor points to
a generated cell there. -/
theorem turn_point_inv (w h : Int) (rs : RandomSource) (s : State) (hw : 1 ≤ w)
    (hr : entrance_draw_ok w h rs) (hs : fresh s ∨ Inv w h s)
    (hc : loop_cond w h s) (k : Nat) :
    Inv w h (turn_point w h rs s k)
    ∧ (turn_point w h rs s k).i < (turn_point w h rs s k).generated_cells_number
    ∧ (turn_point w h rs s k).i = (define_entrance w h rs s).i
    ∧ (turn_point w h rs s k).generated_cells (turn_point w h rs s k).i
        = (define_entrance w h rs s).generated_cells (define_entrance w h rs s).i
    ∧ Inv w h (define_entrance w h rs s) := by
  have h1 : Inv w h (define_entrance w h rs s)
      ∧ (define_entrance w h rs s).i < (define_entrance w h rs s).generated_cells_number := by
    rcases hs with hf | hinv
    · obtain ⟨ha, hb, hc1⟩ := define_entrance_fresh w h rs s hf hr
      exact ⟨ha, by rw [hb, hc1]; exact Nat.lt_succ_self 0⟩
    · rw [define_entrance_of_inv w h rs s hinv]
      refine ⟨hinv, ?_⟩
      have := hinv.pos
      rcases hc.2 with h0 | h0 <;> omega
  obtain ⟨hi1, hlt1⟩ := h1
  have hinv0 : Inv w h { define_entrance w h rs s with
      draws := (define_entrance w h rs s).draws + 1 } :=
    ⟨hi1.pos, hi1.front_in, hi1.front_nz, hi1.front_inj, hi1.cover, hi1.doors,
      hi1.entr_in, hi1.entr_first, hi1.entr, hi1.conn⟩
  obtain ⟨hi2, hg2⟩ := room_steps_inv w h
    (rs (define_entrance w h rs s).draws 0 g_neighbours)
    ((define_entrance w h rs s).generated_cells (define_entrance w h rs s).i)
    (define_entrance w h rs s).i hw (door_order.take k)
    (fun d hm => door_order_doors d (List.mem_of_mem_take hm)) _ hinv0 hlt1 rfl
  have hcur : (turn_point w h rs s k).i = (define_entrance w h rs s).i := hg2.cursor
  refine ⟨hi2, ?_, hcur, ?_, hi1⟩
  · rw [hcur]; exact lt_of_lt_of_le hlt1 hg2.len
  · rw [hcur]; exact hg2.front _ hlt1

/-- The states at the turn boundaries are fresh or satisfy the invariant. -/
theorem dungeon_after_state (w h : Int) (rs : RandomSource) (hw : 1 ≤ w) (hh : 1 ≤ h)
    (hr : entrance_draw_ok w h rs) (n : Nat) :
    fresh (dungeon_after w h rs n) ∨ Inv w h (dungeon_after w h rs n) := by
  rcases Nat.eq_zero_or_pos n with h0 | h0
  · rw [h0]; exact Or.inl initial_fresh
  · exact Or.inr (dungeon_after_inv w h rs hw hh hr n h0)

theorem generate_room_door_length (w h : Int) (pd : Nat) (cell : Int) (door : Nat)
    (s : State) :
    (generate_room_door w h pd cell door s).generated_cells_number = s.generated_cells_number
    ∨ (generate_room_door w h pd cell door s).generated_cells_number
        = s.generated_cells_number + 1 := by
  unfold generate_room_door
  by_cases h1 : (door &&& g_neighbours) ≠ door ∨ (s.grid cell &&& door) ≠ 0
  · rw [if_pos h1]; exact Or.inl rfl
  · rw [if_neg h1]
    simp only []
    split_ifs <;> first | exact Or.inl rfl | exact Or.inr rfl

theorem frontier_is_nonzero_of_inv (w h : Int) (s : State) (hinv : Inv w h s) :
    frontier_is_nonzero w h s := by
  constructor
  · intro c hc
    constructor
    · rintro ⟨j, hj, rfl⟩
      exact hinv.front_nz j hj
    · exact hinv.cover c hc
  · have himg : (Finset.range (w * h).toNat).filter (fun c : Nat => s.grid (c : Int) ≠ 0)
        = (Finset.range s.generated_cells_number).image
            (fun j => (s.generated_cells j).toNat) := by
      ext c
      rw [Finset.mem_filter, Finset.mem_image, Finset.mem_range]
      constructor
      · rintro ⟨hc, hz⟩
        obtain ⟨j, hj, hjc⟩ := hinv.cover (c : Int) ⟨by omega, by omega⟩ hz
        exact ⟨j, Finset.mem_range.mpr hj, by rw [hjc]; rfl⟩
      · rintro ⟨j, hj, hjc⟩
        have hj1 := Finset.mem_range.mp hj
        have hin := hinv.front_in j hj1
        have hnz := hinv.front_nz j hj1
        unfold in_grid at hin
        have hcc : (c : Int) = s.generated_cells j := by
          have : (s.generated_cells j).toNat = c := hjc
          omega
        rw [hcc]
        exact ⟨by omega, hnz⟩
    rw [himg, Finset.card_image_of_injOn, Finset.card_range]
    intro a ha b hb e
    have ha1 : a < s.generated_cells_number := Finset.mem_range.mp ha
    have hb1 : b < s.generated_cells_number := Finset.mem_range.mp hb
    have h1 := hinv.front_in a ha1
    have h2 := hinv.front_in b hb1
    unfold in_grid at h1 h2
    have e1 : (s.generated_cells a).toNat = (s.generated_cells b).toNat := e
    exact hinv.front_inj a b ha1 hb1 (by omega)

/-! ## The generated cells -/

/-- C14 (no cell is generated twice).  For a grid of width and height at least
1 and a random source whose entrance draw is below the area, on the all-zero
grid: after every number of turns of the main loop, and at every point inside a
turn (after the definition of the entrance and after each turn of the door loop
of `generate_room`), the first `generated_cells_number` entries of the
generated cells are pairwise distinct; a turn of the door loop keeps the
entries already there, and when it appends a cell (the test of line 120
succeeded) that cell is none of them. -/
theorem frontier_distinct (width height : Int) (rs : RandomSource)
    (hw : 1 ≤ width) (hh : 1 ≤ height) (hr : entrance_draw_ok width height rs) :
    (∀ n, distinct_cells (dungeon_after width height rs n))
    ∧ (∀ n, loop_cond width height (dungeon_after width height rs n) →
        ∀ p, distinct_cells (turn_point width height rs (dungeon_after width height rs n) p))
    ∧ (∀ n, loop_cond width height (dungeon_after width height rs n) →
        ∀ p j, j < (turn_point width height rs (dungeon_after width height rs n)
                      p).generated_cells_number →
          (turn_point width height rs (dungeon_after width height rs n) (p + 1)).generated_cells j
            = (turn_point width height rs (dungeon_after width height rs n) p).generated_cells j
          ∧ ((turn_point width height rs (dungeon_after width height rs n)
                p).generated_cells_number
              < (turn_point width height rs (dungeon_after width height rs n)
                  (p + 1)).generated_cells_number →
            (turn_point width height rs (dungeon_after width height rs n)
                (p + 1)).generated_cells
              (turn_point width height rs (dungeon_after width height rs n)
                p).generated_cells_number
            ≠ (turn_point width height rs (dungeon_after width height rs n)
                p).generated_cells j)) := by
  have hpoint : ∀ n, loop_cond width height (dungeon_after width height rs n) → ∀ p,
      Inv width height (turn_point width height rs (dungeon_after width height rs n) p) :=
    fun n hc p => (turn_point_inv width height rs _ hw hr
      (dungeon_after_state width height rs hw hh hr n) hc p).1
  refine ⟨?_, fun n hc p => (hpoint n hc p).front_inj, ?_⟩
  · intro n
    rcases Nat.eq_zero_or_pos n with h0 | h0
    · rw [h0]
      intro j k hj
      exact absurd hj (Nat.not_lt_zero j)
    · exact (dungeon_after_inv width height rs hw hh hr n h0).front_inj
  · intro n hc p j hj
    have hfront : (turn_point width height rs (dungeon_after width height rs n)
          (p + 1)).generated_cells j
        = (turn_point width height rs (dungeon_after width height rs n) p).generated_cells j := by
      by_cases hp : p < 4
      · obtain ⟨hi, hlt, _, hcell, _⟩ := turn_point_inv width height rs _ hw hr
          (dungeon_after_state width height rs hw hh hr n) hc p
        rw [turn_point_succ width height rs _ p hp]
        exact (generate_room_door_inv width height _ _ _ (door_order.getD p 0) _ hw hi hlt
          hcell (door_order_doors _ (by
            have hcases : p = 0 ∨ p = 1 ∨ p = 2 ∨ p = 3 := by omega
            rcases hcases with rfl | rfl | rfl | rfl <;> decide))).2.front j hj
      · rw [turn_point_stable width height rs _ p (by omega)]
    refine ⟨hfront, ?_⟩
    intro hgrow hsame
    have hnext := (hpoint n hc (p + 1)).front_inj
      (turn_point width height rs (dungeon_after width height rs n) p).generated_cells_number
      j hgrow (lt_trans hj hgrow) (by rw [hfront]; exact hsame)
    omega

/-- Witness of C14 on the 3x3 grid with the all-doors random source. -/
theorem frontier_distinct_witness :
    entrance_draw_ok 3 3 all_doors_source
    ∧ (∀ n, distinct_cells (dungeon_after 3 3 all_doors_source n)) :=
  ⟨by decide, (frontier_distinct 3 3 all_doors_source (by decide) (by decide) (by decide)).1⟩

/-- Length of the array of generated cells of the program on unbounded
integers.  For a grid of width
and height at least 1 and a random source whose entrance draw is below the
area, on the all-zero grid: after every positive number of turns, and at every
point inside a turn (after the definition of the entrance and after each turn
of the door loop), `1 ≤ generated_cells_number ≤ width * height`, and the
cursor `i` used to read `generated_cells[i]` is below `generated_cells_number`;
a turn of the door loop leaves `generated_cells_number` as it is or writes one
entry, at the index `generated_cells_number`, which is then strictly below
`width * height`, the size of the array. -/
theorem frontier_bounded_unbounded (width height : Int) (rs : RandomSource)
    (hw : 1 ≤ width) (hh : 1 ≤ height) (hr : entrance_draw_ok width height rs) :
    (∀ n, 1 ≤ n →
        1 ≤ (dungeon_after width height rs n).generated_cells_number
        ∧ ((dungeon_after width height rs n).generated_cells_number : Int) ≤ width * height)
    ∧ (∀ n, loop_cond width height (dungeon_after width height rs n) → ∀ p,
        1 ≤ (turn_point width height rs (dungeon_after width height rs n)
              p).generated_cells_number
        ∧ ((turn_point width height rs (dungeon_after width height rs n)
              p).generated_cells_number : Int) ≤ width * height
        ∧ (turn_point width height rs (dungeon_after width height rs n) p).i
            < (turn_point width height rs (dungeon_after width height rs n)
                p).generated_cells_number)
    ∧ (∀ n, loop_cond width height (dungeon_after width height rs n) → ∀ p,
        (turn_point width height rs (dungeon_after width height rs n)
            (p + 1)).generated_cells_number
          = (turn_point width height rs (dungeon_after width height rs n)
              p).generated_cells_number
        ∨ ((turn_point width height rs (dungeon_after width height rs n)
              (p + 1)).generated_cells_number
            = (turn_point width height rs (dungeon_after width height rs n)
                p).generated_cells_number + 1
          ∧ ((turn_point width height rs (dungeon_after width height rs n)
                p).generated_cells_number : Int) < width * height)) := by
  have hpoint : ∀ n, loop_cond width height (dungeon_after width height rs n) → ∀ p,
      Inv width height (turn_point width height rs (dungeon_after width height rs n) p)
      ∧ (turn_point width height rs (dungeon_after width height rs n) p).i
          < (turn_point width height rs (dungeon_after width height rs n)
              p).generated_cells_number :=
    fun n hc p =>
      ⟨(turn_point_inv width height rs _ hw hr
          (dungeon_after_state width height rs hw hh hr n) hc p).1,
        (turn_point_inv width height rs _ hw hr
          (dungeon_after_state width height rs hw hh hr n) hc p).2.1⟩
  refine ⟨?_, ?_, ?_⟩
  · intro n hn
    have hinv := dungeon_after_inv width height rs hw hh hr n hn
    exact ⟨hinv.pos, generated_le_area width height _ hinv⟩
  · intro n hc p
    obtain ⟨hinv, hlt⟩ := hpoint n hc p
    exact ⟨hinv.pos, generated_le_area width height _ hinv, hlt⟩
  · intro n hc p
    by_cases hp : p < 4
    · have hle := generated_le_area width height _ (hpoint n hc (p + 1)).1
      rw [turn_point_succ width height rs _ p hp] at hle ⊢
      rcases generate_room_door_length width height
        (rs (define_entrance width height rs (dungeon_after width height rs n)).draws 0
          g_neighbours)
        ((define_entrance width height rs (dungeon_after width height rs n)).generated_cells
          (define_entrance width height rs (dungeon_after width height rs n)).i)
        (door_order.getD p 0)
        (turn_point width height rs (dungeon_after width height rs n) p) with h1 | h1
      · exact Or.inl h1
      · refine Or.inr ⟨h1, ?_⟩
        rw [h1] at hle
        push_cast at hle
        omega
    · rw [turn_point_stable width height rs _ p (by omega)]
      exact Or.inl rfl

theorem generate_room_door_grid (w h : Int) (pd : Nat) (c : Int) (door : Nat) (s : State) :
    (generate_room_door w h pd c door s).grid =
      if (door &&& g_neighbours) ≠ door ∨ (s.grid c &&& door) ≠ 0 then s.grid
      else if get_neighbour_room_index w h c door = -1
          ∨ (s.grid (get_neighbour_room_index w h c door) &&& BIT_USED_ROOM) ≠ 0 then s.grid
      else if (door &&& pd) = door then
        carve s.grid c (get_neighbour_room_index w h c door) door
          (get_opposite_direction_bit door).toNat
      else s.grid := by
  unfold generate_room_door carve
  by_cases h1 : (door &&& g_neighbours) ≠ door ∨ (s.grid c &&& door) ≠ 0
  · rw [if_pos h1, if_pos h1]
  · rw [if_neg h1, if_neg h1]
    simp only []
    by_cases h2 : get_neighbour_room_index w h c door = -1
        ∨ (s.grid (get_neighbour_room_index w h c door) &&& BIT_USED_ROOM) ≠ 0
    · rw [if_pos h2, if_pos h2]
    · rw [if_neg h2, if_neg h2]
      by_cases h3 : (door &&& pd) = door
      · rw [if_pos h3]
        split_ifs <;> rfl
      · rw [if_neg h3]
        split_ifs <;> rfl

theorem door_mask_lt (d : Nat) (hd : is_door d) : d < 16 := by
  rcases hd with rfl | rfl | rfl | rfl <;> decide

theorem room_frame_refl (w h : Int) (c : Int) (s : State) : room_frame w h c s s :=
  fun x => ⟨0, by decide, (Nat.or_zero _).symm, fun hm => absurd rfl hm⟩

theorem room_frame_of_grid_eq (w h : Int) (c : Int) (s t : State) (e : t.grid = s.grid) :
    room_frame w h c s t :=
  fun x => ⟨0, by decide, by rw [e, Nat.or_zero], fun hm => absurd rfl hm⟩

theorem room_frame_trans (w h : Int) (c : Int) (s t u : State)
    (h1 : room_frame w h c s t) (h2 : room_frame w h c t u) : room_frame w h c s u := by
  intro x
  obtain ⟨m1, hm1, e1, f1⟩ := h1 x
  obtain ⟨m2, hm2, e2, f2⟩ := h2 x
  refine ⟨m1 ||| m2, Nat.or_lt_two_pow (n := 4) hm1 hm2, ?_, ?_⟩
  · rw [e2, e1, Nat.or_assoc]
  · intro hm
    by_cases hz : m1 = 0
    · have hm2z : m2 ≠ 0 := by
        intro e; rw [hz, e] at hm; exact hm rfl
      rcases f2 hm2z with hx | ⟨hu, hd⟩
      · exact Or.inl hx
      · refine Or.inr ⟨?_, hd⟩
        intro hus
        apply hu
        rw [e1]
        exact (has_bit_lor _ _ _).mpr (Or.inl hus)
    · exact f1 hz

theorem generate_room_door_frame (w h : Int) (pd : Nat) (c : Int) (door : Nat) (s : State)
    (hd : is_door door) : room_frame w h c s (generate_room_door w h pd c door s) := by
  have hgrid := generate_room_door_grid w h pd c door s
  by_cases h1 : (door &&& g_neighbours) ≠ door ∨ (s.grid c &&& door) ≠ 0
  · rw [if_pos h1] at hgrid
    exact room_frame_of_grid_eq w h c s _ hgrid
  rw [if_neg h1] at hgrid
  by_cases h2 : get_neighbour_room_index w h c door = -1
      ∨ (s.grid (get_neighbour_room_index w h c door) &&& BIT_USED_ROOM) ≠ 0
  · rw [if_pos h2] at hgrid
    exact room_frame_of_grid_eq w h c s _ hgrid
  rw [if_neg h2] at hgrid
  by_cases h3 : (door &&& pd) = door
  · rw [if_pos h3] at hgrid
    have hn : get_neighbour_room_index w h c door ≠ -1 := fun e => h2 (Or.inl e)
    have hu : ¬ has_bit (s.grid (get_neighbour_room_index w h c door)) BIT_USED_ROOM :=
      fun e => h2 (Or.inr e)
    have hdl := door_mask_lt door hd
    have hol := door_mask_lt _ (opposite_is_door door hd)
    have hdz := door_ne_zero door hd
    intro x
    rw [hgrid]
    unfold carve
    by_cases hx : x = get_neighbour_room_index w h c door
    · rw [hx, Function.update_same]
      by_cases hcn : get_neighbour_room_index w h c door = c
      · rw [hcn, Function.update_same]
        exact ⟨door ||| (get_opposite_direction_bit door).toNat,
          Nat.or_lt_two_pow (n := 4) hdl hol, by rw [Nat.or_assoc], fun _ => Or.inl rfl⟩
      · rw [Function.update_noteq hcn]
        exact ⟨(get_opposite_direction_bit door).toNat, hol, rfl,
          fun _ => Or.inr ⟨hu, door, hd, rfl, hn⟩⟩
    · rw [Function.update_noteq hx]
      by_cases hxc : x = c
      · rw [hxc, Function.update_same]
        exact ⟨door, hdl, rfl, fun _ => Or.inl rfl⟩
      · rw [Function.update_noteq hxc]
        exact ⟨0, by decide, (Nat.or_zero _).symm, fun hm => absurd rfl hm⟩
  · rw [if_neg h3] at hgrid
    exact room_frame_of_grid_eq w h c s _ hgrid

/-- A call of `generate_room` on the generated cell number `j` changes the
grid as `room_frame` says. -/
theorem generate_room_frame (w h : Int) (rs : RandomSource) (s : State) (j : Nat) :
    room_frame w h (s.generated_cells j) s (generate_room w h rs j s) := by
  unfold generate_room
  simp only []
  rw [generate_room_loop_eq]
  have h0 : room_frame w h (s.generated_cells j) s { s with draws := s.draws + 1 } :=
    room_frame_of_grid_eq w h _ s _ rfl
  have h1 := generate_room_door_frame w h (rs s.draws 0 g_neighbours) (s.generated_cells j)
    BIT_DOOR_NORTH { s with draws := s.draws + 1 } (Or.inl rfl)
  have h2 := generate_room_door_frame w h (rs s.draws 0 g_neighbours) (s.generated_cells j)
    BIT_DOOR_EAST
    (generate_room_door w h (rs s.draws 0 g_neighbours) (s.generated_cells j)
      BIT_DOOR_NORTH { s with draws := s.draws + 1 }) (Or.inr (Or.inl rfl))
  have h3 := generate_room_door_frame w h (rs s.draws 0 g_neighbours) (s.generated_cells j)
    BIT_DOOR_SOUTH
    (generate_room_door w h (rs s.draws 0 g_neighbours) (s.generated_cells j) BIT_DOOR_EAST
      (generate_room_door w h (rs s.draws 0 g_neighbours) (s.generated_cells j)
        BIT_DOOR_NORTH { s with draws := s.draws + 1 })) (Or.inr (Or.inr (Or.inl rfl)))
  have h4 := generate_room_door_frame w h (rs s.draws 0 g_neighbours) (s.generated_cells j)
    BIT_DOOR_WEST
    (generate_room_door w h (rs s.draws 0 g_neighbours) (s.generated_cells j) BIT_DOOR_SOUTH
      (generate_room_door w h (rs s.draws 0 g_neighbours) (s.generated_cells j) BIT_DOOR_EAST
        (generate_room_door w h (rs s.draws 0 g_neighbours) (s.generated_cells j)
          BIT_DOOR_NORTH { s with draws := s.draws + 1 }))) (Or.inr (Or.inr (Or.inr rfl)))
  exact room_frame_trans w h _ _ _ _ (room_frame_trans w h _ _ _ _
    (room_frame_trans w h _ _ _ _ (room_frame_trans w h _ _ _ _ h0 h1) h2) h3) h4

theorem door_mask_flags (m : Nat) (hm : m < 16) :
    ¬ has_bit m BIT_ENTRANCE ∧ ¬ has_bit m BIT_USED_ROOM := by
  have hcases : m = 0 ∨ m = 1 ∨ m = 2 ∨ m = 3 ∨ m = 4 ∨ m = 5 ∨ m = 6 ∨ m = 7 ∨ m = 8
      ∨ m = 9 ∨ m = 10 ∨ m = 11 ∨ m = 12 ∨ m = 13 ∨ m = 14 ∨ m = 15 := by omega
  rcases hcases with rfl | rfl | rfl | rfl | rfl | rfl | rfl | rfl | rfl | rfl | rfl | rfl
    | rfl | rfl | rfl | rfl <;> decide

/-- C15 (what one carve step changes).  For every state (grid, generated cells)
and every value of `potential_doors`, a call of `generate_room` on the cell
`c = generated_cells[j]`: leaves the bit mask of every cell other than `c` and
the neighbours of `c` unchanged; leaves unchanged every cell other than `c`
that is flagged USED before the call, in particular (for a cell `c` of a grid
of width at least 1) every neighbour of `c` flagged USED; and changes a cell
only by or-ing a mask of door bits into it: ENTRANCE and USED are neither set
nor cleared, and no bit is cleared. -/
theorem carve_step_frame (width height : Int) (rs : RandomSource) (s : State) (j : Nat) :
    (∀ x, x ≠ s.generated_cells j →
        (∀ d, is_door d → get_neighbour_room_index width height (s.generated_cells j) d ≠ x) →
        (generate_room width height rs j s).grid x = s.grid x)
    ∧ (∀ x, x ≠ s.generated_cells j → has_bit (s.grid x) BIT_USED_ROOM →
        (generate_room width height rs j s).grid x = s.grid x)
    ∧ (1 ≤ width → in_grid width height (s.generated_cells j) → ∀ d, is_door d →
        get_neighbour_room_index width height (s.generated_cells j) d ≠ -1 →
        has_bit (s.grid (get_neighbour_room_index width height (s.generated_cells j) d))
          BIT_USED_ROOM →
        (generate_room width height rs j s).grid
            (get_neighbour_room_index width height (s.generated_cells j) d)
          = s.grid (get_neighbour_room_index width height (s.generated_cells j) d))
    ∧ (∀ x, ∃ m, m ≤ g_neighbours
        ∧ (generate_room width height rs j s).grid x = s.grid x ||| m)
    ∧ (∀ x, (has_bit ((generate_room width height rs j s).grid x) BIT_ENTRANCE
              ↔ has_bit (s.grid x) BIT_ENTRANCE)
          ∧ (has_bit ((generate_room width height rs j s).grid x) BIT_USED_ROOM
              ↔ has_bit (s.grid x) BIT_USED_ROOM)
          ∧ (∀ b, has_bit (s.grid x) b →
              has_bit ((generate_room width height rs j s).grid x) b)) := by
  have hf := generate_room_frame width height rs s j
  have hused : ∀ x, x ≠ s.generated_cells j → has_bit (s.grid x) BIT_USED_ROOM →
      (generate_room width height rs j s).grid x = s.grid x := by
    intro x hx hu
    obtain ⟨m, _, e, f⟩ := hf x
    by_cases hm : m = 0
    · rw [e, hm, Nat.or_zero]
    · rcases f hm with h1 | ⟨h1, _⟩
      · exact absurd h1 hx
      · exact absurd hu h1
  refine ⟨?_, hused, ?_, ?_, ?_⟩
  · intro x hx hnb
    obtain ⟨m, _, e, f⟩ := hf x
    by_cases hm : m = 0
    · rw [e, hm, Nat.or_zero]
    · rcases f hm with h1 | ⟨_, d, hd, h2, _⟩
      · exact absurd h1 hx
      · exact absurd h2 (hnb d hd)
  · intro hw hc d hd hn hu
    exact hused _ (neighbour_ne_self width height _ d hw hc hd hn) hu
  · intro x
    obtain ⟨m, hm, e, _⟩ := hf x
    exact ⟨m, by have : g_neighbours = 15 := by decide
                 omega, e⟩
  · intro x
    obtain ⟨m, hm, e, _⟩ := hf x
    obtain ⟨hme, hmu⟩ := door_mask_flags m hm
    rw [e]
    refine ⟨?_, ?_, fun b hb => (has_bit_lor _ _ _).mpr (Or.inl hb)⟩
    · rw [has_bit_lor]
      exact ⟨fun hx => hx.elim id (fun hx2 => absurd hx2 hme), Or.inl⟩
    · rw [has_bit_lor]
      exact ⟨fun hx => hx.elim id (fun hx2 => absurd hx2 hmu), Or.inl⟩

/-- Witness of C15: the first call of `generate_room` of the 3x3 scenario, on
the entrance cell 4 flagged ENTRANCE | USED; the corner cell 0 is not changed. -/
theorem carve_step_frame_witness :
    (generate_room 3 3 all_doors_source 0
        (define_entrance 3 3 all_doors_source (initial_state empty_grid))).grid 0
      = (define_entrance 3 3 all_doors_source (initial_state empty_grid)).grid 0 :=
  (carve_step_frame 3 3 all_doors_source
      (define_entrance 3 3 all_doors_source (initial_state empty_grid)) 0).1 0
    (by decide) (by
      intro d hd
      rcases hd with rfl | rfl | rfl | rfl <;> decide)

/-! ## Cells flagged as used -/

theorem turns_succ (w h : Int) (rs : RandomSource) (n : Nat) :
    ∀ s, turns w h rs (n + 1) s =
      if loop_cond w h (turns w h rs n s) then loop_body w h rs (turns w h rs n s)
      else turns w h rs n s := by
  induction n with
  | zero =>
    intro s
    show (if loop_cond w h s then turns w h rs 0 (loop_body w h rs s) else s) = _
    rfl
  | succ n ih =>
    intro s
    show (if loop_cond w h s then turns w h rs (n + 1) (loop_body w h rs s) else s) = _
    by_cases hc : loop_cond w h s
    · rw [if_pos hc, ih (loop_body w h rs s)]
      have e : turns w h rs (n + 1) s = turns w h rs n (loop_body w h rs s) := by
        show (if loop_cond w h s then turns w h rs n (loop_body w h rs s) else s) = _
        rw [if_pos hc]
      rw [e]
    · have e : turns w h rs (n + 1) s = s := by
        show (if loop_cond w h s then turns w h rs n (loop_body w h rs s) else s) = _
        rw [if_neg hc]
      rw [if_neg hc, e, if_neg hc]

theorem dungeon_after_succ (w h : Int) (rs : RandomSource) (n : Nat) :
    dungeon_after w h rs (n + 1) =
      if loop_cond w h (dungeon_after w h rs n) then loop_body w h rs (dungeon_after w h rs n)
      else dungeon_after w h rs n :=
  turns_succ w h rs n _

theorem flag_used_grid (s : State) (x : Int) :
    (flag_used s).grid x = s.grid x
    ∨ (x = s.generated_cells s.i ∧ (flag_used s).grid x = s.grid x ||| BIT_USED_ROOM) := by
  unfold flag_used
  split_ifs
  · by_cases hx : x = s.generated_cells s.i
    · right
      refine ⟨hx, ?_⟩
      show Function.update s.grid _ _ x = _
      rw [hx, Function.update_same]
    · left
      show Function.update s.grid _ _ x = _
      rw [Function.update_noteq hx]
  · exact Or.inl rfl

/-- No turn of the main loop clears a bit of the grid. -/
theorem loop_body_bits (w h : Int) (rs : RandomSource) (s : State)
    (hs : fresh s ∨ Inv w h s) (x : Int) (b : Nat) (hb : has_bit (s.grid x) b) :
    has_bit ((loop_body w h rs s).grid x) b := by
  rcases hs with hf | hinv
  · rw [hf.2.2.2 x] at hb
    exact absurd hb (has_bit_zero b)
  · unfold loop_body
    simp only []
    rw [define_entrance_of_inv w h rs s hinv]
    show has_bit ((flag_used (generate_room w h rs s.i s)).grid x) b
    obtain ⟨m, _, e, _⟩ := generate_room_frame w h rs s s.i x
    have h1 : has_bit ((generate_room w h rs s.i s).grid x) b := by
      rw [e]; exact (has_bit_lor _ _ _).mpr (Or.inl hb)
    rcases flag_used_grid (generate_room w h rs s.i s) x with e2 | ⟨_, e2⟩
    · rw [e2]; exact h1
    · rw [e2]; exact (has_bit_lor _ _ _).mpr (Or.inl h1)

/-- A turn of the main loop that processes another cell leaves a cell flagged
as used unchanged. -/
theorem loop_body_used (w h : Int) (rs : RandomSource) (s : State) (hw : 1 ≤ w)
    (hinv : Inv w h s) (hc : loop_cond w h s) (x : Int)
    (hu : has_bit (s.grid x) BIT_USED_ROOM) (hx : x ≠ s.generated_cells s.i) :
    (loop_body w h rs s).grid x = s.grid x := by
  have hi : s.i < s.generated_cells_number := by
    have := hinv.pos
    rcases hc.2 with h0 | h0 <;> omega
  unfold loop_body
  simp only []
  rw [define_entrance_of_inv w h rs s hinv]
  show (flag_used (generate_room w h rs s.i s)).grid x = s.grid x
  obtain ⟨_, hg⟩ := generate_room_inv w h rs s s.i hw hinv hi
  have e1 : (generate_room w h rs s.i s).grid x = s.grid x := by
    obtain ⟨m, _, e, f⟩ := generate_room_frame w h rs s s.i x
    by_cases hm : m = 0
    · rw [e, hm, Nat.or_zero]
    · rcases f hm with h1 | ⟨h1, _⟩
      · exact absurd h1 hx
      · exact absurd hu h1
  rcases flag_used_grid (generate_room w h rs s.i s) x with e2 | ⟨e2, _⟩
  · rw [e2, e1]
  · exfalso
    rw [hg.cursor, hg.front s.i hi] at e2
    exact hx e2

/-- C16, counterexample: on the 2x1 grid, with entrance draw 0, no door drawn
in the first turn and the east door drawn in the second turn, cell 0 is flagged
USED after the first turn and has no east door, and it has the east door after
the second turn; so it is false that the door bits of a cell flagged USED are
the same in every later state. -/
theorem used_cell_gains_door :
    ¬ (∀ n m c d, n ≤ m → in_grid 2 1 c → is_door d →
        has_bit ((dungeon_after 2 1 late_door_source n).grid c) BIT_USED_ROOM →
        (has_bit ((dungeon_after 2 1 late_door_source n).grid c) d
          ↔ has_bit ((dungeon_after 2 1 late_door_source m).grid c) d)) := by
  intro hall
  have h := hall 1 2 0 BIT_DOOR_EAST (by decide) (by decide) (by decide) (by decide!)
  have h1 : ¬ has_bit ((dungeon_after 2 1 late_door_source 1).grid 0) BIT_DOOR_EAST := by
    decide!
  have h2 : has_bit ((dungeon_after 2 1 late_door_source 2).grid 0) BIT_DOOR_EAST := by
    decide!
  exact h1 (h.mpr h2)

/-- C16, amended.  For a grid of width and height at least 1 and a random
source whose entrance draw is below the area, on the all-zero grid: a bit of a
cell that is set after `n` turns of the main loop is set after every larger
number of turns, so a cell flagged USED stays flagged and never loses a door;
and a turn of the main loop that processes another cell than a cell flagged
USED leaves the bit mask of that cell unchanged (the cell can gain doors only
in a turn that processes the cell itself). -/
theorem used_cell_doors (width height : Int) (rs : RandomSource)
    (hw : 1 ≤ width) (hh : 1 ≤ height) (hr : entrance_draw_ok width height rs) :
    (∀ n m c b, n ≤ m → has_bit ((dungeon_after width height rs n).grid c) b →
        has_bit ((dungeon_after width height rs m).grid c) b)
    ∧ (∀ n c, has_bit ((dungeon_after width height rs n).grid c) BIT_USED_ROOM →
        c ≠ (dungeon_after width height rs n).generated_cells (dungeon_after width height rs n).i →
        (dungeon_after width height rs (n + 1)).grid c
          = (dungeon_after width height rs n).grid c) := by
  constructor
  · intro n m c b hnm hb
    induction m with
    | zero =>
      have : n = 0 := by omega
      rw [this] at hb; exact hb
    | succ k ih =>
      by_cases hk : n ≤ k
      · have h1 := ih hk
        rw [dungeon_after_succ]
        split_ifs with hc
        · exact loop_body_bits width height rs _
            (dungeon_after_state width height rs hw hh hr k) c b h1
        · exact h1
      · have : n = k + 1 := by omega
        rw [this] at hb; exact hb
  · intro n c hu hx
    rw [dungeon_after_succ]
    split_ifs with hc
    · rcases dungeon_after_state width height rs hw hh hr n with hf | hinv
      · rw [hf.2.2.2 c] at hu
        exact absurd hu (has_bit_zero _)
      · exact loop_body_used width height rs _ hw hinv hc c hu hx
    · rfl

/-- Witness of C16 as amended: the retry run on the 2x1 grid. -/
theorem used_cell_doors_witness :
    entrance_draw_ok 2 1 late_door_source
    ∧ (has_bit ((dungeon_after 2 1 late_door_source 1).grid 0) BIT_USED_ROOM →
        has_bit ((dungeon_after 2 1 late_door_source 2).grid 0) BIT_USED_ROOM) :=
  ⟨by decide,
    (used_cell_doors 2 1 late_door_source (by decide) (by decide) (by decide)).1 1 2 0
      BIT_USED_ROOM (by decide)⟩

/-! ## The grid is connected -/

/-- A set of cells that contains a cell of the grid and, with a cell, all the
neighbours the resolver gives for it, contains every cell of the grid. -/
theorem grid_closed_full (w h : Int) (hw : 1 ≤ w) (S : Int → Prop)
    (hclosed : ∀ c d, in_grid w h c → is_door d → S c →
      get_neighbour_room_index w h c d ≠ -1 → S (get_neighbour_room_index w h c d))
    (e : Int) (he : in_grid w h e) (hSe : S e) : ∀ c, in_grid w h c → S c := by
  have hwpos : 0 < w := by omega
  have north : ∀ c, in_grid w h c → S c → c - w ≥ 0 → S (c - w) := by
    intro c hc hS hge
    have e1 : get_neighbour_room_index w h c BIT_DOOR_NORTH = c - w := by
      rw [neighbour_eq_rule w h c _ hw hc, rule_north, if_pos hge]
    have := hclosed c _ hc (Or.inl rfl) hS (by rw [e1]; omega)
    rw [e1] at this; exact this
  have east : ∀ c, in_grid w h c → S c → c % w ≠ w - 1 → S (c + 1) := by
    intro c hc hS hcol
    have e1 : get_neighbour_room_index w h c BIT_DOOR_EAST = c + 1 := by
      rw [neighbour_eq_rule w h c _ hw hc, rule_east, if_pos hcol]
    have := hclosed c _ hc (Or.inr (Or.inl rfl)) hS (by rw [e1]; have := hc.1; omega)
    rw [e1] at this; exact this
  have south : ∀ c, in_grid w h c → S c → c + w < w * h → S (c + w) := by
    intro c hc hS hlt
    have e1 : get_neighbour_room_index w h c BIT_DOOR_SOUTH = c + w := by
      rw [neighbour_eq_rule w h c _ hw hc, rule_south, if_pos hlt]
    have := hclosed c _ hc (Or.inr (Or.inr (Or.inl rfl))) hS
      (by rw [e1]; have := hc.1; omega)
    rw [e1] at this; exact this
  have west : ∀ c, in_grid w h c → S c → c % w ≠ 0 → S (c - 1) := by
    intro c hc hS hcol
    have hc0 : c ≠ 0 := by
      intro e0; rw [e0] at hcol; exact hcol (emod_zero_of_zero w)
    have e1 : get_neighbour_room_index w h c BIT_DOOR_WEST = c - 1 := by
      rw [neighbour_eq_rule w h c _ hw hc, rule_west, if_pos hcol]
    have := hclosed c _ hc (Or.inr (Or.inr (Or.inr rfl))) hS
      (by rw [e1]; have := hc.1; omega)
    rw [e1] at this; exact this
  have down : ∀ n : Nat, ∀ c : Int, c.toNat = n → in_grid w h c → S c → S 0 := by
    intro n
    induction n using Nat.strong_induction_on with
    | _ n ih =>
      intro c hcn hc hS
      have hc' := hc
      obtain ⟨hc0, hc1⟩ := hc'
      by_cases hz : c = 0
      · rw [hz] at hS; exact hS
      · by_cases hge : c - w ≥ 0
        · exact ih (c - w).toNat (by omega) (c - w) rfl ⟨hge, by omega⟩ (north c hc hS hge)
        · have hmod : c % w = c := Int.emod_eq_of_lt hc0 (by omega)
          exact ih (c - 1).toNat (by omega) (c - 1) rfl ⟨by omega, by omega⟩
            (west c hc hS (by rw [hmod]; exact hz))
  have hS0 : S 0 := down e.toNat e rfl he hSe
  have up : ∀ n : Nat, ∀ c : Int, c.toNat = n → in_grid w h c → S c := by
    intro n
    induction n using Nat.strong_induction_on with
    | _ n ih =>
      intro c hcn hc
      have hc' := hc
      obtain ⟨hc0, hc1⟩ := hc'
      by_cases hz : c = 0
      · rw [hz]; exact hS0
      · have hp := emod_pred c w hwpos
        have h2 := Int.emod_nonneg c (ne_of_gt hwpos)
        have h3 := Int.emod_lt_of_pos c hwpos
        by_cases hcol : c % w = 0
        · have hge : w ≤ c := by
            by_contra hlt
            have hmod : c % w = c := Int.emod_eq_of_lt hc0 (by omega)
            rw [hmod] at hcol
            exact hz hcol
          have hin : in_grid w h (c - w) := ⟨by omega, by omega⟩
          have := south (c - w) hin (ih (c - w).toNat (by omega) (c - w) rfl hin)
            (by rw [sub_add_cancel]; exact hc1)
          rw [sub_add_cancel] at this
          exact this
        · rw [if_neg hcol] at hp
          have hin : in_grid w h (c - 1) := ⟨by omega, by omega⟩
          have := east (c - 1) hin (ih (c - 1).toNat (by omega) (c - 1) rfl hin)
            (by rw [hp]; omega)
          rw [sub_add_cancel] at this
          exact this
  exact fun c hc => up c.toNat c rfl hc

/-! ## A random source that always draws all the doors -/

theorem nonzero_of_grows (s t : State) (hg : Grows s t) (x : Int) (hx : s.grid x ≠ 0) :
    t.grid x ≠ 0 := by
  have hb : has_bit (s.grid x) (s.grid x) := by
    unfold has_bit; rw [Nat.and_self]; exact hx
  exact has_bit_ne_zero _ _ (hg.bits x _ hb)

/-- A turn of the door loop for a door that is drawn leaves the neighbour in
that direction, when there is one, non-zero. -/
theorem door_effect_opens (w h : Int) (pd : Nat) (s : State) (j : Nat) (door : Nat)
    (hw : 1 ≤ w) (hinv : Inv w h s) (hj : j < s.generated_cells_number)
    (hd : is_door door) (hpd : door &&& pd = door)
    (hn : get_neighbour_room_index w h (s.generated_cells j) door ≠ -1) :
    (door_effect w h pd (s.generated_cells j) door s).grid
      (get_neighbour_room_index w h (s.generated_cells j) door) ≠ 0 := by
  have hcell := hinv.front_in j hj
  have hne := neighbour_ne_self w h _ door hw hcell hd hn
  have hod := opposite_is_door door hd
  have hcarve : carve s.grid (s.generated_cells j)
      (get_neighbour_room_index w h (s.generated_cells j) door) door
      (get_opposite_direction_bit door).toNat
      (get_neighbour_room_index w h (s.generated_cells j) door) ≠ 0 := by
    rw [carve_apply _ _ _ _ _ hne, if_pos rfl]
    intro e
    exact door_ne_zero _ hod ((lor_eq_zero _ _).mp e).2
  unfold door_effect
  simp only []
  split_ifs with hskip hzero
  · rcases hskip with h1 | h1 | h1 | h1
    · exact has_bit_ne_zero _ _ (hinv.doors _ door hcell hd h1).2
    · exact absurd h1 hn
    · exact has_bit_ne_zero _ _ h1
    · exact absurd hpd h1
  · exact hcarve
  · exact hcarve

theorem room_steps_opens (w h : Int) (pd : Nat) (cell : Int) (j : Nat) (hw : 1 ≤ w)
    (doors : List Nat) :
    (∀ d ∈ doors, is_door d ∧ d &&& pd = d) → ∀ s, Inv w h s →
      j < s.generated_cells_number → s.generated_cells j = cell →
      ∀ d ∈ doors, get_neighbour_room_index w h cell d ≠ -1 →
        (room_steps w h pd cell doors s).grid (get_neighbour_room_index w h cell d) ≠ 0 := by
  induction doors with
  | nil =>
    intro _ s _ _ _ d hm
    exact absurd hm (List.not_mem_nil d)
  | cons door rest ih =>
    intro hd s hinv hj hcell d hm hn
    have hdoor := hd door (List.mem_cons_self _ _)
    obtain ⟨hi1, hg1⟩ := generate_room_door_inv w h pd s j door cell hw hinv hj hcell hdoor.1
    have hj1 := lt_of_lt_of_le hj hg1.len
    have hc1 := (hg1.front j hj).trans hcell
    have hrest : ∀ d ∈ rest, is_door d ∧ d &&& pd = d :=
      fun d hm => hd d (List.mem_cons_of_mem _ hm)
    show (room_steps w h pd cell rest (generate_room_door w h pd cell door s)).grid _ ≠ 0
    rcases List.mem_cons.mp hm with hhead | htail
    · obtain ⟨_, hg2⟩ := room_steps_inv w h pd cell j hw rest (fun d hm => (hrest d hm).1)
        _ hi1 hj1 hc1
      apply nonzero_of_grows _ _ hg2
      rw [hhead] at hn ⊢
      subst hcell
      rw [generate_room_door_eq w h pd _ door s hw (hinv.front_in j hj) hdoor.1 hinv.doors]
      exact door_effect_opens w h pd s j door hw hinv hj hdoor.1 hdoor.2 hn
    · exact ih hrest _ hi1 hj1 hc1 d htail hn

theorem generate_room_eq_steps (w h : Int) (rs : RandomSource) (j : Nat) (s : State) :
    generate_room w h rs j s
      = room_steps w h (rs s.draws 0 g_neighbours) (s.generated_cells j) door_order
          { s with draws := s.draws + 1 } := rfl

/-- When 15 is drawn, `generate_room` leaves every neighbour of its cell
non-zero. -/
theorem generate_room_opens (w h : Int) (rs : RandomSource) (s : State) (j : Nat)
    (hw : 1 ≤ w) (hinv : Inv w h s) (hj : j < s.generated_cells_number)
    (hpd : rs s.draws 0 g_neighbours = 15) (d : Nat) (hd : is_door d)
    (hn : get_neighbour_room_index w h (s.generated_cells j) d ≠ -1) :
    (generate_room w h rs j s).grid (get_neighbour_room_index w h (s.generated_cells j) d)
      ≠ 0 := by
  rw [generate_room_eq_steps, hpd]
  have hinv0 : Inv w h { s with draws := s.draws + 1 } :=
    ⟨hinv.pos, hinv.front_in, hinv.front_nz, hinv.front_inj, hinv.cover, hinv.doors,
      hinv.entr_in, hinv.entr_first, hinv.entr, hinv.conn⟩
  have hmem : d ∈ door_order := by
    rcases hd with rfl | rfl | rfl | rfl <;> decide
  exact room_steps_opens w h 15 (s.generated_cells j) j hw door_order (by decide) _ hinv0 hj
    rfl d hmem hn

/-- When every neighbour of every generated cell is non-zero, the generated
cells are all the cells of the grid. -/
theorem all_opened_full (w h : Int) (s : State) (hw : 1 ≤ w) (hinv : Inv w h s)
    (hop : ∀ j, j < s.generated_cells_number → ∀ d, is_door d →
      get_neighbour_room_index w h (s.generated_cells j) d ≠ -1 →
      s.grid (get_neighbour_room_index w h (s.generated_cells j) d) ≠ 0) :
    (s.generated_cells_number : Int) = w * h := by
  have hall : ∀ c, in_grid w h c → s.grid c ≠ 0 := by
    apply grid_closed_full w h hw (fun c => s.grid c ≠ 0) ?_ (s.entrance : Int) hinv.entr_in
    · show s.grid (s.entrance : Int) ≠ 0
      rw [← hinv.entr_first]
      exact hinv.front_nz 0 hinv.pos
    · intro c d hc hd hS hn
      obtain ⟨j, hj, hjc⟩ := hinv.cover c hc hS
      rw [← hjc] at hn ⊢
      exact hop j hj d hd hn
  have hcount := (frontier_is_nonzero_of_inv w h s hinv).2
  have hfilter : (Finset.range (w * h).toNat).filter (fun c : Nat => s.grid (c : Int) ≠ 0)
      = Finset.range (w * h).toNat := by
    apply Finset.filter_true_of_mem
    intro c hc
    have := Finset.mem_range.mp hc
    exact hall (c : Int) ⟨by omega, by omega⟩
  rw [hfilter, Finset.card_range] at hcount
  have := hinv.entr_in
  unfold in_grid at this
  omega

/-- The part of a turn of the main loop that follows the definition of the
entrance, when 15 is drawn: the invariant of the all-doors run is kept and the
cursor moves on by one, without restart. -/
theorem all_doors_turn (w h : Int) (rs : RandomSource) (s : State) (hw : 1 ≤ w)
    (hfit : w * h < 2 ^ 32) (hall : ∀ k, 1 ≤ k → rs k 0 g_neighbours = 15)
    (ha : AllDoors w h s) (hi : s.i < s.generated_cells_number) :
    AllDoors w h (advance w h (flag_used (generate_room w h rs s.i s)))
    ∧ (advance w h (flag_used (generate_room w h rs s.i s))).i = s.i + 1 := by
  have hU : UINT_SIZE = 4294967296 := by decide
  obtain ⟨hi2, hg2⟩ := generate_room_inv w h rs s s.i hw ha.inv hi
  have hlt2 : (generate_room w h rs s.i s).i
      < (generate_room w h rs s.i s).generated_cells_number := by
    rw [hg2.cursor]; exact lt_of_lt_of_le hi hg2.len
  obtain ⟨hi3, hg3⟩ := flag_used_inv w h _ hi2 hlt2
  have hg : Grows s (flag_used (generate_room w h rs s.i s)) := hg2.trans hg3
  have hcur : (flag_used (generate_room w h rs s.i s)).i = s.i := hg.cursor
  have hlen : s.i < (flag_used (generate_room w h rs s.i s)).generated_cells_number :=
    lt_of_lt_of_le hi hg.len
  have hle := generated_le_area w h _ hi3
  have hopen : ∀ j, j < s.i + 1 → ∀ d, is_door d →
      get_neighbour_room_index w h
        ((flag_used (generate_room w h rs s.i s)).generated_cells j) d ≠ -1 →
      (flag_used (generate_room w h rs s.i s)).grid
        (get_neighbour_room_index w h
          ((flag_used (generate_room w h rs s.i s)).generated_cells j) d) ≠ 0 := by
    intro j hj d hd hn
    have hjlt : j < s.generated_cells_number := by omega
    rw [hg.front j hjlt] at hn ⊢
    by_cases hji : j < s.i
    · exact nonzero_of_grows _ _ hg _ (ha.opened j hji d hd hn)
    · have hje : j = s.i := by omega
      rw [hje] at hn ⊢
      exact nonzero_of_grows _ _ hg3 _
        (generate_room_opens w h rs s s.i hw ha.inv hi (hall _ ha.drawn) d hd hn)
  have hnoreset : ¬ ((flag_used (generate_room w h rs s.i s)).i
        = ((flag_used (generate_room w h rs s.i s)).generated_cells_number + UINT_SIZE - 1)
            % UINT_SIZE
      ∧ 4 * ((flag_used (generate_room w h rs s.i s)).generated_cells_number : Int)
          < 3 * (w * h)) := by
    rintro ⟨h1, h2⟩
    rw [hcur] at h1
    have hlast : s.i + 1 = (flag_used (generate_room w h rs s.i s)).generated_cells_number := by
      rw [hU] at h1
      omega
    have hfull := all_opened_full w h _ hw hi3 (by
      intro j hj d hd hn
      exact hopen j (by omega) d hd hn)
    omega
  have hi_eq : (advance w h (flag_used (generate_room w h rs s.i s))).i = s.i + 1 := by
    unfold advance
    simp only []
    rw [if_neg hnoreset, hcur]
    apply Nat.mod_eq_of_lt
    rw [hU]
    omega
  refine ⟨⟨advance_inv w h _ hi3, ?_, ?_, ?_⟩, hi_eq⟩
  · show 1 ≤ (flag_used (generate_room w h rs s.i s)).draws
    rw [(flag_used_counts _).1, (generate_room_counts w h rs s.i s).1]
    omega
  · rw [hi_eq]
    show s.i + 1 ≤ (flag_used (generate_room w h rs s.i s)).generated_cells_number
    omega
  · intro j hj d hd hn
    rw [hi_eq] at hj
    exact hopen j hj d hd hn

/-- A turn of the main loop of the all-doors run. -/
theorem all_doors_body (w h : Int) (rs : RandomSource) (s : State) (hw : 1 ≤ w)
    (hfit : w * h < 2 ^ 32) (hr : entrance_draw_ok w h rs)
    (hall : ∀ k, 1 ≤ k → rs k 0 g_neighbours = 15)
    (hs : fresh s ∨ AllDoors w h s) (hc : loop_cond w h s) :
    AllDoors w h (loop_body w h rs s) ∧ (loop_body w h rs s).i = s.i + 1 := by
  have hbody : loop_body w h rs s
      = advance w h (flag_used (generate_room w h rs (define_entrance w h rs s).i
          (define_entrance w h rs s))) := rfl
  rw [hbody]
  rcases hs with hf | ha
  · have hst := define_entrance_stalled w h rs s hf hr
    have ha1 : AllDoors w h (define_entrance w h rs s) :=
      ⟨hst.inv, hst.drawn, by rw [hst.cursor]; exact Nat.zero_le _,
        fun j hj => by rw [hst.cursor] at hj; exact absurd hj (Nat.not_lt_zero j)⟩
    have hi1 : (define_entrance w h rs s).i
        < (define_entrance w h rs s).generated_cells_number := by
      rw [hst.cursor, hst.one]; exact Nat.lt_succ_self 0
    obtain ⟨hA, hI⟩ := all_doors_turn w h rs _ hw hfit hall ha1 hi1
    exact ⟨hA, by rw [hI, hst.cursor, hf.2.1]⟩
  · rw [define_entrance_of_inv w h rs s ha.inv]
    have hi1 : s.i < s.generated_cells_number := by
      have := ha.inv.pos
      rcases hc.2 with h0 | h0 <;> omega
    exact all_doors_turn w h rs s hw hfit hall ha hi1

/-- Once the loop condition fails, the state does not change any more. -/
theorem dungeon_after_exit (w h : Int) (rs : RandomSource) (k : Nat)
    (hk : ¬ loop_cond w h (dungeon_after w h rs k)) :
    ∀ m, k ≤ m → dungeon_after w h rs m = dungeon_after w h rs k := by
  intro m hm
  induction m with
  | zero =>
    have : k = 0 := by omega
    rw [this]
  | succ n ih =>
    by_cases hkn : k ≤ n
    · rw [dungeon_after_succ, ih hkn, if_neg hk]
    · have : k = n + 1 := by omega
      rw [this]

/-- In the all-doors run, after `n ≥ 1` turns the cursor is `n`, unless the
loop has exited before. -/
theorem all_doors_after (w h : Int) (rs : RandomSource) (hw : 1 ≤ w) (hh : 1 ≤ h)
    (hfit : w * h < 2 ^ 32) (hr : entrance_draw_ok w h rs)
    (hall : ∀ k, 1 ≤ k → rs k 0 g_neighbours = 15) (n : Nat) :
    AllDoors w h (dungeon_after w h rs (n + 1))
    ∧ ((dungeon_after w h rs (n + 1)).i = n + 1
        ∨ ∃ k, k < n + 1 ∧ ¬ loop_cond w h (dungeon_after w h rs k)) := by
  induction n with
  | zero =>
    rw [dungeon_after_succ]
    have hc : loop_cond w h (dungeon_after w h rs 0) := initial_loop_cond w h hw hh
    rw [if_pos hc]
    obtain ⟨hA, hI⟩ := all_doors_body w h rs _ hw hfit hr hall (Or.inl initial_fresh) hc
    exact ⟨hA, Or.inl hI⟩
  | succ n ih =>
    obtain ⟨hA, hI⟩ := ih
    rw [dungeon_after_succ]
    split_ifs with hc
    · obtain ⟨hA2, hI2⟩ := all_doors_body w h rs _ hw hfit hr hall (Or.inr hA) hc
      refine ⟨hA2, ?_⟩
      rcases hI with h1 | ⟨k, hk, hk2⟩
      · left; rw [hI2, h1]
      · right; exact ⟨k, by omega, hk2⟩
    · exact ⟨hA, Or.inr ⟨n + 1, by omega, hc⟩⟩

/-- All-doors run of the program on unbounded integers.  For a grid of
width and height at least 1 whose area fits in an `unsigned int`, a random
source whose entrance draw is below the area and whose every draw of
`potential_doors` (every call after the first) is 15, on the all-zero grid:
there is a number `T` of turns, with `1 ≤ T ≤ width * height`, such that the
condition of the main loop holds before each of the first `T` turns and fails
after them, so `generate_dungeon` returns the state after `T` turns (for every
bound of at least `T` turns, and not within fewer turns); the cursor is `n`
after `n ≤ T` turns, that is, it is never set back; and in the state returned
the number of generated cells is `width * height`. -/
theorem all_doors_unbounded (width height : Int) (rs : RandomSource)
    (hw : 1 ≤ width) (hh : 1 ≤ height) (hfit : width * height < 2 ^ 32)
    (hr : entrance_draw_ok width height rs)
    (hall : ∀ k, 1 ≤ k → rs k 0 g_neighbours = 15) :
    ∃ T : Nat, 1 ≤ T ∧ (T : Int) ≤ width * height
      ∧ (∀ n, n < T → loop_cond width height (dungeon_after width height rs n))
      ∧ ¬ loop_cond width height (dungeon_after width height rs T)
      ∧ (∀ fuel, T ≤ fuel → generate_dungeon width height rs empty_grid fuel
            = some (dungeon_after width height rs T))
      ∧ (∀ fuel, fuel < T → generate_dungeon width height rs empty_grid fuel = none)
      ∧ (∀ n, n ≤ T → (dungeon_after width height rs n).i = n)
      ∧ ((dungeon_after width height rs T).generated_cells_number : Int)
          = width * height := by
  have hpos : 0 < width * height := by positivity
  have hexit : ∃ n, ¬ loop_cond width height (dungeon_after width height rs n) := by
    refine ⟨(width * height).toNat, ?_⟩
    intro hc
    obtain ⟨m, hm⟩ : ∃ m, (width * height).toNat = m + 1 :=
      ⟨(width * height).toNat - 1, by omega⟩
    rw [hm] at hc
    obtain ⟨_, hI⟩ := all_doors_after width height rs hw hh hfit hr hall m
    rcases hI with h1 | ⟨k, hk, hk2⟩
    · obtain ⟨hc1, hc2⟩ := hc
      rw [h1] at hc2
      have : m + 1 < (dungeon_after width height rs (m + 1)).generated_cells_number := by
        rcases hc2 with h0 | h0
        · omega
        · exact h0
      omega
    · rw [dungeon_after_exit width height rs k hk2 (m + 1) (by omega)] at hc
      exact hk2 hc
  have hle : Nat.find hexit ≤ (width * height).toNat := by
    apply Nat.find_min' hexit
    intro hc
    obtain ⟨m, hm⟩ : ∃ m, (width * height).toNat = m + 1 :=
      ⟨(width * height).toNat - 1, by omega⟩
    rw [hm] at hc
    obtain ⟨_, hI⟩ := all_doors_after width height rs hw hh hfit hr hall m
    rcases hI with h1 | ⟨k, hk, hk2⟩
    · obtain ⟨hc1, hc2⟩ := hc
      rw [h1] at hc2
      have : m + 1 < (dungeon_after width height rs (m + 1)).generated_cells_number := by
        rcases hc2 with h0 | h0
        · omega
        · exact h0
      omega
    · rw [dungeon_after_exit width height rs k hk2 (m + 1) (by omega)] at hc
      exact hk2 hc
  have hspec := Nat.find_spec hexit
  have hmin : ∀ n, n < Nat.find hexit →
      loop_cond width height (dungeon_after width height rs n) :=
    fun n hn => not_not.mp (Nat.find_min hexit hn)
  have hone : 1 ≤ Nat.find hexit := by
    by_contra h0
    have hz : Nat.find hexit = 0 := by omega
    rw [hz] at hspec
    exact hspec (initial_loop_cond width height hw hh)
  obtain ⟨t, ht⟩ : ∃ t, Nat.find hexit = t + 1 := ⟨Nat.find hexit - 1, by omega⟩
  have hcursor : ∀ n, n ≤ Nat.find hexit → (dungeon_after width height rs n).i = n := by
    intro n hn
    rcases Nat.eq_zero_or_pos n with h0 | h0
    · rw [h0]; rfl
    · obtain ⟨m, rfl⟩ : ∃ m, n = m + 1 := ⟨n - 1, by omega⟩
      obtain ⟨_, hI⟩ := all_doors_after width height rs hw hh hfit hr hall m
      rcases hI with h1 | ⟨k, hk, hk2⟩
      · exact h1
      · exact absurd (hmin k (by omega)) hk2
  refine ⟨Nat.find hexit, hone, by omega, hmin, hspec, ?_, ?_, hcursor, ?_⟩
  · intro fuel hf
    have hstable := dungeon_after_exit width height rs _ hspec fuel hf
    unfold generate_dungeon
    have hx : ¬ loop_cond width height
        (turns width height rs fuel (initial_state empty_grid)) := by
      have e : turns width height rs fuel (initial_state empty_grid)
          = dungeon_after width height rs fuel := rfl
      rw [e, hstable]; exact hspec
    rw [run_loop_of_exit width height rs fuel _ hx]
    exact congrArg some hstable
  · intro fuel hf
    exact run_loop_none width height rs fuel _ (hmin fuel hf)
  · rw [ht] at hspec hcursor ⊢
    obtain ⟨hA, _⟩ := all_doors_after width height rs hw hh hfit hr hall t
    have hcur := hcursor (t + 1) (le_refl _)
    have hleA := generated_le_area width height _ hA.inv
    by_cases hfull : ((dungeon_after width height rs (t + 1)).generated_cells_number : Int)
        < width * height
    · have hi : ¬ ((dungeon_after width height rs (t + 1)).i = 0
          ∨ (dungeon_after width height rs (t + 1)).i
              < (dungeon_after width height rs (t + 1)).generated_cells_number) :=
        fun hx => hspec ⟨hfull, hx⟩
      push_neg at hi
      have heq : (dungeon_after width height rs (t + 1)).i
          = (dungeon_after width height rs (t + 1)).generated_cells_number :=
        le_antisymm hA.cursor_le hi.2
      exact all_opened_full width height _ hw hA.inv (by
        intro j hj d hd hn
        exact hA.opened j (by rw [heq]; exact hj) d hd hn)
    · omega

/-! ## The 32-bit program on grids without `int` overflow -/

theorem wrap_int_eq (x : Int) (h1 : -2147483648 ≤ x) (h2 : x < 2147483648) :
    Machine.wrap_int x = x := by
  unfold Machine.wrap_int; omega

theorem to_unsigned_eq (x : Int) (h1 : 0 ≤ x) (h2 : x < 4294967296) :
    Machine.to_unsigned x = x := by
  unfold Machine.to_unsigned; omega

/-- On a grid without overflow the area and the width fit in an `int`. -/
theorem no_overflow_bounds (w h : Int) (hw : 1 ≤ w) (hh : 1 ≤ h)
    (hfit : no_int_overflow w h) :
    1 ≤ w * h ∧ w ≤ w * h ∧ w * h + w ≤ 2147483648 := by
  have h1 : w * 1 ≤ w * h := mul_le_mul_of_nonneg_left hh (by omega)
  rw [mul_one] at h1
  exact ⟨by omega, h1, hfit⟩

theorem machine_dungeon_area_eq (w h : Int) (hw : 1 ≤ w) (hh : 1 ≤ h)
    (hfit : no_int_overflow w h) :
    Machine.dungeon_area w h = w * h
    ∧ Machine.to_unsigned (Machine.dungeon_area w h) = w * h := by
  obtain ⟨b1, b2, b3⟩ := no_overflow_bounds w h hw hh hfit
  have e1 : Machine.dungeon_area w h = w * h := wrap_int_eq _ (by omega) (by omega)
  rw [e1]
  exact ⟨rfl, to_unsigned_eq _ (by omega) (by omega)⟩

/-- On a grid without overflow the compiled resolver computes, for a cell of
the grid, what the resolver on unbounded integers computes. -/
theorem machine_resolver_eq (w h c : Int) (d : Nat) (hw : 1 ≤ w) (hh : 1 ≤ h)
    (hfit : no_int_overflow w h) (hc : in_grid w h c) :
    Machine.get_neighbour_room_index w h c d = get_neighbour_room_index w h c d := by
  obtain ⟨b1, b2, b3⟩ := no_overflow_bounds w h hw hh hfit
  obtain ⟨hc0, hc1⟩ := hc
  have e1 : Machine.wrap_int (c - w) = c - w := wrap_int_eq _ (by omega) (by omega)
  have e2 : Machine.wrap_int (c + 1) = c + 1 := wrap_int_eq _ (by omega) (by omega)
  have e3 : Machine.wrap_int (c + w) = c + w := wrap_int_eq _ (by omega) (by omega)
  have e4 : Machine.wrap_int (c - 1) = c - 1 := wrap_int_eq _ (by omega) (by omega)
  have e5 : Machine.wrap_int (w * h) = w * h := wrap_int_eq _ (by omega) (by omega)
  have e6 : Machine.wrap_int (w - 1) = w - 1 := wrap_int_eq _ (by omega) (by omega)
  unfold Machine.get_neighbour_room_index get_neighbour_room_index
  simp only [e1, e2, e3, e4, e5, e6]

theorem machine_door_eq (w h : Int) (pd : Nat) (cell : Int) (door : Nat) (s : State)
    (hw : 1 ≤ w) (hh : 1 ≤ h) (hfit : no_int_overflow w h) (hc : in_grid w h cell)
    (hlen : (s.generated_cells_number : Int) ≤ w * h) :
    Machine.generate_room_door w h pd cell door s = generate_room_door w h pd cell door s := by
  obtain ⟨b1, b2, b3⟩ := no_overflow_bounds w h hw hh hfit
  have hc' := hc
  obtain ⟨hc0, hc1⟩ := hc'
  have e1 : Machine.wrap_int cell = cell := wrap_int_eq _ (by omega) (by omega)
  have e2 := machine_resolver_eq w h cell door hw hh hfit hc
  have hU : UINT_SIZE = 4294967296 := by decide
  have e3 : (s.generated_cells_number + 1) % UINT_SIZE = s.generated_cells_number + 1 := by
    apply Nat.mod_eq_of_lt
    rw [hU]; omega
  unfold Machine.generate_room_door generate_room_door
  rw [e1, e2, e3]

theorem machine_room_steps_eq (w h : Int) (pd : Nat) (cell : Int) (j : Nat)
    (hw : 1 ≤ w) (hh : 1 ≤ h) (hfit : no_int_overflow w h) (doors : List Nat) :
    (∀ d ∈ doors, is_door d) → ∀ s, Inv w h s → j < s.generated_cells_number →
      s.generated_cells j = cell →
      Machine.room_steps w h pd cell doors s = room_steps w h pd cell doors s := by
  induction doors with
  | nil => intro _ s _ _ _; rfl
  | cons door rest ih =>
    intro hd s hinv hj hcell
    have hin : in_grid w h cell := by rw [← hcell]; exact hinv.front_in j hj
    obtain ⟨hi1, hg1⟩ := generate_room_door_inv w h pd s j door cell hw hinv hj hcell
      (hd door (List.mem_cons_self _ _))
    show Machine.room_steps w h pd cell rest (Machine.generate_room_door w h pd cell door s)
      = room_steps w h pd cell rest (generate_room_door w h pd cell door s)
    rw [machine_door_eq w h pd cell door s hw hh hfit hin (generated_le_area w h s hinv)]
    exact ih (fun d hm => hd d (List.mem_cons_of_mem _ hm)) _ hi1
      (lt_of_lt_of_le hj hg1.len) ((hg1.front j hj).trans hcell)

theorem machine_generate_room_steps (w h : Int) (rs : RandomSource) (j : Nat) (s : State) :
    Machine.generate_room w h rs j s
      = Machine.room_steps w h (rs s.draws 0 g_neighbours)
          (Machine.to_unsigned (s.generated_cells j)) door_order
          { s with draws := s.draws + 1 } := rfl

theorem cell_to_unsigned (w h c : Int) (hw : 1 ≤ w) (hh : 1 ≤ h)
    (hfit : no_int_overflow w h) (hc : in_grid w h c) : Machine.to_unsigned c = c := by
  obtain ⟨b1, b2, b3⟩ := no_overflow_bounds w h hw hh hfit
  obtain ⟨hc0, hc1⟩ := hc
  exact to_unsigned_eq c hc0 (by omega)

theorem machine_generate_room_eq (w h : Int) (rs : RandomSource) (j : Nat) (s : State)
    (hw : 1 ≤ w) (hh : 1 ≤ h) (hfit : no_int_overflow w h) (hinv : Inv w h s)
    (hj : j < s.generated_cells_number) :
    Machine.generate_room w h rs j s = generate_room w h rs j s := by
  rw [machine_generate_room_steps, generate_room_eq_steps,
    cell_to_unsigned w h _ hw hh hfit (hinv.front_in j hj)]
  have hinv0 : Inv w h { s with draws := s.draws + 1 } :=
    ⟨hinv.pos, hinv.front_in, hinv.front_nz, hinv.front_inj, hinv.cover, hinv.doors,
      hinv.entr_in, hinv.entr_first, hinv.entr, hinv.conn⟩
  exact machine_room_steps_eq w h _ _ j hw hh hfit door_order door_order_doors _ hinv0 hj rfl

theorem machine_entrance_draw_iff (w h : Int) (rs : RandomSource) (hw : 1 ≤ w) (hh : 1 ≤ h)
    (hfit : no_int_overflow w h) :
    Machine.entrance_draw_ok w h rs ↔ entrance_draw_ok w h rs := by
  unfold Machine.entrance_draw_ok entrance_draw_ok
  rw [(machine_dungeon_area_eq w h hw hh hfit).2]

theorem machine_loop_cond_iff (w h : Int) (s : State) (hw : 1 ≤ w) (hh : 1 ≤ h)
    (hfit : no_int_overflow w h) : Machine.loop_cond w h s ↔ loop_cond w h s := by
  unfold Machine.loop_cond loop_cond
  rw [(machine_dungeon_area_eq w h hw hh hfit).2]

theorem machine_advance_eq (w h : Int) (s : State) (hw : 1 ≤ w) (hh : 1 ≤ h)
    (hfit : no_int_overflow w h) : Machine.advance w h s = advance w h s := by
  unfold Machine.advance advance
  rw [(machine_dungeon_area_eq w h hw hh hfit).1]

theorem machine_define_entrance_eq (w h : Int) (rs : RandomSource) (s : State)
    (hw : 1 ≤ w) (hh : 1 ≤ h) (hfit : no_int_overflow w h)
    (hr : entrance_draw_ok w h rs) (hs : fresh s ∨ Inv w h s) :
    Machine.define_entrance w h rs s = define_entrance w h rs s := by
  obtain ⟨b1, b2, b3⟩ := no_overflow_bounds w h hw hh hfit
  unfold Machine.define_entrance define_entrance
  rcases hs with hf | hinv
  · rw [if_pos ⟨hf.2.1, hf.1⟩, if_pos ⟨hf.2.1, hf.1⟩,
      (machine_dungeon_area_eq w h hw hh hfit).2, hf.2.2.1]
    have hlt : rs 0 0 (w * h).toNat < (w * h).toNat := hr
    have e : Machine.wrap_int ((rs 0 0 (w * h).toNat : Nat) : Int)
        = ((rs 0 0 (w * h).toNat : Nat) : Int) := wrap_int_eq _ (by omega) (by omega)
    simp only [e]
  · have hpos := hinv.pos
    rw [if_neg (by omega), if_neg (by omega)]

/-- On a grid without overflow a turn of the main loop of the compiled program
is the turn of the program on unbounded integers. -/
theorem machine_loop_body_eq (w h : Int) (rs : RandomSource) (s : State)
    (hw : 1 ≤ w) (hh : 1 ≤ h) (hfit : no_int_overflow w h)
    (hr : entrance_draw_ok w h rs) (hs : fresh s ∨ Inv w h s) (hc : loop_cond w h s) :
    Machine.loop_body w h rs s = loop_body w h rs s := by
  obtain ⟨hi1, hlt1, _⟩ := turn_point_inv w h rs s hw hr hs hc 0
  have hinv1 := (turn_point_inv w h rs s hw hr hs hc 0).2.2.2.2
  have hlt : (define_entrance w h rs s).i < (define_entrance w h rs s).generated_cells_number := by
    rcases hs with hf | hinv
    · obtain ⟨_, hb, hc1⟩ := define_entrance_fresh w h rs s hf hr
      rw [hb, hc1]; exact Nat.lt_succ_self 0
    · rw [define_entrance_of_inv w h rs s hinv]
      have := hinv.pos
      rcases hc.2 with h0 | h0 <;> omega
  unfold Machine.loop_body loop_body
  simp only []
  rw [machine_define_entrance_eq w h rs s hw hh hfit hr hs,
    machine_generate_room_eq w h rs _ _ hw hh hfit hinv1 hlt,
    machine_advance_eq w h _ hw hh hfit]

theorem machine_turns_eq (w h : Int) (rs : RandomSource) (hw : 1 ≤ w) (hh : 1 ≤ h)
    (hfit : no_int_overflow w h) (hr : entrance_draw_ok w h rs) (n : Nat) :
    ∀ s, fresh s ∨ Inv w h s → Machine.turns w h rs n s = turns w h rs n s := by
  induction n with
  | zero => intro s _; rfl
  | succ n ih =>
    intro s hs
    show (if Machine.loop_cond w h s then Machine.turns w h rs n (Machine.loop_body w h rs s)
        else s)
      = (if loop_cond w h s then turns w h rs n (loop_body w h rs s) else s)
    by_cases hc : loop_cond w h s
    · rw [if_pos hc, if_pos ((machine_loop_cond_iff w h s hw hh hfit).mpr hc),
        machine_loop_body_eq w h rs s hw hh hfit hr hs hc]
      exact ih _ (Or.inr (loop_body_inv w h rs s hw hr hs hc))
    · rw [if_neg hc, if_neg (fun hm => hc ((machine_loop_cond_iff w h s hw hh hfit).mp hm))]

theorem machine_dungeon_after_eq (w h : Int) (rs : RandomSource) (hw : 1 ≤ w) (hh : 1 ≤ h)
    (hfit : no_int_overflow w h) (hr : entrance_draw_ok w h rs) (n : Nat) :
    Machine.dungeon_after w h rs n = dungeon_after w h rs n :=
  machine_turns_eq w h rs hw hh hfit hr n _ (Or.inl initial_fresh)

theorem machine_run_loop_eq (w h : Int) (rs : RandomSource) (hw : 1 ≤ w) (hh : 1 ≤ h)
    (hfit : no_int_overflow w h) (hr : entrance_draw_ok w h rs) (n : Nat) :
    ∀ s, fresh s ∨ Inv w h s → Machine.run_loop w h rs n s = run_loop w h rs n s := by
  induction n with
  | zero =>
    intro s _
    show (if Machine.loop_cond w h s then none else some s)
      = (if loop_cond w h s then none else some s)
    by_cases hc : loop_cond w h s
    · rw [if_pos hc, if_pos ((machine_loop_cond_iff w h s hw hh hfit).mpr hc)]
    · rw [if_neg hc, if_neg (fun hm => hc ((machine_loop_cond_iff w h s hw hh hfit).mp hm))]
  | succ n ih =>
    intro s hs
    show (if Machine.loop_cond w h s then
          Machine.run_loop w h rs n (Machine.loop_body w h rs s) else some s)
      = (if loop_cond w h s then run_loop w h rs n (loop_body w h rs s) else some s)
    by_cases hc : loop_cond w h s
    · rw [if_pos hc, if_pos ((machine_loop_cond_iff w h s hw hh hfit).mpr hc),
        machine_loop_body_eq w h rs s hw hh hfit hr hs hc]
      exact ih _ (Or.inr (loop_body_inv w h rs s hw hr hs hc))
    · rw [if_neg hc, if_neg (fun hm => hc ((machine_loop_cond_iff w h s hw hh hfit).mp hm))]

theorem machine_generate_dungeon_eq (w h : Int) (rs : RandomSource) (hw : 1 ≤ w)
    (hh : 1 ≤ h) (hfit : no_int_overflow w h) (hr : entrance_draw_ok w h rs) (fuel : Nat) :
    Machine.generate_dungeon w h rs empty_grid fuel = generate_dungeon w h rs empty_grid fuel :=
  machine_run_loop_eq w h rs hw hh hfit hr fuel _ (Or.inl initial_fresh)

theorem machine_turn_point_eq (w h : Int) (rs : RandomSource) (s : State)
    (hw : 1 ≤ w) (hh : 1 ≤ h) (hfit : no_int_overflow w h)
    (hr : entrance_draw_ok w h rs) (hs : fresh s ∨ Inv w h s) (hc : loop_cond w h s)
    (k : Nat) : Machine.turn_point w h rs s k = turn_point w h rs s k := by
  have hinv1 := (turn_point_inv w h rs s hw hr hs hc 0).2.2.2.2
  have hlt : (define_entrance w h rs s).i < (define_entrance w h rs s).generated_cells_number := by
    rcases hs with hf | hinv
    · obtain ⟨_, hb, hc1⟩ := define_entrance_fresh w h rs s hf hr
      rw [hb, hc1]; exact Nat.lt_succ_self 0
    · rw [define_entrance_of_inv w h rs s hinv]
      have := hinv.pos
      rcases hc.2 with h0 | h0 <;> omega
  unfold Machine.turn_point turn_point
  rw [machine_define_entrance_eq w h rs s hw hh hfit hr hs,
    cell_to_unsigned w h _ hw hh hfit (hinv1.front_in _ hlt)]
  have hinv0 : Inv w h { define_entrance w h rs s with
      draws := (define_entrance w h rs s).draws + 1 } :=
    ⟨hinv1.pos, hinv1.front_in, hinv1.front_nz, hinv1.front_inj, hinv1.cover, hinv1.doors,
      hinv1.entr_in, hinv1.entr_first, hinv1.entr, hinv1.conn⟩
  exact machine_room_steps_eq w h _ _ _ hw hh hfit _
    (fun d hm => door_order_doors d (List.mem_of_mem_take hm)) _ hinv0 hlt rfl

theorem machine_mutual_doors_iff (w h : Int) (g : Int → Nat) (hw : 1 ≤ w) (hh : 1 ≤ h)
    (hfit : no_int_overflow w h) : Machine.mutual_doors w h g ↔ mutual_doors w h g := by
  unfold Machine.mutual_doors mutual_doors
  constructor
  · intro hm c d hc hd hb
    have := hm c d hc hd hb
    rw [machine_resolver_eq w h c d hw hh hfit hc] at this
    exact this
  · intro hm c d hc hd hb
    rw [machine_resolver_eq w h c d hw hh hfit hc]
    exact hm c d hc hd hb


/-! ## The neighbour resolver of the 32-bit program -/

theorem machine_resolver_north (w h c : Int) :
    Machine.get_neighbour_room_index w h c BIT_DOOR_NORTH
      = if Machine.wrap_int (c - w) ≥ 0 then Machine.wrap_int (c - w) else -1 := by
  unfold Machine.get_neighbour_room_index
  simp [BIT_DOOR_NORTH, BIT_DOOR_SOUTH, BIT_DOOR_EAST, BIT_DOOR_WEST]

theorem machine_resolver_south (w h c : Int) :
    Machine.get_neighbour_room_index w h c BIT_DOOR_SOUTH
      = if Machine.wrap_int (c + w) < Machine.wrap_int (w * h)
        then Machine.wrap_int (c + w) else -1 := by
  unfold Machine.get_neighbour_room_index
  simp [BIT_DOOR_NORTH, BIT_DOOR_SOUTH, BIT_DOOR_EAST, BIT_DOOR_WEST]

/-- When the area fits in an `int` the compiled resolver computes, for a cell
of the grid, what the resolver on unbounded integers computes, except to the
south of a cell whose sum with the width overflows. -/
theorem machine_resolver_eq_area (w h c : Int) (d : Nat) (hw : 1 ≤ w) (hh : 1 ≤ h)
    (harea : w * h ≤ 2147483647) (hc : in_grid w h c)
    (hs : d = BIT_DOOR_SOUTH → c + w < 2147483648) :
    Machine.get_neighbour_room_index w h c d = get_neighbour_room_index w h c d := by
  have b1 : w * 1 ≤ w * h := mul_le_mul_of_nonneg_left hh (by omega)
  rw [mul_one] at b1
  obtain ⟨hc0, hc1⟩ := hc
  have e1 : Machine.wrap_int (c - w) = c - w := wrap_int_eq _ (by omega) (by omega)
  have e2 : Machine.wrap_int (c + 1) = c + 1 := wrap_int_eq _ (by omega) (by omega)
  have e4 : Machine.wrap_int (c - 1) = c - 1 := wrap_int_eq _ (by omega) (by omega)
  have e5 : Machine.wrap_int (w * h) = w * h := wrap_int_eq _ (by omega) (by omega)
  have e6 : Machine.wrap_int (w - 1) = w - 1 := wrap_int_eq _ (by omega) (by omega)
  by_cases hS : d = BIT_DOOR_SOUTH
  · have e3 : Machine.wrap_int (c + w) = c + w :=
      wrap_int_eq _ (by omega) (hs hS)
    unfold Machine.get_neighbour_room_index get_neighbour_room_index
    simp only [e1, e2, e3, e4, e5, e6]
  · unfold Machine.get_neighbour_room_index get_neighbour_room_index
    simp only [e1, e2, e4, e5, e6, hS, if_false, false_and, or_false, false_or]

/-- C5, counterexample: on the 46341 x 46340 grid, whose area 2147441940 fits
in an `int`, the last cell 2147441939 has no cell to its south
(`cell_index + width` is not below the area), yet the compiled resolver returns
-2147479016, the wrapped sum, and not `-1`; and on the 46341 x 46341 grid, whose
area does not fit, cell 0 has a cell to its south (`0 + width` is below the
area), yet the compiled resolver returns `-1` and not 46341. -/
theorem resolver_rules_overflow :
    (1 : Int) ≤ 46341 ∧ (1 : Int) ≤ 46340
    ∧ in_grid 46341 46340 2147441939
    ∧ ¬ ((2147441939 : Int) + 46341 < 46341 * 46340)
    ∧ Machine.get_neighbour_room_index 46341 46340 2147441939 BIT_DOOR_SOUTH = -2147479016
    ∧ Machine.get_neighbour_room_index 46341 46340 2147441939 BIT_DOOR_SOUTH
        ≠ (if (2147441939 : Int) + 46341 < 46341 * 46340 then 2147441939 + 46341 else -1)
    ∧ in_grid 46341 46341 0
    ∧ (0 : Int) + 46341 < 46341 * 46341
    ∧ Machine.get_neighbour_room_index 46341 46341 0 BIT_DOOR_SOUTH = -1
    ∧ Machine.get_neighbour_room_index 46341 46341 0 BIT_DOOR_SOUTH
        ≠ (if (0 : Int) + 46341 < 46341 * 46341 then 0 + 46341 else -1) := by
  decide

/-- C5, amended.  For width and height at least 1 with
`width * height + width ≤ 2 ^ 31` (no candidate and no product overflows an
`int`) and a cell index of the grid, the compiled `get_neighbour_room_index`
returns: north, `cell_index - width` when that is at least 0; south,
`cell_index + width` when that is below the area; east, `cell_index + 1` when
the cell is not in the last column; west, `cell_index - 1` when the cell is not
in the first column; and `-1` in every other case.  Whenever the condition of a
direction holds, the value returned is a cell of the grid (so it is not `-1`). -/
theorem machine_resolver_rules (width height cell_index : Int)
    (hw : 1 ≤ width) (hh : 1 ≤ height) (hfit : no_int_overflow width height)
    (hc : in_grid width height cell_index) :
    Machine.get_neighbour_room_index width height cell_index BIT_DOOR_NORTH
        = (if cell_index - width ≥ 0 then cell_index - width else -1)
    ∧ Machine.get_neighbour_room_index width height cell_index BIT_DOOR_SOUTH
        = (if cell_index + width < width * height then cell_index + width else -1)
    ∧ Machine.get_neighbour_room_index width height cell_index BIT_DOOR_EAST
        = (if cell_index % width ≠ width - 1 then cell_index + 1 else -1)
    ∧ Machine.get_neighbour_room_index width height cell_index BIT_DOOR_WEST
        = (if cell_index % width ≠ 0 then cell_index - 1 else -1)
    ∧ (cell_index - width ≥ 0 → in_grid width height (cell_index - width))
    ∧ (cell_index + width < width * height → in_grid width height (cell_index + width))
    ∧ (cell_index % width ≠ width - 1 → in_grid width height (cell_index + 1))
    ∧ (cell_index % width ≠ 0 → in_grid width height (cell_index - 1)) := by
  rw [machine_resolver_eq width height cell_index BIT_DOOR_NORTH hw hh hfit hc,
    machine_resolver_eq width height cell_index BIT_DOOR_SOUTH hw hh hfit hc,
    machine_resolver_eq width height cell_index BIT_DOOR_EAST hw hh hfit hc,
    machine_resolver_eq width height cell_index BIT_DOOR_WEST hw hh hfit hc]
  exact resolver_rules_unbounded width height cell_index hw hh hc

/-- Witness of C5, amended: cell 0 of a 3x3 grid has an east and a south
neighbour, and none to the north and to the west. -/
theorem machine_resolver_rules_witness :
    no_int_overflow 3 3 ∧ in_grid 3 3 0 ∧
    Machine.get_neighbour_room_index 3 3 0 BIT_DOOR_NORTH = -1 ∧
    Machine.get_neighbour_room_index 3 3 0 BIT_DOOR_SOUTH = 3 ∧
    Machine.get_neighbour_room_index 3 3 0 BIT_DOOR_EAST = 1 ∧
    Machine.get_neighbour_room_index 3 3 0 BIT_DOOR_WEST = -1 :=
  have h := machine_resolver_rules 3 3 0 (by decide) (by decide) (by decide) (by decide)
  ⟨by decide, by decide, h.1.trans (by decide), h.2.1.trans (by decide),
    h.2.2.1.trans (by decide), h.2.2.2.1.trans (by decide)⟩

/-- C6, counterexample: on the 46341 x 46340 grid the compiled resolver
returns, for the last cell 2147441939 and the south door, -2147479016, which is
neither `-1` nor an index of the grid; and the run with entrance 2147441939 and
the south door drawn passes the test of the sentinel with it and then writes
the north door at `d->grid[-2147479016]`. -/
theorem neighbour_index_overflow :
    (1 : Int) ≤ 46341 ∧ (1 : Int) ≤ 46340
    ∧ in_grid 46341 46340 2147441939 ∧ is_door BIT_DOOR_SOUTH
    ∧ ¬ (Machine.get_neighbour_room_index 46341 46340 2147441939 BIT_DOOR_SOUTH = -1
        ∨ (0 ≤ Machine.get_neighbour_room_index 46341 46340 2147441939 BIT_DOOR_SOUTH
          ∧ Machine.get_neighbour_room_index 46341 46340 2147441939 BIT_DOOR_SOUTH
              < 46341 * 46340))
    ∧ Machine.entrance_draw_ok 46341 46340 last_cell_south_source
    ∧ (Machine.dungeon_after 46341 46340 last_cell_south_source 1).generated_cells 0
        = 2147441939
    ∧ (Machine.dungeon_after 46341 46340 last_cell_south_source 1).grid (-2147479016)
        = BIT_DOOR_NORTH
    ∧ (Machine.dungeon_after 46341 46340 last_cell_south_source 1).generated_cells 1
        = -2147479016 := by
  decide!

/-- C6, amended.  For width and height at least 1 with
`width * height + width ≤ 2 ^ 31`, a cell index of the grid and one of the four
door bits, the compiled `get_neighbour_room_index` returns `-1` or an index `n`
with `0 ≤ n < width * height`.  The cell on which `generate_room` works is a
generated cell; the generated cells of a run are cells of the grid and are
left as they are by the conversions to `unsigned int` and back: so the accesses
`d->grid[neighbour_room]` made by `generate_room` after its test of the
sentinel are inside the grid. -/
theorem machine_neighbour_index_valid (width height : Int) (hw : 1 ≤ width)
    (hh : 1 ≤ height) (hfit : no_int_overflow width height) :
    (∀ cell_index direction, in_grid width height cell_index → is_door direction →
      Machine.get_neighbour_room_index width height cell_index direction = -1
      ∨ (0 ≤ Machine.get_neighbour_room_index width height cell_index direction
          ∧ Machine.get_neighbour_room_index width height cell_index direction
              < width * height))
    ∧ (∀ rs, Machine.entrance_draw_ok width height rs → ∀ n j direction,
        j < (Machine.dungeon_after width height rs n).generated_cells_number →
        is_door direction →
        in_grid width height ((Machine.dungeon_after width height rs n).generated_cells j)
        ∧ Machine.wrap_int (Machine.to_unsigned
            ((Machine.dungeon_after width height rs n).generated_cells j))
            = (Machine.dungeon_after width height rs n).generated_cells j
        ∧ (Machine.get_neighbour_room_index width height
              ((Machine.dungeon_after width height rs n).generated_cells j) direction = -1
          ∨ in_grid width height (Machine.get_neighbour_room_index width height
              ((Machine.dungeon_after width height rs n).generated_cells j) direction))) := by
  obtain ⟨h1, h2⟩ := index_valid_unbounded width height hw hh
  obtain ⟨b1, b2, b3⟩ := no_overflow_bounds width height hw hh hfit
  constructor
  · intro c d hc hd
    rw [machine_resolver_eq width height c d hw hh hfit hc]
    exact h1 c d hc hd
  · intro rs hr n j d hj hd
    have hr2 := (machine_entrance_draw_iff width height rs hw hh hfit).mp hr
    rw [machine_dungeon_after_eq width height rs hw hh hfit hr2 n] at hj ⊢
    obtain ⟨h3, h4⟩ := h2 rs hr2 n j d hj hd
    refine ⟨h3, ?_, ?_⟩
    · rw [cell_to_unsigned width height _ hw hh hfit h3]
      exact wrap_int_eq _ (by unfold in_grid at h3; omega) (by unfold in_grid at h3; omega)
    · rw [machine_resolver_eq width height _ d hw hh hfit h3]
      exact h4

/-- Witness of C6, amended: the west neighbour of cell 4 on a 3x3 grid. -/
theorem machine_neighbour_index_valid_witness :
    no_int_overflow 3 3 ∧ in_grid 3 3 4 ∧ is_door BIT_DOOR_WEST ∧
    (Machine.get_neighbour_room_index 3 3 4 BIT_DOOR_WEST = -1
      ∨ (0 ≤ Machine.get_neighbour_room_index 3 3 4 BIT_DOOR_WEST
          ∧ Machine.get_neighbour_room_index 3 3 4 BIT_DOOR_WEST < 3 * 3)) :=
  ⟨by decide, by decide, by decide,
    (machine_neighbour_index_valid 3 3 (by decide) (by decide) (by decide)).1 4
      BIT_DOOR_WEST (by decide) (by decide)⟩

/-- C19, counterexample: on the 46341 x 46341 grid, whose area 2147488281 does
not fit in an `int`, the compiled resolver gives cell 0 as the north neighbour
of cell 46341, and `-1`, not 46341, as the south neighbour of cell 0. -/
theorem round_trip_overflow :
    (1 : Int) ≤ 46341
    ∧ in_grid 46341 46341 46341 ∧ is_door BIT_DOOR_NORTH
    ∧ Machine.get_neighbour_room_index 46341 46341 46341 BIT_DOOR_NORTH = 0
    ∧ Machine.get_neighbour_room_index 46341 46341 46341 BIT_DOOR_NORTH ≠ -1
    ∧ (get_opposite_direction_bit BIT_DOOR_NORTH).toNat = BIT_DOOR_SOUTH
    ∧ Machine.get_neighbour_room_index 46341 46341 0 BIT_DOOR_SOUTH = -1
    ∧ Machine.get_neighbour_room_index 46341 46341
        (Machine.get_neighbour_room_index 46341 46341 46341 BIT_DOOR_NORTH)
        (get_opposite_direction_bit BIT_DOOR_NORTH).toNat ≠ 46341 := by
  decide

/-- C19, amended.  For width and height at least 1 with
`width * height ≤ 2 ^ 31 - 1` (the area fits in an `int`), a cell `c` of the
grid and a door bit `d`: when the compiled `get_neighbour_room_index(c, d)` is
a value `n` other than `-1`, its value at `n` in the opposite direction is `c`
(also when `c + width` overflows and `n` is the wrapped, negative sum).  And
`get_opposite_direction_bit` maps door bits to door bits, is its own inverse on
them and fixes none of them. -/
theorem machine_neighbour_round_trip (width height : Int) (hw : 1 ≤ width)
    (hh : 1 ≤ height) (harea : width * height ≤ 2147483647) :
    (∀ c d, in_grid width height c → is_door d →
      Machine.get_neighbour_room_index width height c d ≠ -1 →
      Machine.get_neighbour_room_index width height
        (Machine.get_neighbour_room_index width height c d)
        (get_opposite_direction_bit d).toNat = c)
    ∧ (∀ d, is_door d →
        is_door (get_opposite_direction_bit d).toNat
        ∧ ((get_opposite_direction_bit d).toNat : Int) = get_opposite_direction_bit d
        ∧ get_opposite_direction_bit (get_opposite_direction_bit d).toNat = (d : Int)
        ∧ get_opposite_direction_bit d ≠ (d : Int)) := by
  have b1 : width * 1 ≤ width * height := mul_le_mul_of_nonneg_left hh (by omega)
  rw [mul_one] at b1
  refine ⟨?_, (round_trip_unbounded width height hw hh).2⟩
  intro c d hc hd hn
  by_cases hov : d = BIT_DOOR_SOUTH ∧ 2147483648 ≤ c + width
  · obtain ⟨hS, hbig⟩ := hov
    subst hS
    obtain ⟨hc0, hc1⟩ := hc
    have e1 : Machine.wrap_int (c + width) = c + width - 4294967296 := by
      unfold Machine.wrap_int; omega
    have e2 : Machine.wrap_int (width * height) = width * height :=
      wrap_int_eq _ (by omega) (by omega)
    have e3 : Machine.get_neighbour_room_index width height c BIT_DOOR_SOUTH
        = c + width - 4294967296 := by
      rw [machine_resolver_south, e1, e2, if_pos (by omega)]
    have e4 : (get_opposite_direction_bit BIT_DOOR_SOUTH).toNat = BIT_DOOR_NORTH := by decide
    have e5 : Machine.wrap_int (c + width - 4294967296 - width) = c := by
      unfold Machine.wrap_int; omega
    rw [e3, e4, machine_resolver_north, e5, if_pos (by omega)]
  · have hs : d = BIT_DOOR_SOUTH → c + width < 2147483648 := fun hS => by
      by_contra hx
      exact hov ⟨hS, by omega⟩
    have e := machine_resolver_eq_area width height c d hw hh harea hc hs
    rw [e] at hn ⊢
    have hin := neighbour_in_grid width height c d hw hc hd hn
    have hback := neighbour_back width height c d hw hc hd hn
    have hs2 : (get_opposite_direction_bit d).toNat = BIT_DOOR_SOUTH →
        get_neighbour_room_index width height c d + width < 2147483648 := by
      intro hS
      rw [hS, neighbour_eq_rule _ _ _ _ hw hin, rule_south] at hback
      obtain ⟨hc0, hc1⟩ := hc
      by_cases hlt : get_neighbour_room_index width height c d + width < width * height
      · omega
      · rw [if_neg hlt] at hback; omega
    rw [machine_resolver_eq_area width height _ _ hw hh harea hin hs2]
    exact hback

/-- Witness of C19, amended: from cell 4 of the 3x3 grid to its east neighbour
and back. -/
theorem machine_neighbour_round_trip_witness :
    (3 : Int) * 3 ≤ 2147483647 ∧ in_grid 3 3 4 ∧ is_door BIT_DOOR_EAST
    ∧ Machine.get_neighbour_room_index 3 3 4 BIT_DOOR_EAST ≠ -1
    ∧ Machine.get_neighbour_room_index 3 3
        (Machine.get_neighbour_room_index 3 3 4 BIT_DOOR_EAST)
        (get_opposite_direction_bit BIT_DOOR_EAST).toNat = 4 :=
  ⟨by decide, by decide, by decide, by decide,
    (machine_neighbour_round_trip 3 3 (by decide) (by decide) (by decide)).1 4 BIT_DOOR_EAST
      (by decide) (by decide) (by decide)⟩

/-! ## The runs of the 32-bit program -/

/-- C1, counterexample: on the 46341 x 46340 grid (area 2147441940, which fits
in an `int`), with the last cell 2147441939 drawn as entrance and the south
door drawn for it, after the first turn of the main loop the entrance, a cell
of the last row, has the south door bit, and the compiled resolver gives for it
-2147479016, which is not a cell of the grid (memory outside of the grid reads
as zero in the model). -/
theorem door_mutuality_overflow :
    (1 : Int) ≤ 46341 ∧ (1 : Int) ≤ 46340
    ∧ Machine.entrance_draw_ok 46341 46340 last_cell_south_source
    ∧ in_grid 46341 46340 2147441939
    ∧ (46341 : Int) * 46340 ≤ 2147441939 + 46341
    ∧ has_bit ((Machine.dungeon_after 46341 46340 last_cell_south_source 1).grid 2147441939)
        BIT_DOOR_SOUTH
    ∧ ¬ in_grid 46341 46340
        (Machine.get_neighbour_room_index 46341 46340 2147441939 BIT_DOOR_SOUTH)
    ∧ ¬ Machine.mutual_doors 46341 46340
        (Machine.dungeon_after 46341 46340 last_cell_south_source 1).grid
    ∧ ¬ no_door_off_grid 46341 46340
        (Machine.dungeon_after 46341 46340 last_cell_south_source 1).grid := by
  have hbit : has_bit
      ((Machine.dungeon_after 46341 46340 last_cell_south_source 1).grid 2147441939)
      BIT_DOOR_SOUTH := by decide!
  have hout : ¬ in_grid 46341 46340
      (Machine.get_neighbour_room_index 46341 46340 2147441939 BIT_DOOR_SOUTH) := by decide
  refine ⟨by decide, by decide, by decide, by decide, by decide, hbit, hout, ?_, ?_⟩
  · intro hm
    exact hout (hm 2147441939 BIT_DOOR_SOUTH (by decide) (by decide) hbit).2.1
  · intro hm
    exact (hm 2147441939 (by decide)).2.2.1 (by decide) hbit

/-- C1, amended.  For a grid of width and height at least 1 with
`width * height + width ≤ 2 ^ 31` and a random source whose entrance draw is
below the area, after every number of turns of the main loop of the compiled
`generate_dungeon` on the all-zero grid, and in every state the function
returns: a cell of the grid with door bit `d` has a neighbour in direction `d`
(the compiled resolver does not answer `-1`), that neighbour is a cell of the
grid and has the opposite door bit; and no cell on an edge of the grid has a
door bit pointing out of the grid. -/
theorem machine_door_mutuality (width height : Int) (rs : RandomSource)
    (hw : 1 ≤ width) (hh : 1 ≤ height) (hfit : no_int_overflow width height)
    (hr : Machine.entrance_draw_ok width height rs) :
    (∀ n, Machine.mutual_doors width height (Machine.dungeon_after width height rs n).grid
        ∧ no_door_off_grid width height (Machine.dungeon_after width height rs n).grid)
    ∧ (∀ fuel s, Machine.generate_dungeon width height rs empty_grid fuel = some s →
        Machine.mutual_doors width height s.grid
        ∧ no_door_off_grid width height s.grid) := by
  have hr2 := (machine_entrance_draw_iff width height rs hw hh hfit).mp hr
  obtain ⟨h1, h2⟩ := door_mutuality_unbounded width height rs hw hh hr2
  constructor
  · intro n
    rw [machine_dungeon_after_eq width height rs hw hh hfit hr2 n]
    exact ⟨(machine_mutual_doors_iff width height _ hw hh hfit).mpr (h1 n).1, (h1 n).2⟩
  · intro fuel s hs
    rw [machine_generate_dungeon_eq width height rs hw hh hfit hr2 fuel] at hs
    exact ⟨(machine_mutual_doors_iff width height _ hw hh hfit).mpr (h2 fuel s hs).1,
      (h2 fuel s hs).2⟩

/-- Witness of C1, amended, on the 3x3 grid with the all-doors random source. -/
theorem machine_door_mutuality_witness :
    (1 : Int) ≤ 3 ∧ no_int_overflow 3 3 ∧ Machine.entrance_draw_ok 3 3 all_doors_source ∧
    ((∀ n, Machine.mutual_doors 3 3 (Machine.dungeon_after 3 3 all_doors_source n).grid
        ∧ no_door_off_grid 3 3 (Machine.dungeon_after 3 3 all_doors_source n).grid)
    ∧ (∀ fuel s, Machine.generate_dungeon 3 3 all_doors_source empty_grid fuel = some s →
        Machine.mutual_doors 3 3 s.grid ∧ no_door_off_grid 3 3 s.grid)) :=
  ⟨by decide, by decide, by decide,
    machine_door_mutuality 3 3 all_doors_source (by decide) (by decide) (by decide)
      (by decide)⟩

/-- C17, counterexample: on the 641 x 6700417 grid the `int` variable
`dungeon_area` is 1 (the product is `2 ^ 32 + 1`), so the array of generated
cells is allocated with one entry; with entrance draw 0 and 15 drawn for
`potential_doors`, the east turn of the door loop of the first turn of the main
loop writes `generated_cells[1]`, at an index that is not below the allocated
size, and `generated_cells_number` becomes 2, more than the allocated size. -/
theorem frontier_overflow :
    (1 : Int) ≤ 641 ∧ (1 : Int) ≤ 6700417
    ∧ Machine.entrance_draw_ok 641 6700417 zero_then_all_doors
    ∧ Machine.dungeon_area 641 6700417 = 1
    ∧ Machine.loop_cond 641 6700417 (Machine.dungeon_after 641 6700417 zero_then_all_doors 0)
    ∧ (Machine.turn_point 641 6700417 zero_then_all_doors
        (Machine.dungeon_after 641 6700417 zero_then_all_doors 0) 1).generated_cells_number = 1
    ∧ ¬ (((Machine.turn_point 641 6700417 zero_then_all_doors
        (Machine.dungeon_after 641 6700417 zero_then_all_doors 0) 1).generated_cells_number
          : Int) < Machine.dungeon_area 641 6700417)
    ∧ (Machine.turn_point 641 6700417 zero_then_all_doors
        (Machine.dungeon_after 641 6700417 zero_then_all_doors 0) 2).generated_cells_number = 2
    ∧ (Machine.turn_point 641 6700417 zero_then_all_doors
        (Machine.dungeon_after 641 6700417 zero_then_all_doors 0) 2).generated_cells 1 = 1
    ∧ (Machine.dungeon_after 641 6700417 zero_then_all_doors 1).generated_cells_number = 2
    ∧ ¬ (((Machine.dungeon_after 641 6700417 zero_then_all_doors 1).generated_cells_number
          : Int) ≤ Machine.dungeon_area 641 6700417) := by
  decide!

/-- C17, amended.  For a grid of width and height at least 1 with
`width * height + width ≤ 2 ^ 31` and a random source whose entrance draw is
below the area, on the all-zero grid: the `int` variable `dungeon_area`, the
allocated size of the array, is `width * height`; after every positive number
of turns of the compiled program, and at every point inside a turn (after the
definition of the entrance and after each turn of the door loop),
`1 ≤ generated_cells_number ≤ width * height`, and the cursor `i` used to read
`generated_cells[i]` is below `generated_cells_number`; a turn of the door loop
leaves `generated_cells_number` as it is or writes one entry, at the index
`generated_cells_number`, which is then strictly below `width * height`. -/
theorem machine_frontier_bounded (width height : Int) (rs : RandomSource)
    (hw : 1 ≤ width) (hh : 1 ≤ height) (hfit : no_int_overflow width height)
    (hr : Machine.entrance_draw_ok width height rs) :
    Machine.dungeon_area width height = width * height
    ∧ (∀ n, 1 ≤ n →
        1 ≤ (Machine.dungeon_after width height rs n).generated_cells_number
        ∧ ((Machine.dungeon_after width height rs n).generated_cells_number : Int)
            ≤ width * height)
    ∧ (∀ n, Machine.loop_cond width height (Machine.dungeon_after width height rs n) → ∀ p,
        1 ≤ (Machine.turn_point width height rs (Machine.dungeon_after width height rs n)
              p).generated_cells_number
        ∧ ((Machine.turn_point width height rs (Machine.dungeon_after width height rs n)
              p).generated_cells_number : Int) ≤ width * height
        ∧ (Machine.turn_point width height rs (Machine.dungeon_after width height rs n) p).i
            < (Machine.turn_point width height rs (Machine.dungeon_after width height rs n)
                p).generated_cells_number)
    ∧ (∀ n, Machine.loop_cond width height (Machine.dungeon_after width height rs n) → ∀ p,
        (Machine.turn_point width height rs (Machine.dungeon_after width height rs n)
            (p + 1)).generated_cells_number
          = (Machine.turn_point width height rs (Machine.dungeon_after width height rs n)
              p).generated_cells_number
        ∨ ((Machine.turn_point width height rs (Machine.dungeon_after width height rs n)
              (p + 1)).generated_cells_number
            = (Machine.turn_point width height rs (Machine.dungeon_after width height rs n)
                p).generated_cells_number + 1
          ∧ ((Machine.turn_point width height rs (Machine.dungeon_after width height rs n)
                p).generated_cells_number : Int) < width * height)) := by
  have hr2 := (machine_entrance_draw_iff width height rs hw hh hfit).mp hr
  obtain ⟨h1, h2, h3⟩ := frontier_bounded_unbounded width height rs hw hh hr2
  have ed := machine_dungeon_after_eq width height rs hw hh hfit hr2
  have et : ∀ n, loop_cond width height (dungeon_after width height rs n) → ∀ p,
      Machine.turn_point width height rs (dungeon_after width height rs n) p
        = turn_point width height rs (dungeon_after width height rs n) p :=
    fun n hc p => machine_turn_point_eq width height rs _ hw hh hfit hr2
      (dungeon_after_state width height rs hw hh hr2 n) hc p
  refine ⟨(machine_dungeon_area_eq width height hw hh hfit).1, ?_, ?_, ?_⟩
  · intro n hn
    rw [ed n]
    exact h1 n hn
  · intro n hc p
    rw [ed n] at hc ⊢
    have hc2 := (machine_loop_cond_iff width height _ hw hh hfit).mp hc
    rw [et n hc2 p]
    exact h2 n hc2 p
  · intro n hc p
    rw [ed n] at hc ⊢
    have hc2 := (machine_loop_cond_iff width height _ hw hh hfit).mp hc
    rw [et n hc2 p, et n hc2 (p + 1)]
    exact h3 n hc2 p

/-- Witness of C17, amended, on the 3x3 grid with the all-doors random source,
after the four turns of the run. -/
theorem machine_frontier_bounded_witness :
    no_int_overflow 3 3 ∧ Machine.entrance_draw_ok 3 3 all_doors_source
    ∧ 1 ≤ (Machine.dungeon_after 3 3 all_doors_source 4).generated_cells_number
    ∧ ((Machine.dungeon_after 3 3 all_doors_source 4).generated_cells_number : Int) ≤ 3 * 3 :=
  ⟨by decide, by decide,
    (machine_frontier_bounded 3 3 all_doors_source (by decide) (by decide) (by decide)
      (by decide)).2.1 4 (by decide)⟩

/-- C20, counterexample: on the 641 x 6700417 grid, with entrance index 0 and
15 for every draw of `potential_doors`, the loop condition of the compiled
program fails after the first turn, `generate_dungeon` returns the state after
one turn, and the number of generated cells is 2, not `width * height`. -/
theorem all_doors_overflow :
    (1 : Int) ≤ 641 ∧ (1 : Int) ≤ 6700417
    ∧ Machine.entrance_draw_ok 641 6700417 zero_then_all_doors
    ∧ in_grid 641 6700417 ((zero_then_all_doors 0 0 1 : Nat) : Int)
    ∧ (∀ k, 1 ≤ k → zero_then_all_doors k 0 g_neighbours = 15)
    ∧ Machine.generate_dungeon 641 6700417 zero_then_all_doors empty_grid 1
        = some (Machine.dungeon_after 641 6700417 zero_then_all_doors 1)
    ∧ (Machine.dungeon_after 641 6700417 zero_then_all_doors 1).generated_cells_number = 2
    ∧ ((Machine.dungeon_after 641 6700417 zero_then_all_doors 1).generated_cells_number : Int)
        ≠ 641 * 6700417 := by
  have hsrc : ∀ k, 1 ≤ k → zero_then_all_doors k 0 g_neighbours = 15 := fun k hk => by
    unfold zero_then_all_doors
    rw [if_neg (by omega)]
  have h0 : Machine.loop_cond 641 6700417 (initial_state empty_grid) := by decide
  have h1 : ¬ Machine.loop_cond 641 6700417
      (Machine.loop_body 641 6700417 zero_then_all_doors (initial_state empty_grid)) := by
    decide!
  have e1 : Machine.dungeon_after 641 6700417 zero_then_all_doors 1
      = Machine.loop_body 641 6700417 zero_then_all_doors (initial_state empty_grid) := by
    show (if Machine.loop_cond 641 6700417 (initial_state empty_grid)
      then Machine.turns 641 6700417 zero_then_all_doors 0
        (Machine.loop_body 641 6700417 zero_then_all_doors (initial_state empty_grid))
      else initial_state empty_grid) = _
    rw [if_pos h0]
    rfl
  have e2 : Machine.generate_dungeon 641 6700417 zero_then_all_doors empty_grid 1
      = some (Machine.loop_body 641 6700417 zero_then_all_doors
          (initial_state empty_grid)) := by
    show (if Machine.loop_cond 641 6700417 (initial_state empty_grid)
      then Machine.run_loop 641 6700417 zero_then_all_doors 0
        (Machine.loop_body 641 6700417 zero_then_all_doors (initial_state empty_grid))
      else some (initial_state empty_grid)) = _
    rw [if_pos h0]
    show (if Machine.loop_cond 641 6700417
        (Machine.loop_body 641 6700417 zero_then_all_doors (initial_state empty_grid))
      then none else some _) = _
    rw [if_neg h1]
  refine ⟨by decide, by decide, by decide, by decide, hsrc, ?_, by decide!, by decide!⟩
  rw [e1]
  exact e2

/-- C20, amended.  For a grid of width and height at least 1 with
`width * height + width ≤ 2 ^ 31`, a random source whose entrance draw is below
the area and whose every draw of `potential_doors` (every call after the
first) is 15, on the all-zero grid: there is a number `T` of turns, with
`1 ≤ T ≤ width * height`, such that the condition of the main loop of the
compiled program holds before each of the first `T` turns and fails after
them, so `generate_dungeon` returns the state after `T` turns (for every bound
of at least `T` turns, and not within fewer turns); the cursor is `n` after
`n ≤ T` turns, that is, it is never set back; and in the state returned the
number of generated cells is `width * height`. -/
theorem machine_all_doors_terminates (width height : Int) (rs : RandomSource)
    (hw : 1 ≤ width) (hh : 1 ≤ height) (hfit : no_int_overflow width height)
    (hr : Machine.entrance_draw_ok width height rs)
    (hall : ∀ k, 1 ≤ k → rs k 0 g_neighbours = 15) :
    ∃ T : Nat, 1 ≤ T ∧ (T : Int) ≤ width * height
      ∧ (∀ n, n < T →
          Machine.loop_cond width height (Machine.dungeon_after width height rs n))
      ∧ ¬ Machine.loop_cond width height (Machine.dungeon_after width height rs T)
      ∧ (∀ fuel, T ≤ fuel → Machine.generate_dungeon width height rs empty_grid fuel
            = some (Machine.dungeon_after width height rs T))
      ∧ (∀ fuel, fuel < T →
          Machine.generate_dungeon width height rs empty_grid fuel = none)
      ∧ (∀ n, n ≤ T → (Machine.dungeon_after width height rs n).i = n)
      ∧ ((Machine.dungeon_after width height rs T).generated_cells_number : Int)
          = width * height := by
  have hr2 := (machine_entrance_draw_iff width height rs hw hh hfit).mp hr
  obtain ⟨b1, b2, b3⟩ := no_overflow_bounds width height hw hh hfit
  have hu : width * height < 2 ^ 32 :=
    lt_of_le_of_lt (show width * height ≤ 2147483648 by omega) (by norm_num)
  obtain ⟨T, hT1, hT2, hloop, hexit, hret, hnone, hcur, hfull⟩ :=
    all_doors_unbounded width height rs hw hh hu hr2 hall
  have ed := machine_dungeon_after_eq width height rs hw hh hfit hr2
  have eg := machine_generate_dungeon_eq width height rs hw hh hfit hr2
  have ec := fun s => machine_loop_cond_iff width height s hw hh hfit
  refine ⟨T, hT1, hT2, ?_, ?_, ?_, ?_, ?_, ?_⟩
  · intro n hn
    rw [ed n]
    exact (ec _).mpr (hloop n hn)
  · rw [ed T]
    exact fun hc => hexit ((ec _).mp hc)
  · intro fuel hf
    rw [eg fuel, ed T]
    exact hret fuel hf
  · intro fuel hf
    rw [eg fuel]
    exact hnone fuel hf
  · intro n hn
    rw [ed n]
    exact hcur n hn
  · rw [ed T]
    exact hfull

/-- Witness of C20, amended: the 3x3 grid with the all-doors random source. -/
theorem machine_all_doors_terminates_witness :
    no_int_overflow 3 3 ∧ Machine.entrance_draw_ok 3 3 all_doors_source
    ∧ (∀ k, 1 ≤ k → all_doors_source k 0 g_neighbours = 15)
    ∧ ∃ T : Nat, 1 ≤ T ∧ (T : Int) ≤ 3 * 3
      ∧ (∀ n, n < T → Machine.loop_cond 3 3 (Machine.dungeon_after 3 3 all_doors_source n))
      ∧ ¬ Machine.loop_cond 3 3 (Machine.dungeon_after 3 3 all_doors_source T)
      ∧ (∀ fuel, T ≤ fuel → Machine.generate_dungeon 3 3 all_doors_source empty_grid fuel
            = some (Machine.dungeon_after 3 3 all_doors_source T))
      ∧ (∀ fuel, fuel < T →
          Machine.generate_dungeon 3 3 all_doors_source empty_grid fuel = none)
      ∧ (∀ n, n ≤ T → (Machine.dungeon_after 3 3 all_doors_source n).i = n)
      ∧ ((Machine.dungeon_after 3 3 all_doors_source T).generated_cells_number : Int)
          = 3 * 3 :=
  have hsrc : ∀ k, 1 ≤ k → all_doors_source k 0 g_neighbours = 15 := fun k hk => by
    unfold all_doors_source
    rw [if_neg (by omega)]
  ⟨by decide, by decide, hsrc,
    machine_all_doors_terminates 3 3 all_doors_source (by decide) (by decide) (by decide)
      (by decide) hsrc⟩

end Dungeon
